import Mathlib

/-!
# sushi: the command parser of a small POSIX-style shell

A shallow embedding of the command parsing functions of `src/sushi.c`
(`parsecmd`, `expand_tilde`, `expand_path`, `parseredir` and the helpers they
call) together with theorems about them.

Conventions of the embedding.

* A C string is the list of its bytes before the terminating NUL (`CStr`).
  A `char *` that may be `NULL` is an `Option CStr`.
* `malloc`, `realloc` and `strdup` are taken to succeed; the capacity
  bookkeeping of `alloccmd` / `realloccmd` (`currsize`) has no other effect
  and is left out.
* What the functions ask the operating system (`getenv`, `getpwnam`, `glob`,
  `open`) is a parameter of the definitions.
* A function that returns `0` or `-1` returns an `Except`/`Option`, or the
  return code itself where the out-parameters matter on failure too.
* The tokenizer is given twice: on strings (`parsecmd`, which the theorems
  are about) and on the bytes of the line buffer with offsets for the
  pointers (`parsecmd_buffer`); `parsecmd_buffer_eq_parsecmd` proves that
  they agree on every line.
-/

namespace Sushi

deriving instance DecidableEq for Except

/-- A C string: the bytes before the terminating NUL. -/
abbrev CStr := List Char

/-! ## Types (`src/sushi.c`, lines 114-133) -/

/-- The value of `OPT_CLOBBER` in `enum opt`. -/
def OPT_CLOBBER : Nat := 1
/-- The value of `OPT_CMDLINE` in `enum opt`. -/
def OPT_CMDLINE : Nat := 1 <<< 1
/-- The value of `OPT_GLOB` in `enum opt`. -/
def OPT_GLOB : Nat := 1 <<< 2
/-- The value of `OPT_IGNOREEOF` in `enum opt`. -/
def OPT_IGNOREEOF : Nat := 1 <<< 3
/-- The value of `OPT_PIPEFAIL` in `enum opt`. -/
def OPT_PIPEFAIL : Nat := 1 <<< 4
/-- The value of `OPT_STDIN` in `enum opt`. -/
def OPT_STDIN : Nat := 1 <<< 5
/-- The value of `OPT_VERBOSE` in `enum opt`. -/
def OPT_VERBOSE : Nat := 1 <<< 6

/-- The `struct command`: `argv` is the array of slots including the `NULL`
that `parsecmd` stores at index `argc`; `dynallocinfo` is the parallel array
of ownership marks (`0` borrowed, `1` owned, `-1` at the terminator). -/
structure command where
  argv : List (Option CStr)
  argc : Nat
  dynallocinfo : List Int
deriving DecidableEq, Repr

/-- The `struct cmdinfo`: `redirfds` is the array `int redirfds[3]`, holding
the source descriptor, the target descriptor and the descriptor to close. -/
structure cmdinfo where
  canexpandpath : Bool
  redirfds : Int × Int × Int
deriving DecidableEq, Repr

/-- What `expand_lone_tilde` asks the system: the value of `getenv("HOME")`
and, for a user name, the `pw_dir` of `getpwnam(name)` (`none` for `NULL`). -/
structure Env where
  home : Option CStr
  getpwnam : CStr → Option CStr

/-! ## String helpers of the C library -/

/-- The `strpbrk(s, accept)` of the C library: the suffix of `s` that starts
at the first byte found in `accept`, `none` (`NULL`) when there is none. -/
def strpbrk (s accept : CStr) : Option CStr :=
  match s.dropWhile (fun c => !accept.contains c) with
  | [] => none
  | r => some r

/-- The `strchr(s, c)` of the C library for `c` other than NUL. -/
def strchr (s : CStr) (c : Char) : Option CStr :=
  match s.dropWhile (fun d => d != c) with
  | [] => none
  | r => some r

/-! ## Tilde expansion (`src/sushi.c`, lines 1205-1246) -/

/-- The function `expand_lone_tilde`: `s` starts with `~`; when nothing
follows, the value of `HOME`, else the home directory of the user named by
the rest. -/
def expand_lone_tilde (env : Env) (s : CStr) : Option CStr :=
  match s.drop 1 with
  | [] => env.home
  | name => env.getpwnam name

/-- The function `expand_tilde`: the result is the returned string with the
value stored in `*dynalloc`, and `none` when the function returns `NULL`. -/
def expand_tilde (env : Env) (s : CStr) : Option (CStr × Int) :=
  if s.head? ≠ some '~' then none
  else
    match strpbrk s ['/', ' '] with
    | none => (expand_lone_tilde env s).map (fun e => (e, 0))
    | some tail =>
      let sdup := s.take (s.length - tail.length)
      match expand_lone_tilde env sdup with
      | none => none
      | some exp => some (exp ++ tail, 1)

/-! ## Tokenizer (`src/sushi.c`, lines 844-969) -/

/-- The slot that `parsecmd` stores for the token `tok` (lines 913-921 and
946-954): the tilde expansion and its ownership mark when there is one, else
the token itself, borrowed from the line buffer. -/
def store_slot (env : Env) (tok : CStr) : CStr × Int :=
  match expand_tilde env tok with
  | some r => r
  | none => (tok, 0)

/-- State of the `while` loop of `parsecmd` at its exit: `cur` is the string
at `prev_start`, `slots` are `argv[0..i)` with their `dynallocinfo`. -/
structure pstate where
  cur : CStr
  delim : Char
  searching : Bool
  slots : List (CStr × Int)
deriving DecidableEq, Repr

/-- The `while (ptr && ptr < end)` loop of `parsecmd` (lines 893-932).

The first argument is the string at `ptr` (the bytes from `ptr` to the
terminator of the line buffer) and `cur` the bytes from `prev_start` to
`ptr`, which is the string at `prev_start` once the loop writes NUL at
`*ptr`. `popchar(ptr)` removes the first byte of the string at `ptr` in place,
so the string at `ptr` loses its head and `ptr` stays; `++ptr` moves the head
of the string at `ptr` to the end of `cur`. `end` is computed once, before
any `popchar`: after the string at `ptr` is used up, `ptr` walks over the NUL
bytes `popchar` left behind up to `end`, taking the last branch each time
and changing nothing. The loop on the bytes of the buffer is
`parsecmd_buffer_loop`, and `parsecmd_buffer_eq_parsecmd` shows that both
compute the same. -/
def parsecmd_loop (env : Env) :
    CStr → CStr → Char → Bool → List (CStr × Int) → pstate
  | [], cur, delim, searching, slots => ⟨cur, delim, searching, slots⟩
  | c :: rest, cur, delim, searching, slots =>
    if c = '\\' then
      -- popchar(ptr++): the backslash goes, the byte after it is stepped over
      match rest with
      | [] => ⟨cur, delim, searching, slots⟩
      | d :: rest2 => parsecmd_loop env rest2 (cur ++ [d]) delim searching slots
    else if c = delim then
      parsecmd_loop env rest []
        ' ' (if delim ≠ ' ' then false else searching)
        (slots ++ [store_slot env cur])
    else if delim = ' ' ∧ (c = '\'' ∨ c = '"') then
      parsecmd_loop env rest cur c true slots
    else
      parsecmd_loop env rest (cur ++ [c]) delim searching slots

/-- The slots `parsecmd` ends with (lines 938-956): a non-empty string at
`prev_start` is stored as the last token. -/
def final_slots (env : Env) (st : pstate) : List (CStr × Int) :=
  if st.cur ≠ [] then st.slots ++ [store_slot env st.cur] else st.slots

/-- The command that `parsecmd` fills in from the slots it stored: `argv`
with `NULL` at index `argc`, `dynallocinfo` with `-1` there. -/
def mkcommand (slots : List (CStr × Int)) : command :=
  { argv := slots.map (fun p => some p.1) ++ [none]
    argc := slots.length
    dynallocinfo := slots.map (fun p => p.2) ++ [-1] }

/-- The function `parsecmd`. `Except.error` is the return value `-1`, with the
message written to `stderr`; `Except.ok` is the return value `0` with the
contents of `*cmd` and `*info`. -/
def parsecmd (env : Env) (s : CStr) (info : cmdinfo) :
    Except String (command × cmdinfo) :=
  let canexpandpath := (strpbrk s ['?', '*', '[']).isSome
  -- s[strcspn(s, "\n")] = '\0'
  let s := s.takeWhile (fun c => c != '\n')
  if (strchr s ' ').isNone then
    .ok ({ argv := [some s, none], argc := 1, dynallocinfo := [0, -1] },
         { info with canexpandpath := canexpandpath })
  else
    let st := parsecmd_loop env s [] ' ' false []
    if st.searching then
      .error "syntax error: unclosed quotation\n"
    else
      .ok (mkcommand (final_slots env st), { info with canexpandpath := canexpandpath })

/-! ## Tokenizer on the bytes of the line buffer

The same function once more, this time with the line buffer as the array of
bytes it is in C, offsets into it for `ptr`, `prev_start` and `end`,
`popchar` as the `memmove` it performs and the borrowed slots of `argv` as
offsets read back from the buffer at the end. `parsecmd_buffer_eq_parsecmd`
shows that it computes what `parsecmd` computes. -/

/-- The terminating byte of a C string. -/
def NUL : Char := Char.ofNat 0

/-- The C string at offset `p` of a buffer: the bytes from `p` up to the
first NUL. -/
def cstr_at (buf : List Char) (p : Nat) : CStr :=
  (buf.drop p).takeWhile (fun c => c != NUL)

/-- The function `popchar` (lines 1545-1551) on the buffer that holds `ptr`
at offset `p`: `l = strlen(ptr) - 1`, `memmove(ptr, ptr + 1, l)`,
`*(ptr + l) = 0`. -/
def popchar (buf : List Char) (p : Nat) : List Char :=
  let l := (cstr_at buf p).length - 1
  buf.take p ++ (buf.drop (p + 1)).take l ++ NUL :: buf.drop (p + l + 1)

/-- A slot of `argv` with its `dynallocinfo`: a pointer into the line buffer
(an offset, mark `0`) or the string `expand_tilde` returned with its mark. -/
abbrev bslot := Nat ⊕ (CStr × Int)

/-- The slot stored for the token at `prev_start` (lines 913-921). -/
def store_bslot (env : Env) (buf : List Char) (prev_start : Nat) : bslot :=
  match expand_tilde env (cstr_at buf prev_start) with
  | some r => .inr r
  | none => .inl prev_start

/-- The string a slot points to and its mark, read from the buffer. -/
def read_bslot (buf : List Char) : bslot → CStr × Int
  | .inl p => (cstr_at buf p, 0)
  | .inr r => r

/-- The variables of the `while` loop of `parsecmd`, with the buffer. -/
structure bstate where
  buf : List Char
  ptr : Nat
  prev_start : Nat
  delim : Char
  searching : Bool
  argv : List bslot

/-- The `while (ptr && ptr < end)` loop of `parsecmd` (lines 893-932) on the
buffer, `endp` being the offset of `end`. The first argument bounds the number
of iterations; `none` is returned when it does not suffice. -/
def parsecmd_buffer_loop (env : Env) (endp : Nat) : Nat → bstate → Option bstate
  | 0, st => if st.ptr < endp then none else some st
  | fuel + 1, st =>
    if st.ptr < endp then
      let c := st.buf.getD st.ptr NUL
      if c = '\\' then
        parsecmd_buffer_loop env endp fuel
          { st with buf := popchar st.buf st.ptr, ptr := st.ptr + 1 }
      else if c = st.delim then
        let buf := st.buf.set st.ptr NUL
        parsecmd_buffer_loop env endp fuel
          { buf := buf, ptr := st.ptr + 1, prev_start := st.ptr + 1, delim := ' '
            searching := if st.delim ≠ ' ' then false else st.searching
            argv := st.argv ++ [store_bslot env buf st.prev_start] }
      else if st.delim = ' ' ∧ (c = '\'' ∨ c = '"') then
        parsecmd_buffer_loop env endp fuel
          { st with delim := c, buf := popchar st.buf st.ptr, searching := true }
      else
        parsecmd_buffer_loop env endp fuel { st with ptr := st.ptr + 1 }
    else some st

/-- The function `parsecmd` on the buffer `s` followed by its terminator.
The outer `none` stands for a loop that has not ended within twice the length
of the line plus one iterations, which does not happen
(`parsecmd_buffer_eq_parsecmd`). -/
def parsecmd_buffer (env : Env) (s : CStr) (info : cmdinfo) :
    Option (Except String (command × cmdinfo)) :=
  let canexpandpath := (strpbrk s ['?', '*', '[']).isSome
  -- s[strcspn(s, "\n")] = 0
  let buf := (s ++ [NUL]).set (s.takeWhile (fun c => c != '\n')).length NUL
  if (strchr (cstr_at buf 0) ' ').isNone then
    some (.ok (mkcommand [read_bslot buf (.inl 0)],
               { info with canexpandpath := canexpandpath }))
  else
    let endp := (cstr_at buf 0).length
    match parsecmd_buffer_loop env endp (2 * endp + 1) ⟨buf, 0, 0, ' ', false, []⟩ with
    | none => none
    | some st =>
      if st.searching then some (.error "syntax error: unclosed quotation\n")
      else
        let argv :=
          if st.buf.getD st.prev_start NUL ≠ NUL then
            st.argv ++ [store_bslot env st.buf st.prev_start]
          else st.argv
        some (.ok (mkcommand (argv.map (read_bslot st.buf)),
                   { info with canexpandpath := canexpandpath }))

/-- A slot of the loop on the buffer stands for the slot `s` of the loop of
`parsecmd`, `pre` being the bytes of the buffer before `prev_start`: the
expansion is `s`, or the offset lies in `pre`, before a NUL of `pre`, with
the bytes of `s` in between. -/
def slot_rel (pre : List Char) (b : bslot) (s : CStr × Int) : Prop :=
  match b with
  | .inl p => s.2 = 0 ∧ NUL ∉ s.1 ∧ ∃ r, pre.drop p = s.1 ++ NUL :: r
  | .inr r => r = s

/-! ## String to integer conversion (`src/sushi.c`, lines 1575-1590, 1703-1735) -/

/-- The `isdigit` of the C library (in the C locale). -/
def isdigit (c : Char) : Bool := decide ('0' ≤ c ∧ c ≤ '9')

/-- The `isspace` of the C library (in the C locale). -/
def isspace (c : Char) : Bool :=
  c == ' ' || c == '\t' || c == '\n' || c == '\x0b' || c == '\x0c' || c == '\r'

/-- The value of `INT_MAX` for a 32-bit `int`. -/
def INT_MAX : Int := 2 ^ 31 - 1
/-- The value of `INT_MIN` for a 32-bit `int`. -/
def INT_MIN : Int := -(2 ^ 31)
/-- The value of `LONG_MAX` for a 64-bit `long`. -/
def LONG_MAX : Int := 2 ^ 63 - 1
/-- The value of `LONG_MIN` for a 64-bit `long`. -/
def LONG_MIN : Int := -(2 ^ 63)

/-- The `strtol(s, &end, 10)` of the C library: the value returned, the
string at `end`, and whether `errno` is set (to `ERANGE`). White space is
skipped, then an optional sign and the decimal digits are read; without a
digit nothing is converted and `end` is `s`. -/
def strtol (s : CStr) : Int × CStr × Bool :=
  let t := s.dropWhile isspace
  let signed : Bool × CStr :=
    match t with
    | '-' :: r => (true, r)
    | '+' :: r => (false, r)
    | _ => (false, t)
  let ds := signed.2.takeWhile isdigit
  if ds = [] then (0, s, false)
  else
    let n : Nat := ds.foldl (fun a c => 10 * a + (c.toNat - '0'.toNat)) 0
    let v : Int := if signed.1 then -(n : Int) else (n : Int)
    let e := signed.2.dropWhile isdigit
    if v > LONG_MAX then (LONG_MAX, e, true)
    else if v < LONG_MIN then (LONG_MIN, e, true)
    else (v, e, false)

/-- The function `xstrtoint` with base 10 on a non-`NULL` string and output
pointer: `some l` when it returns `0` after storing `l` in `*res`, `none` when
it returns `-1` and leaves `*res` alone. -/
def xstrtoint (s : CStr) : Option Int :=
  match s with
  | [] => none
  | c :: _ =>
    if isdigit c || c == '+' || c == '-' then
      match strtol s with
      | (l, e, erange) =>
        if !erange && decide (l ≤ INT_MAX) && decide (l ≥ INT_MIN) && e.isEmpty then some l
        else none
    else none

/-- The function `wexstrtoint` with base 10 on a non-`NULL` string and output
pointer: `Except.ok l` when it returns `0` after storing `l` in `*res`,
`Except.error` with the message given to `logerr` when it returns `-1`. -/
def wexstrtoint (s : CStr) : Except String Int :=
  match s with
  | [] => .error "converting string to integer: not a number"
  | c :: _ =>
    if !(isdigit c || c == '+' || c == '-') then
      .error "converting string to integer: not a number"
    else
      match strtol s with
      | (l, e, erange) =>
        if l > INT_MAX ∨ (erange ∧ l = LONG_MAX) then
          .error "converting string to integer: integer overflow"
        else if l < INT_MIN ∨ (erange ∧ l = LONG_MIN) then
          .error "converting string to integer: integer underflow"
        else if e ≠ [] then
          .error "converting string to integer: extra characters at end of input"
        else if erange then
          .error "converting string to integer:"
        else .ok l

/-! ## Pathname expansion (`src/sushi.c`, lines 1132-1203) -/

/-- The value of `GLOB_NOSPACE` in `<glob.h>` (glibc). -/
def GLOB_NOSPACE : Int := 1
/-- The value of `GLOB_ABORTED` in `<glob.h>` (glibc). -/
def GLOB_ABORTED : Int := 2
/-- The value of `GLOB_NOMATCH` in `<glob.h>` (glibc). -/
def GLOB_NOMATCH : Int := 3

/-- The filename-matching routine `glob(pattern, 0, NULL, &globbuf)`: its
return value and the paths `globbuf.gl_pathv[0..gl_pathc)`. -/
abbrev Glob := CStr → Int × List CStr

/-- The `for (readarg...)` loop of `expand_path` over the slots
`argv[readarg..argc)`; `out` holds the slots written so far with their
ownership marks. `none` is the return value `-1`. A slot below `argc` is never
`NULL` (`parsecmd` stores `NULL` at `argc` only); the loop fails on one. -/
def expand_path_loop (glob : Glob) :
    List (Option CStr) → List (CStr × Int) → Option (List (CStr × Int))
  | [], out => some out
  | none :: _, _ => none
  | some a :: args, out =>
    if (strpbrk a ['?', '*', '[']).isNone then
      expand_path_loop glob args (out ++ [(a, 0)])
    else
      match glob a with
      | (g, paths) =>
        if g ≠ 0 ∧ g ≠ GLOB_NOMATCH then none
        else expand_path_loop glob args (out ++ paths.map (fun x => (x, 1)))

/-- The function `expand_path`: `some newcmd` when it returns `0`, `none` when
it returns `-1`. -/
def expand_path (glob : Glob) (cmd : command) : Option command :=
  (expand_path_loop glob (cmd.argv.take cmd.argc) []).map mkcommand

/-! ## Redirection parser (`src/sushi.c`, lines 971-1082) -/

/-- The value of `O_RDONLY` in `<fcntl.h>` (Linux). -/
def O_RDONLY : Nat := 0
/-- The value of `O_WRONLY` in `<fcntl.h>` (Linux). -/
def O_WRONLY : Nat := 0o1
/-- The value of `O_CREAT` in `<fcntl.h>` (Linux). -/
def O_CREAT : Nat := 0o100
/-- The value of `O_EXCL` in `<fcntl.h>` (Linux). -/
def O_EXCL : Nat := 0o200
/-- The value of `O_TRUNC` in `<fcntl.h>` (Linux). -/
def O_TRUNC : Nat := 0o1000
/-- The mode `S_IRUSR | S_IWUSR | S_IRGRP | S_IWGRP | S_IROTH | S_IWOTH`. -/
def S_IRW_ALL : Nat := 0o666
/-- The value of `STDIN_FILENO`. -/
def STDIN_FILENO : Int := 0
/-- The value of `STDOUT_FILENO`. -/
def STDOUT_FILENO : Int := 1
/-- The value of `STDERR_FILENO`. -/
def STDERR_FILENO : Int := 2

/-- The system call `open(path, flags)` or `open(path, flags, mode)` on a
state `W` of the system: the descriptor returned (negative on failure) and
the state after the call. -/
abbrev SysOpen (W : Type) := W → CStr → Nat → Option Nat → Int × W

/-- The assignment `redirfds[k] = v`. -/
def set_redirfd (k : Nat) (v : Int) (r : Int × Int × Int) : Int × Int × Int :=
  match k with
  | 0 => (v, r.2.1, r.2.2)
  | 1 => (r.1, v, r.2.2)
  | _ => (r.1, r.2.1, v)

/-- What the loop of `parseredir` carries: `*info`, `argend` and the state of
the system. -/
structure rstate (W : Type) where
  info : cmdinfo
  argend : Nat
  world : W

/-- The body of the `for` loop of `parseredir` (lines 983-1074) on the slot
`tok = argv[i]`; `next` is `argv[i + 1]` when `i + 1 < argc`. The result is
`false` when the body returns `-1`, else `true`, with the state it leaves.
`before` holds the bytes of `argv[i]` before `ptr` and `at` the string at
`ptr`. -/
def parseredir_arg {W : Type} (sys_open : SysOpen W) (opts : Nat) (i : Nat) (tok : CStr)
    (next : Option CStr) (st : rstate W) : Bool × rstate W :=
  match strpbrk tok ['<', '>'] with
  | none => (true, st)
  | some at0 =>
    let before0 := tok.take (tok.length - at0.length)
    -- switch (*ptr)
    let sw : CStr × CStr × Nat × Int :=
      if at0.head? = some '<' then (before0, at0, O_RDONLY, STDIN_FILENO)
      else if (at0.drop 1).head? = some '|' then
        (before0 ++ at0.take 1, at0.drop 1, O_WRONLY ||| O_CREAT ||| O_TRUNC, STDOUT_FILENO)
      else if opts &&& OPT_CLOBBER ≠ 0 then
        (before0, at0, O_WRONLY ||| O_CREAT ||| O_TRUNC, STDOUT_FILENO)
      else (before0, at0, O_WRONLY ||| O_CREAT ||| O_EXCL, STDOUT_FILENO)
    let before := sw.1
    let at1 := sw.2.1
    let flags := sw.2.2.1
    let target_fd := sw.2.2.2
    -- the operand
    match (if at1.drop 1 = [] then next else some (at1.drop 1)) with
    | none => (false, { st with argend := i })
    | some redir_target =>
      -- (no `return -1` so far, doclose, `*info`, the state of the system)
      let opened : Bool × Bool × cmdinfo × W :=
        if redir_target.head? = some '&' then
          if redir_target.drop 1 = [] then (false, false, st.info, st.world)
          else if redir_target = ['&', '-'] then (true, true, st.info, st.world)
          else
            match wexstrtoint (redir_target.drop 1) with
            | .error _ => (false, false, st.info, st.world)
            | .ok v =>
              (true, false, { st.info with redirfds := set_redirfd 0 v st.info.redirfds },
                st.world)
        else
          match sys_open st.world redir_target flags
              (if flags &&& O_CREAT ≠ 0 then some S_IRW_ALL else none) with
          | (fd, w) =>
            (decide (0 ≤ fd), false,
              { st.info with redirfds := set_redirfd 0 fd st.info.redirfds }, w)
      let doclose := opened.2.1
      let info1 := opened.2.2.1
      let w := opened.2.2.2
      if opened.1 = false then (false, { info := info1, argend := i, world := w })
      else
        let info2 : cmdinfo :=
          { info1 with redirfds :=
              set_redirfd (if doclose then 2 else 1) target_fd info1.redirfds }
        let info3 : cmdinfo :=
          if before ≠ [] then
            match xstrtoint before with
            | some v =>
              { info2 with redirfds :=
                  set_redirfd (1 + (if doclose then 1 else 0)) v info2.redirfds }
            | none => info2
          else info2
        (true, { info := info3, argend := i, world := w })

/-- The `for (i = 1; i < cmd->argc; ++i)` loop of `parseredir` from index `i`
on, over the slots `argv[i..argc)`. A slot below `argc` is never `NULL`; the
loop fails on one. -/
def parseredir_loop {W : Type} (sys_open : SysOpen W) (opts : Nat) :
    Nat → List (Option CStr) → rstate W → Bool × rstate W
  | _, [], st => (true, st)
  | _, none :: _, st => (false, st)
  | i, some tok :: rest, st =>
    match parseredir_arg sys_open opts i tok (rest.head?.bind id) st with
    | (false, st1) => (false, st1)
    | (true, st1) => parseredir_loop sys_open opts (i + 1) rest st1

/-- The function `parseredir`: the return value (`0` or `-1`) with `*cmd`,
`*info` and the state of the system as it leaves them. -/
def parseredir {W : Type} (sys_open : SysOpen W) (opts : Nat) (cmd : command)
    (info : cmdinfo) (w : W) : Int × command × cmdinfo × W :=
  let info0 : cmdinfo := { info with redirfds := (-1, -1, -1) }
  match parseredir_loop sys_open opts 1 ((cmd.argv.take cmd.argc).drop 1) ⟨info0, 0, w⟩ with
  | (false, st) => (-1, cmd, st.info, st.world)
  | (true, st) =>
    if st.argend > 0 then
      (0, { cmd with argv := cmd.argv.set st.argend none, argc := st.argend },
        st.info, st.world)
    else (0, cmd, st.info, st.world)

/-! ## Command execution (`src/sushi.c`, lines 457-482) -/

/-- The test at the head of `exec` (lines 453-455): the line goes to
`pipeline` when it holds a `|` and the first one is neither the first byte
of the line nor right after a `>`. -/
def exec_is_pipeline (s : CStr) : Bool :=
  match strchr s '|' with
  | none => false
  | some pipechr =>
    let before := s.take (s.length - pipechr.length)
    decide (before ≠ [] ∧ before.getLast? ≠ some '>')

/-- The command that the single-command branch of `exec`, taken when
`exec_is_pipeline` is false, hands to `try_exec_builtin` and `execvp`, with
its redirection plan (lines 464-480):
`parsecmd`, then `expand_path` when the line holds a glob byte and the glob
option is on, then `parseredir`. `none` is the return value `-1` of `exec`. -/
def exec_args {W : Type} (env : Env) (glob : Glob) (sys_open : SysOpen W) (opts : Nat)
    (s : CStr) (info : cmdinfo) (w : W) : Option (command × cmdinfo) × W :=
  match parsecmd env s info with
  | .error _ => (none, w)
  | .ok (origcmd, info1) =>
    let expanded : Option command :=
      if info1.canexpandpath ∧ opts &&& OPT_GLOB ≠ 0 then expand_path glob origcmd
      else some origcmd
    match expanded with
    | none => (none, w)
    | some cmd =>
      match parseredir sys_open opts cmd info1 w with
      | (r, cmd1, info2, w1) => if r < 0 then (none, w1) else (some (cmd1, info2), w1)

/-! ## The shell process and the system it runs on

The functions below are followed in the shell process itself. What a forked
child goes on to do (lines 489-527 and 587-652) happens in another process
and is handed to the `fork` of the system as a description. Diagnostics
written to `stderr` are left out; what the shell writes to `stdout` is kept. -/

/-- The value of `MISC_FAILURE_STATUS`. -/
def MISC_FAILURE_STATUS : Int := 125
/-- The value of `SIGNAL_EXITSTATUS`. -/
def SIGNAL_EXITSTATUS : Int := 384
/-- The contents of `defaultprompt`. -/
def defaultprompt : CStr := ['$', ' ']

/-- The status `waitpid` stores: `WIFEXITED` with `WEXITSTATUS`,
`WIFSIGNALED` with `WTERMSIG`, or neither. -/
inductive wstatus where
  | exited (code : Int)
  | signaled (sig : Int)
  | other
deriving DecidableEq, Repr

/-- What a forked child goes on to run: the `argv` it hands to `execvp`, the
redirection plan it applies, and in a pipeline the pipes it reads from and
writes to and the process group it is to join. -/
structure child where
  argv : List (Option CStr)
  redirfds : Int × Int × Int
  rpipe : Option (Int × Int)
  wpipe : Option (Int × Int)
  pgid : Option Int
deriving DecidableEq, Repr

/-- The system calls of the shell process on a state `W` of the system, each
with the value it returns and the state after it. `dup` also tells whether
`errno` is `EBADF`; `fork` returns what it returns in the process that is
followed; `executable` is the test of the function `executable` (`fstatat`
and `faccessat`, lines 1436-1444); `path` is `getenv("PATH")`. -/
structure Sys (W : Type) where
  sys_open : SysOpen W
  close : W → Int → Int × W
  dup : W → Int → Int × Bool × W
  dup2 : W → Int → Int → Int × W
  pipe : W → (Int × Int) × W
  fork : W → child → Int × W
  waitpid : W → Int → wstatus × W
  tcsetpgrp : W → Int → Int → Int × W
  tcgetpgrp : W → Int → Int × W
  chdir : W → CStr → Int × W
  executable : W → Option Int → CStr → Bool
  path : Option CStr

/-- The global variables of the shell (lines 231-241), what it has written
to `stdout` (one entry for each `printf`) and the state of the system. -/
structure shell (W : Type) where
  opts : Nat
  laststatus : Int
  lastfail : Int
  prompt : CStr
  term : Int
  shell_pgid : Int
  out : List CStr
  world : W

/-- How a function of the shell ends: it returns a value, the process has
ended in `exit(status)`, or `fork` has returned `0` and the process followed
is the child. -/
inductive outcome (W : Type) (α : Type) where
  | ret (a : α) (sh : shell W)
  | exited (status : Int) (sh : shell W)
  | inchild (c : child) (sh : shell W)

/-- The decimal digits that `%d` prints for a number. -/
def render_int (n : Int) : CStr :=
  if n < 0 then '-' :: Nat.toDigits 10 n.natAbs else Nat.toDigits 10 n.toNat

/-- The function `update_laststatus` (lines 826-838): the prompt is
`"<status> $ "` when `status > 0` and the default prompt else. -/
def update_laststatus {W : Type} (status : Int) (sh : shell W) : shell W :=
  if status > 0 then { sh with prompt := render_int status ++ ' ' :: defaultprompt }
  else { sh with prompt := defaultprompt }

/-- The function `report` (lines 1553-1573): for a positive `pid`, wait for
it and record its exit status in `laststatus`, and in `lastfail` when it is
positive. -/
def report {W : Type} (sys : Sys W) (pid : Int) (sh : shell W) : shell W :=
  if pid > 0 then
    match sys.waitpid sh.world pid with
    | (ws, w) =>
      let exitstatus : Int :=
        match ws with
        | .signaled sig => sig + SIGNAL_EXITSTATUS
        | .exited code => code
        | .other => 0
      { sh with laststatus := exitstatus
                lastfail := if exitstatus > 0 then exitstatus else sh.lastfail
                world := w }
  else sh

/-! ## Option parsing (`src/sushi.c`, lines 1252-1430) -/

/-- The function `opttoggle`: `opts |= opt` or `opts &= ~opt`. -/
def opttoggle {W : Type} (enable : Bool) (opt : Nat) (sh : shell W) : shell W :=
  if enable then { sh with opts := sh.opts ||| opt }
  else { sh with opts := sh.opts ^^^ (sh.opts &&& opt) }

/-- The function `optcmdlineset`; `arg1` is `NULL` or the command line, and
the result holds `*cmdline`. -/
def optcmdlineset {W : Type} (initialized : Bool) (arg1 : Option CStr)
    (cmdline : Option CStr) (sh : shell W) : Option CStr × shell W :=
  if initialized then (cmdline, sh)
  else
    match arg1 with
    | some a =>
      (some a, { sh with opts := (sh.opts ^^^ (sh.opts &&& OPT_STDIN)) ||| OPT_CMDLINE })
    | none => (cmdline, sh)

/-- One line of `optlist(1)`: `set -o name` or `set +o name`. -/
def optlist_plus_line (isset : Bool) (name : String) : CStr :=
  "set ".toList ++ (if isset then '-' else '+') :: "o ".toList ++ name.toList ++ ['\n']

/-- One line of `optlist(0)`: the name, padded to eleven columns, and `on`
or `off`. -/
def optlist_line (isset : Bool) (name : String) : CStr :=
  name.toList ++ (if isset then "on".toList else "off".toList) ++ ['\n']

/-- The function `optlist` (lines 1269-1303), with the bit each line tests
as it stands in the source. -/
def optlist {W : Type} (plus : Bool) (sh : shell W) : shell W :=
  if plus then
    { sh with out := sh.out ++
        [ optlist_plus_line (sh.opts &&& OPT_STDIN != 0) "clobber",
          optlist_plus_line (sh.opts &&& OPT_CMDLINE != 0) "cmdline",
          optlist_plus_line (sh.opts &&& OPT_GLOB != 0) "glob",
          optlist_plus_line (sh.opts &&& OPT_IGNOREEOF != 0) "ignoreeof",
          optlist_plus_line (sh.opts &&& OPT_PIPEFAIL != 0) "pipefail",
          optlist_plus_line (sh.opts &&& OPT_STDIN != 0) "stdin",
          optlist_plus_line (sh.opts &&& OPT_VERBOSE != 0) "verbose" ] }
  else
    { sh with out := sh.out ++
        [ optlist_line (sh.opts &&& OPT_CLOBBER != 0) "clobber    ",
          optlist_line (sh.opts &&& OPT_CMDLINE != 0) "cmdline    ",
          optlist_line (sh.opts &&& OPT_GLOB != 0) "glob       ",
          optlist_line (sh.opts &&& OPT_IGNOREEOF != 0) "ignoreeof  ",
          optlist_line (sh.opts &&& OPT_PIPEFAIL != 0) "pipefail   ",
          optlist_line (sh.opts &&& OPT_STDIN != 0) "stdin      ",
          optlist_line (sh.opts &&& OPT_VERBOSE != 0) "verbose    " ] }

/-- What the loops of `optparse` carry: whether no `return -1` has been met,
the index `i`, `*cmdline` and the shell. -/
abbrev optres (W : Type) := Bool × Nat × Option CStr × shell W

/-- The branch of `case 'o'` that reads the name of the option from the next
argument (lines 1328-1364), taken when `i + 1 < argc` and nothing follows
the `o`. -/
def optparse_named {W : Type} (initialized : Bool) (argv : List (Option CStr)) (plus : Bool)
    (i : Nat) (cmdline : Option CStr) (sh : shell W) : optres W :=
  let opt0 : CStr := ((argv.get? (i + 1)).bind id).getD []
  let negated : Bool := opt0.take 2 == ['n', 'o']
  let enable : Bool := if negated then plus else !plus
  let opt : CStr := if negated then opt0.drop 2 else opt0
  if opt = "clobber".toList then (true, i + 1, cmdline, opttoggle enable OPT_CLOBBER sh)
  else if opt = "cmdline".toList ∧ enable = true then
    match optcmdlineset initialized ((argv.get? (i + 2)).bind id) cmdline sh with
    | (cl, sh1) => (true, i + 2, cl, sh1)
  else if opt = "glob".toList then (true, i + 1, cmdline, opttoggle enable OPT_GLOB sh)
  else if opt = "ignoreeof".toList then
    (true, i + 1, cmdline, opttoggle enable OPT_IGNOREEOF sh)
  else if opt = "pipefail".toList then
    (true, i + 1, cmdline, opttoggle enable OPT_PIPEFAIL sh)
  else if opt = "stdin".toList then (true, i + 1, cmdline, opttoggle enable OPT_STDIN sh)
  else if opt = "verbose".toList then (true, i + 1, cmdline, opttoggle enable OPT_VERBOSE sh)
  else (true, i + 1, cmdline, sh)

/-- The `switch (*curr)` of `optparse` (lines 1325-1413) on the byte `c` at
`curr`; `last` tells that no byte follows it. -/
def optparse_switch {W : Type} (initialized : Bool) (argc : Nat) (argv : List (Option CStr))
    (plus : Bool) (c : Char) (last : Bool) (i : Nat) (cmdline : Option CStr)
    (sh : shell W) : optres W :=
  if c = 'o' then
    if i + 1 < argc ∧ last = true then optparse_named initialized argv plus i cmdline sh
    else if initialized then (true, i, cmdline, optlist plus sh)
    else (false, i, cmdline, sh)
  else if c = 'c' then
    if plus then (true, i, cmdline, sh)
    else
      match optcmdlineset initialized ((argv.get? (i + 1)).bind id) cmdline sh with
      | (cl, sh1) => (true, i + 1, cl, sh1)
  else if c = 'C' then (true, i, cmdline, opttoggle plus OPT_CLOBBER sh)
  else if c = 'f' then (true, i, cmdline, opttoggle plus OPT_GLOB sh)
  else if c = 's' then
    if initialized then (true, i, cmdline, sh)
    else if plus = false ∧ sh.opts &&& OPT_CMDLINE ≠ 0 then (true, i, cmdline, sh)
    else (true, i, cmdline, opttoggle (!plus) OPT_STDIN sh)
  else if c = 'v' then (true, i, cmdline, opttoggle (!plus) OPT_VERBOSE sh)
  else (false, i, cmdline, sh)

/-- The `while (curr)` loop of `optparse` over the string at `curr`; an
empty string is the `default` case of the `switch`. -/
def optparse_flags {W : Type} (initialized : Bool) (argc : Nat) (argv : List (Option CStr))
    (plus : Bool) : CStr → Nat → Option CStr → shell W → optres W
  | [], i, cmdline, sh => (false, i, cmdline, sh)
  | [c], i, cmdline, sh => optparse_switch initialized argc argv plus c true i cmdline sh
  | c :: d :: rest, i, cmdline, sh =>
    match optparse_switch initialized argc argv plus c false i cmdline sh with
    | (false, r) => (false, r)
    | (true, i1, cl, sh1) =>
      optparse_flags initialized argc argv plus (d :: rest) i1 cl sh1

/-- The `for (i = 1; i < argc; ++i)` loop of `optparse` from index `i` on;
the first argument bounds the number of iterations (`argc` suffices, `i`
growing each time). An argument below `argc` is never `NULL`. -/
def optparse_loop {W : Type} (initialized : Bool) (argc : Nat) (argv : List (Option CStr)) :
    Nat → Nat → Option CStr → shell W → Int × Option CStr × shell W
  | 0, _, cmdline, sh => (0, cmdline, sh)
  | fuel + 1, i, cmdline, sh =>
    if i < argc then
      match ((argv.get? i).bind id).getD [] with
      | '-' :: curr =>
        match optparse_flags initialized argc argv false curr i cmdline sh with
        | (false, _, cl, sh1) => (-1, cl, sh1)
        | (true, i1, cl, sh1) => optparse_loop initialized argc argv fuel (i1 + 1) cl sh1
      | '+' :: curr =>
        match optparse_flags initialized argc argv true curr i cmdline sh with
        | (false, _, cl, sh1) => (-1, cl, sh1)
        | (true, i1, cl, sh1) => optparse_loop initialized argc argv fuel (i1 + 1) cl sh1
      | _ => optparse_loop initialized argc argv fuel (i + 1) cmdline sh
    else (0, cmdline, sh)

/-- The function `optparse`: the value returned, `*cmdline` and the shell. -/
def optparse {W : Type} (initialized : Bool) (argc : Nat) (argv : List (Option CStr))
    (cmdline : Option CStr) (sh : shell W) : Int × Option CStr × shell W :=
  optparse_loop initialized argc argv argc 1 cmdline sh

/-- The shell as a function leaves it, however it ends. -/
def outcome.state {W : Type} {α : Type} : outcome W α → shell W
  | .ret _ sh => sh
  | .exited _ sh => sh
  | .inchild _ sh => sh

/-- The value a function returns, `none` when it does not return. -/
def outcome.returned {W : Type} {α : Type} : outcome W α → Option α
  | .ret a _ => some a
  | _ => none

/-- The status given to `exit`, `none` when the shell goes on. -/
def outcome.exit_status {W : Type} {α : Type} : outcome W α → Option Int
  | .exited status _ => some status
  | _ => none

/-! ## Builtins (`src/sushi.c`, lines 247-444, 1436-1485) -/

/-- What comes next when a function of the shell has returned. -/
def outcome.bind {W : Type} {α β : Type} (o : outcome W α)
    (f : α → shell W → outcome W β) : outcome W β :=
  match o with
  | .ret a sh => f a sh
  | .exited status sh => .exited status sh
  | .inchild c sh => .inchild c sh

/-- The function `start_builtin_redir`: the value returned, `savefds` and the
state of the system. -/
def start_builtin_redir {W : Type} (sys : Sys W) (info : cmdinfo) (w : W) :
    Int × (Int × Int) × W :=
  let first : Int × Int × W :=
    if 0 ≤ info.redirfds.1 ∧ 0 ≤ info.redirfds.2.1 then
      match sys.dup w info.redirfds.2.1 with
      | (s0, _, w1) =>
        if s0 < 0 then (-1, s0, w1)
        else
          match sys.dup2 w1 info.redirfds.1 info.redirfds.2.1 with
          | (d, w2) => if d < 0 then (-1, s0, w2) else (0, s0, w2)
    else (0, -1, w)
  if first.1 < 0 then (-1, (first.2.1, -1), first.2.2)
  else if 0 ≤ info.redirfds.2.2 then
    match sys.dup first.2.2 info.redirfds.2.2 with
    | (s1, ebadf, w1) =>
      if s1 < 0 ∧ ebadf = false then (-1, (first.2.1, s1), w1)
      else if 0 ≤ s1 then (0, (first.2.1, s1), (sys.close w1 info.redirfds.2.2).2)
      else (0, (first.2.1, s1), w1)
  else (0, (first.2.1, -1), first.2.2)

/-- The function `end_builtin_redir`. -/
def end_builtin_redir {W : Type} (sys : Sys W) (info : cmdinfo) (savefds : Int × Int)
    (w : W) : Int × W :=
  let first : Int × W :=
    if 0 ≤ info.redirfds.1 ∧ 0 ≤ info.redirfds.2.1 then
      match sys.dup2 w savefds.1 info.redirfds.2.1 with
      | (d, w1) =>
        if d < 0 then (-1, w1)
        else
          match sys.close w1 savefds.1 with
          | (c, w2) => if c < 0 then (-1, w2) else (0, w2)
    else (0, w)
  if first.1 < 0 then first
  else if 0 ≤ info.redirfds.2.2 then
    match sys.dup2 first.2 savefds.2 info.redirfds.2.2 with
    | (d, w1) => if d < 0 then (-1, w1) else (0, w1)
  else first

/-- The index of the first operand of a builtin: `2` when `argv[1]` is
`--`, else `1` (lines 259-260). -/
def builtin_first_operand (cmd : command) : Nat :=
  if 1 < cmd.argc ∧ (cmd.argv.get? 1).bind id = some ['-', '-'] then 2 else 1

/-- The slot `argv[i]` as a string, the empty string for `NULL`. -/
def argv_at (cmd : command) (i : Nat) : CStr := ((cmd.argv.get? i).bind id).getD []

/-- The function `builtin_cd`. -/
def builtin_cd {W : Type} (sys : Sys W) (env : Env) (cmd : command) (info : cmdinfo)
    (sh : shell W) : outcome W Int :=
  match start_builtin_redir sys info sh.world with
  | (r, savefds, w1) =>
    if r < 0 then .ret MISC_FAILURE_STATUS { sh with world := w1 }
    else
      let arg := builtin_first_operand cmd
      let done : Int × W :=
        if arg < cmd.argc then
          if arg + 1 < cmd.argc then (1, w1)
          else
            match sys.chdir w1 (argv_at cmd arg) with
            | (c, w2) => if c < 0 then (1, w2) else (0, w2)
        else
          match env.home with
          | some home =>
            match sys.chdir w1 home with
            | (c, w2) => if c < 0 then (1, w2) else (0, w2)
          | none => (0, w1)
      match end_builtin_redir sys info savefds done.2 with
      | (e, w3) =>
        if e < 0 then .ret MISC_FAILURE_STATUS { sh with world := w3 }
        else .ret done.1 { sh with world := w3 }

/-- The function `builtin_exit`. -/
def builtin_exit {W : Type} (sys : Sys W) (cmd : command) (info : cmdinfo)
    (sh : shell W) : outcome W Int :=
  match start_builtin_redir sys info sh.world with
  | (r, savefds, w1) =>
    if r < 0 then .ret MISC_FAILURE_STATUS { sh with world := w1 }
    else
      let arg := builtin_first_operand cmd
      let finish (ret : Int) : outcome W Int :=
        match end_builtin_redir sys info savefds w1 with
        | (e, w3) =>
          if e < 0 then .ret MISC_FAILURE_STATUS { sh with world := w3 }
          else .ret ret { sh with world := w3 }
      if arg < cmd.argc then
        if arg + 1 < cmd.argc then finish 1
        else
          match wexstrtoint (argv_at cmd arg) with
          | .error _ => finish 1
          | .ok status =>
            if status > 255 then finish 1 else .exited status { sh with world := w1 }
      else .exited 0 { sh with world := w1 }

/-- The function `builtin_set`. -/
def builtin_set {W : Type} (sys : Sys W) (cmd : command) (info : cmdinfo)
    (sh : shell W) : outcome W Int :=
  match start_builtin_redir sys info sh.world with
  | (r, savefds, w1) =>
    if r < 0 then .ret MISC_FAILURE_STATUS { sh with world := w1 }
    else
      let parsed : Int × shell W :=
        if 1 < cmd.argc ∧ (cmd.argv.get? 1).bind id ≠ some ['-', '-'] then
          match optparse true cmd.argc cmd.argv none { sh with world := w1 } with
          | (o, _, sh1) => (if o < 0 then 1 else 0, sh1)
        else (0, { sh with world := w1 })
      match end_builtin_redir sys info savefds parsed.2.world with
      | (e, w3) =>
        if e < 0 then .ret MISC_FAILURE_STATUS { parsed.2 with world := w3 }
        else .ret parsed.1 { parsed.2 with world := w3 }

/-- The names of the table `builtins`, in its order. -/
def builtin_names : List CStr :=
  ["cd".toList, "exit".toList, "set".toList, "type".toList]

/-- The directories of a `PATH`: the strings between its colons. -/
def path_dirs : CStr → CStr → List CStr
  | [], cur => [cur]
  | c :: rest, cur => if c = ':' then cur :: path_dirs rest [] else path_dirs rest (cur ++ [c])

/-- The loop of `which` (lines 1462-1482) over the directories left to
search; `atstart` tells that the directory starts at `path[0]`, so that an
empty one has `i = 0`. The result is `found`. -/
def which_loop {W : Type} (sys : Sys W) (name : CStr) :
    List CStr → Bool → shell W → Bool × shell W
  | [], _, sh => (false, sh)
  | dir :: dirs, atstart, sh =>
    match sys.sys_open sh.world dir O_RDONLY none with
    | (dirfd, w1) =>
      if 0 ≤ dirfd then
        let found := sys.executable w1 (some dirfd) name
        let slash : Bool := !(atstart && dir.isEmpty) && dir.getLast? != some '/'
        let line : CStr :=
          name ++ ": an external command at ".toList ++ dir
            ++ (if slash then ['/'] else []) ++ name ++ ['\n']
        let sh1 : shell W :=
          { sh with out := if found then sh.out ++ [line] else sh.out
                    world := (sys.close w1 dirfd).2 }
        if found then (true, sh1) else which_loop sys name dirs false sh1
      else which_loop sys name dirs false { sh with world := w1 }

/-- The function `which`: whether it returns a value other than `0`. With
`PATH` unset `strdup(NULL)` is called, which is not defined; the model
returns `-1` there as for a failed `strdup`. -/
def which {W : Type} (sys : Sys W) (name : CStr) (sh : shell W) : Bool × shell W :=
  if '/' ∈ name then
    if sys.executable sh.world none name then
      (true, { sh with out := sh.out ++
        [name ++ ": an external command at ".toList ++ name ++ ['\n']] })
    else (false, sh)
  else
    match sys.path with
    | none => (true, sh)
    | some pathenv => which_loop sys name (path_dirs pathenv []) true sh

/-- The `for` loop of `builtin_type` (lines 355-370) over the operands left;
`ret` is the status so far. -/
def builtin_type_loop {W : Type} (sys : Sys W) : List (Option CStr) → Int → shell W →
    Int × shell W
  | [], ret, sh => (ret, sh)
  | none :: args, ret, sh => builtin_type_loop sys args ret sh
  | some a :: args, ret, sh =>
    if a = ['-', '-'] then builtin_type_loop sys args ret sh
    else if a ∈ builtin_names then
      builtin_type_loop sys args ret
        { sh with out := sh.out ++ [a ++ ": a builtin\n".toList] }
    else
      match which sys a sh with
      | (found, sh1) => builtin_type_loop sys args (if found then ret else 1) sh1

/-- The function `builtin_type`. -/
def builtin_type {W : Type} (sys : Sys W) (cmd : command) (info : cmdinfo)
    (sh : shell W) : outcome W Int :=
  match start_builtin_redir sys info sh.world with
  | (r, savefds, w1) =>
    if r < 0 then .ret MISC_FAILURE_STATUS { sh with world := w1 }
    else
      match builtin_type_loop sys ((cmd.argv.take cmd.argc).drop 1) 0
          { sh with world := w1 } with
      | (ret, sh1) =>
        match end_builtin_redir sys info savefds sh1.world with
        | (e, w3) =>
          if e < 0 then .ret MISC_FAILURE_STATUS { sh1 with world := w3 }
          else .ret ret { sh1 with world := w3 }

/-- The function `try_exec_builtin`: `127` when `argv[0]` is `NULL` or names
no builtin; else the builtin is run in the shell, and its return value goes
to `laststatus`, and to `lastfail` when it is positive. -/
def try_exec_builtin {W : Type} (sys : Sys W) (env : Env) (cmd : command) (info : cmdinfo)
    (sh : shell W) : outcome W Int :=
  match cmd.argv.head?.bind id with
  | none => .ret 127 sh
  | some name =>
    let record (ret : Int) (sh1 : shell W) : outcome W Int :=
      .ret ret { sh1 with laststatus := ret
                          lastfail := if ret > 0 then ret else sh1.lastfail }
    if name = "cd".toList then (builtin_cd sys env cmd info sh).bind record
    else if name = "exit".toList then (builtin_exit sys cmd info sh).bind record
    else if name = "set".toList then (builtin_set sys cmd info sh).bind record
    else if name = "type".toList then (builtin_type sys cmd info sh).bind record
    else .ret 127 sh

/-! ## Pipelines and the sequence driver (`src/sushi.c`, lines 450-824, 1491-1525) -/

/-- The bytes of a string without the spaces at its end. -/
def trim_end (s : CStr) : CStr := (s.reverse.dropWhile (fun c => c == ' ')).reverse

/-- The function `delimit`: `none` when `delim` is not in `str` (`NULL`
returned, `str` untouched), else the string `str` is cut down to (the head
without the spaces at its end) and the tail returned (what follows the
delimiter, without the spaces at its start). When the head holds nothing but
spaces the C function reads and writes before `str`; the model gives the
empty head there. -/
def delimit (str : CStr) (delim : Char) : Option (CStr × CStr) :=
  match strchr str delim with
  | none => none
  | some rest =>
    some (trim_end (str.take (str.length - rest.length)),
          (rest.drop 1).dropWhile (fun c => c == ' '))

/-- The value of `i - 2` in `pipeline` for `i ≥ 2` stages. -/
def stages_before_last (i : Nat) : Nat := i - 2

/-- The array `cmds` that `pipeline` fills (lines 705-729): `oldptr` holds
the stage cut off last, `ptr` the rest of the line. The first argument bounds
the number of iterations (the length of the line suffices). -/
def pipeline_cmds : Nat → CStr → Option (CStr × CStr) → List CStr
  | 0, oldptr, _ => [oldptr]
  | _ + 1, oldptr, none => [oldptr]
  | fuel + 1, _, some (head, tail) => head :: pipeline_cmds fuel tail (delimit tail '|')

/-- The parent's part of `pipechain` after the `fork` (lines 656-670), with
`chpid` and `forkfailed` as the `switch` left them: the value returned,
`*pgid` and `*closethis`. -/
def pipechain_parent {W : Type} (sys : Sys W) (info : cmdinfo) (pgid : Int)
    (rpipe : Option (Int × Int)) (chpid : Int) (forkfailed : Bool) (sh : shell W) :
    Int × Int × Int × shell W :=
  let closed : Bool × W :=
    match rpipe with
    | none => (true, sh.world)
    | some (r0, r1) =>
      match sys.close sh.world r0 with
      | (c0, w1) =>
        if c0 < 0 then (false, w1)
        else
          match sys.close w1 r1 with
          | (c1, w2) => (decide (0 ≤ c1), w2)
  if closed.1 = false then (-1, pgid, -1, { sh with world := closed.2 })
  else
    let closethis : Int := if info.redirfds.1 > STDERR_FILENO then info.redirfds.1 else -1
    match sys.tcgetpgrp closed.2 sh.term with
    | (pg, w3) =>
      if pg < 0 then (-1, pg, closethis, { sh with world := w3 })
      else if forkfailed then (-1, pg, closethis, { sh with world := w3 })
      else (chpid, pg, closethis, { sh with world := w3 })

/-- The function `pipechain` in the shell process: the value returned,
`*pgid` and `*closethis`. -/
def pipechain {W : Type} (sys : Sys W) (env : Env) (glob : Glob) (s : CStr) (pgid : Int)
    (rpipe wpipe : Option (Int × Int)) (sh : shell W) : outcome W (Int × Int × Int) :=
  match exec_args env glob sys.sys_open sh.opts s ⟨false, (-1, -1, -1)⟩ sh.world with
  | (none, w1) => .ret (-1, pgid, -1) { sh with world := w1 }
  | (some (cmd, info), w1) =>
    (try_exec_builtin sys env cmd info { sh with world := w1 }).bind fun r sh2 =>
      let finish (chpid : Int) (forkfailed : Bool) (sh3 : shell W) :
          outcome W (Int × Int × Int) :=
        match pipechain_parent sys info pgid rpipe chpid forkfailed sh3 with
        | (v, pg, closethis, sh4) => .ret (v, pg, closethis) sh4
      if r = 127 then
        match sys.fork sh2.world
            ⟨cmd.argv, info.redirfds, rpipe, wpipe, some pgid⟩ with
        | (chpid, w2) =>
          if chpid = -1 then finish chpid true { sh2 with world := w2 }
          else if chpid = 0 then
            .inchild ⟨cmd.argv, info.redirfds, rpipe, wpipe, some pgid⟩
              { sh2 with world := w2 }
          else finish chpid false { sh2 with world := w2 }
      else finish 0 false sh2

/-- The descriptor `weclose`d after a stage when it is positive (lines
748-749, 781-784). -/
def close_dup {W : Type} (sys : Sys W) (fd : Int) (sh : shell W) : shell W :=
  if fd > 0 then { sh with world := (sys.close sh.world fd).2 } else sh

/-- The end of `pipeline` once the last stage has been started (lines
763-785). -/
def pipeline_end {W : Type} (sys : Sys W) (lpid rpid ldup rdup : Int) (sh : shell W) :
    outcome W Int :=
  let sh1 := report sys rpid (report sys lpid sh)
  let fg : Bool × shell W :=
    if 0 ≤ sh1.term then
      match sys.tcsetpgrp sh1.world sh1.term sh1.shell_pgid with
      | (t, w) => (decide (0 ≤ t), { sh1 with world := w })
    else (true, sh1)
  if fg.1 = false then .ret (-1) fg.2
  else
    let sh2 : shell W :=
      if fg.2.opts &&& OPT_PIPEFAIL ≠ 0 then
        { update_laststatus fg.2.lastfail fg.2 with lastfail := 0 }
      else update_laststatus fg.2.laststatus fg.2
    .ret 0 (close_dup sys rdup (close_dup sys ldup sh2))

/-- The `while (j < i - 2)` loop of `pipeline` (lines 742-755) followed by
the start of the last stage and the end of the function, with `lpipe`,
`lpid` and `ldup` as they stand (`rdup` is written by every call of
`pipechain` before it is read). The first argument bounds the number of
iterations (`i` suffices). -/
def pipeline_chain {W : Type} (sys : Sys W) (env : Env) (glob : Glob) (cmds : List CStr) :
    Nat → Nat → Int → (Int × Int) → Int → Int → shell W → outcome W Int
  | 0, _, _, _, _, _, sh => .ret (-1) sh
  | fuel + 1, j, pgid, lpipe, lpid, ldup, sh =>
    if j < stages_before_last cmds.length then
      match sys.pipe sh.world with
      | (rpipe, w1) =>
        (pipechain sys env glob (cmds.getD j []) pgid (some lpipe) (some rpipe)
            { sh with world := w1 }).bind fun r sh2 =>
          if r.1 < 0 then .ret (-1) sh2
          else
            pipeline_chain sys env glob cmds fuel (j + 1) r.2.1 rpipe r.1 r.2.2
              (close_dup sys ldup (report sys lpid sh2))
    else
      (pipechain sys env glob (cmds.getD j []) pgid (some lpipe) none sh).bind fun r sh2 =>
        if r.1 < 0 then .ret (-1) sh2
        else pipeline_end sys lpid r.1 ldup r.2.2 sh2

/-- The function `pipeline`. -/
def pipeline {W : Type} (sys : Sys W) (env : Env) (glob : Glob) (s : CStr)
    (sh : shell W) : outcome W Int :=
  let cmds := pipeline_cmds s.length s (delimit s '|')
  match sys.pipe sh.world with
  | (rpipe, w1) =>
    (pipechain sys env glob (cmds.getD 0 []) (-1) none (some rpipe)
        { sh with world := w1 }).bind fun r sh2 =>
      if r.1 < 0 then .ret (-1) sh2
      else pipeline_chain sys env glob cmds (cmds.length + 1) 1 r.2.1 rpipe r.1 r.2.2 sh2

/-- The `else` branch of `exec` (lines 456-547): the line is run as a single
command, a builtin in the shell or a program in a child that is waited for. -/
def exec_single {W : Type} (sys : Sys W) (env : Env) (glob : Glob) (s : CStr)
    (sh : shell W) : outcome W Int :=
  match exec_args env glob sys.sys_open sh.opts s ⟨false, (-1, -1, -1)⟩ sh.world with
  | (none, w1) => .ret (-1) { sh with world := w1 }
  | (some (cmd, info), w1) =>
    (try_exec_builtin sys env cmd info { sh with world := w1 }).bind fun r sh2 =>
      let ran : outcome W Int :=
        if r = 127 then
          match sys.fork sh2.world ⟨cmd.argv, info.redirfds, none, none, none⟩ with
          | (chpid, w2) =>
            if chpid = -1 then .ret (-1) { sh2 with world := w2 }
            else if chpid = 0 then
              .inchild ⟨cmd.argv, info.redirfds, none, none, none⟩ { sh2 with world := w2 }
            else
              let sh3 := report sys chpid { sh2 with world := w2 }
              let sh4 : shell W :=
                if 0 ≤ sh3.term then
                  { sh3 with world := (sys.tcsetpgrp sh3.world sh3.term sh3.shell_pgid).2 }
                else sh3
              .ret 0 (update_laststatus sh4.laststatus sh4)
        else .ret 0 sh2
      ran.bind fun ret sh5 =>
        if info.redirfds.1 > STDERR_FILENO then
          match sys.close sh5.world info.redirfds.1 with
          | (c, w) =>
            if c < 0 then .ret (-1) { sh5 with world := w }
            else .ret ret { sh5 with world := w }
        else .ret ret sh5

/-- The function `exec` in the shell process (lines 450-548): the test on the
first `|` of the line, then `pipeline` or the single command. -/
def exec {W : Type} (sys : Sys W) (env : Env) (glob : Glob) (s : CStr)
    (sh : shell W) : outcome W Int :=
  if exec_is_pipeline s then pipeline sys env glob s sh
  else exec_single sys env glob s sh

/-- One `if (exec(...) < 0)` of `takecmd` (lines 803-806), for any function
in the place of `exec`. -/
def takecmd_segment {W : Type} (run : CStr → shell W → outcome W Int) (seg : CStr)
    (sh : shell W) : outcome W Unit :=
  (run seg sh).bind fun r sh1 =>
    if r < 0 then
      .ret () (update_laststatus MISC_FAILURE_STATUS
        { sh1 with laststatus := MISC_FAILURE_STATUS, lastfail := MISC_FAILURE_STATUS })
    else .ret () sh1

/-- The `while (ptr)` loop of `takecmd` and the call after it (lines
808-821): `oldptr` is the segment cut off last, `ptr` the rest of the line.
The first argument bounds the number of iterations (the length of the line
suffices). -/
def takecmd_loop {W : Type} (run : CStr → shell W → outcome W Int) :
    Nat → CStr → Option (CStr × CStr) → shell W → outcome W Unit
  | 0, oldptr, _, sh => takecmd_segment run oldptr sh
  | _ + 1, oldptr, none, sh => takecmd_segment run oldptr sh
  | fuel + 1, _, some (head, tail), sh =>
    (takecmd_segment run head sh).bind fun _ sh1 =>
      takecmd_loop run fuel tail (delimit tail ';') sh1

/-- The function `takecmd`, for any function in the place of `exec` (the
echo of the line to `stderr` under the verbose option is left out). -/
def takecmd_with {W : Type} (run : CStr → shell W → outcome W Int) (s : CStr)
    (sh : shell W) : outcome W Unit :=
  if s ≠ [] ∧ s.head? ≠ some '\n' then takecmd_loop run s.length s (delimit s ';') sh
  else .ret () sh

/-- The function `takecmd`. -/
def takecmd {W : Type} (sys : Sys W) (env : Env) (glob : Glob) (s : CStr)
    (sh : shell W) : outcome W Unit :=
  takecmd_with (exec sys env glob) s sh

/-! ## Words used to state the theorems -/

/-- The line made of the given words separated by single spaces. -/
def join_spaces : List CStr → CStr
  | [] => []
  | [t] => t
  | t :: u :: ts => t ++ ' ' :: join_spaces (u :: ts)

/-- A byte that means nothing to the tokenizer: no space, quote, backslash
or newline. -/
def plain_byte (c : Char) : Prop :=
  c ≠ ' ' ∧ c ≠ '\'' ∧ c ≠ '"' ∧ c ≠ '\\' ∧ c ≠ '\n'

/-- A word as typed, byte by byte: `(true, c)` is the byte `c` typed with a
backslash before it, `(false, c)` the byte `c` typed as it is. -/
abbrev EWord := List (Bool × Char)

/-- The bytes typed for a word: each escaped byte after its backslash. -/
def typed : EWord → CStr
  | [] => []
  | (true, c) :: w => '\\' :: c :: typed w
  | (false, c) :: w => c :: typed w

/-- The bytes a word stands for: the same bytes without the backslashes. -/
def meant (w : EWord) : CStr := w.map Prod.snd

/-- A system in which every `open` succeeds and returns the lowest unused
descriptor; the state is that descriptor. -/
def open_next : SysOpen Nat := fun w _ _ _ => ((w : Int), w + 1)

/-- A directory holding the files `a.c` and `b.c` as the filename-matching
routine sees it: the pattern `*` matches both, no other pattern matches. -/
def glob_star : Glob := fun pattern =>
  if pattern = ['*'] then (0, ["a.c".toList, "b.c".toList]) else (GLOB_NOMATCH, [])

/-- A system with `HOME=/home/u` and no user database. -/
def env_home : Env := ⟨some "/home/u".toList, fun _ => none⟩

/-- The command with the given arguments, all borrowed, as `parsecmd` lays
it out. -/
def command_of (args : List CStr) : command :=
  mkcommand (args.map (fun a => (a, 0)))

/-- What the body of the loop of `parseredir` leaves when it opens `file`
with `flags` for a redirection whose bytes before the operator are `before`
and whose operator has the default target `deflt`: the call of `open` (with
the creation mode when `flags` holds `O_CREAT`), `-1` returned when the
descriptor is negative, else the descriptor as source and as target the
number `before` spells, or `deflt` when it spells none. -/
def file_redir_result {W : Type} (sys_open : SysOpen W) (i : Nat) (st : rstate W)
    (file : CStr) (flags : Nat) (before : CStr) (deflt : Int) : Bool × rstate W :=
  match sys_open st.world file flags
      (if flags &&& O_CREAT ≠ 0 then some S_IRW_ALL else none) with
  | (fd, w) =>
    if 0 ≤ fd then
      (true, { info := { st.info with redirfds :=
                          (fd, (xstrtoint before).getD deflt, st.info.redirfds.2.2) }
               argend := i, world := w })
    else
      (false, { info := { st.info with redirfds := set_redirfd 0 fd st.info.redirfds }
                argend := i, world := w })

/-- The tokens of a file redirection with operator `op` (`<` or `>`): the
operator and the file name in one token when `inl` is set, else in two. -/
def redir_tokens (op : Char) (file : CStr) (inl : Bool) : List CStr :=
  if inl then [op :: file] else [[op], file]

/-- The flags the claims give for a file redirection: `O_RDONLY` for `<`; for
`>`, write-only and create, with truncate when the clobber option is on and
exclusive when it is off. -/
def redir_flags (opts : Nat) (op : Char) : Nat :=
  if op = '<' then O_RDONLY
  else if opts &&& OPT_CLOBBER ≠ 0 then O_WRONLY ||| O_CREAT ||| O_TRUNC
  else O_WRONLY ||| O_CREAT ||| O_EXCL

/-- The mode given to `open` for a file redirection: none for `<`, `0666`
for `>`. -/
def redir_mode (op : Char) : Option Nat :=
  if op = '<' then none else some S_IRW_ALL

/-- The default target descriptor of an operator: `0` for `<`, `1` for `>`. -/
def redir_default (op : Char) : Int :=
  if op = '<' then STDIN_FILENO else STDOUT_FILENO

/-- The command as `parseredir` leaves it when it cuts the arguments at
index `k` (lines 1077-1080): `argv[k]` is `NULL` and `argc` is `k`. -/
def cut_command (cmd : command) (k : Nat) : command :=
  { cmd with argv := cmd.argv.set k none, argc := k }

/-- The line made of the segment `g` and the segments `rest`, separated by
`;`. -/
def join_semicolons : CStr → List CStr → CStr
  | g, [] => g
  | g, g1 :: rest => g ++ ';' :: join_semicolons g1 rest

/-- The string without the spaces at its start. -/
def skip_spaces (s : CStr) : CStr := s.dropWhile (fun c => c == ' ')

/-- The strings of the segments of a line as `delimit` cuts them: a segment
followed by `;` loses the spaces at its end, a segment that follows a `;`
loses the spaces at its start. -/
def segment_texts : CStr → List CStr → List CStr
  | g, [] => [g]
  | g, g1 :: rest => trim_end g :: segment_texts (skip_spaces g1) rest

/-- One `if (exec(...) < 0)` of `takecmd` after the other, on each of the
given strings in order. -/
def run_segments {W : Type} (run : CStr → shell W → outcome W Int) :
    List CStr → shell W → outcome W Unit
  | [], sh => .ret () sh
  | g :: gs, sh => (takecmd_segment run g sh).bind fun _ sh1 => run_segments run gs sh1

/-! ## A system to run the shell on -/

/-- The state of the system `sim`: the descriptors above `stderr` that are
open in the shell, its working directory, and for each child not waited for
yet its pid and the status it exits with. -/
structure simw where
  fds : List Int
  cwd : CStr
  children : List (Int × Int)
  nextpid : Int
deriving DecidableEq, Repr

/-- The lowest descriptor above `stderr` that is not open. -/
def lowest_free (fds : List Int) : Int :=
  (((List.range (fds.length + 1)).map (fun i => (i : Int) + 3)).find?
    (fun fd => !fds.contains fd)).getD 3

/-- Whether a descriptor is open in the state: one of the three standard
ones, or one opened since. -/
def simw.isopen (w : simw) (fd : Int) : Bool :=
  (decide (0 ≤ fd) && decide (fd ≤ 2)) || w.fds.contains fd

/-- A system in which every call succeeds when it can: `open` and `pipe`
give the lowest free descriptors, `chdir` succeeds on the directories of
`dirs`, a forked child is given the next pid and exits with the status that
`progs` lists for its `argv[0]` (`127` when it lists none), the terminal
calls succeed on a terminal (`tcgetpgrp` fails on a negative descriptor), and
nothing is found executable. -/
def sim (progs : List (CStr × Int)) (dirs : List CStr) : Sys simw where
  sys_open := fun w _ _ _ => (lowest_free w.fds, { w with fds := lowest_free w.fds :: w.fds })
  close := fun w fd =>
    if w.isopen fd then (0, { w with fds := w.fds.filter (fun x => x != fd) }) else (-1, w)
  dup := fun w fd =>
    if w.isopen fd then
      (lowest_free w.fds, false, { w with fds := lowest_free w.fds :: w.fds })
    else (-1, true, w)
  dup2 := fun w a b =>
    if w.isopen a then
      (b, if w.isopen b then w else { w with fds := b :: w.fds })
    else (-1, w)
  pipe := fun w =>
    ((lowest_free w.fds, lowest_free (lowest_free w.fds :: w.fds)),
      { w with fds := lowest_free (lowest_free w.fds :: w.fds) :: lowest_free w.fds :: w.fds })
  fork := fun w c =>
    (w.nextpid,
      { w with children :=
                 (w.nextpid, ((progs.lookup ((c.argv.head?.bind id).getD [])).getD 127))
                   :: w.children
               nextpid := w.nextpid + 1 })
  waitpid := fun w pid =>
    match w.children.lookup pid with
    | some status =>
      (.exited status, { w with children := w.children.filter (fun p => p.1 != pid) })
    | none => (.other, w)
  tcsetpgrp := fun w term _ => (if 0 ≤ term then 0 else -1, w)
  tcgetpgrp := fun w term => (if 0 ≤ term then 100 else -1, w)
  chdir := fun w path => if dirs.contains path then (0, { w with cwd := path }) else (-1, w)
  executable := fun _ _ _ => false
  path := some "/bin".toList

/-- The programs of the examples: `true` exits with `0`, `false` with `1`,
`grep` with `2`. -/
def sim_progs : List (CStr × Int) :=
  [("true".toList, 0), ("false".toList, 1), ("grep".toList, 2)]

/-- The system of the examples, with the directories `/` and `/tmp`. -/
def sim0 : Sys simw := sim sim_progs ["/".toList, "/tmp".toList]

/-- An interactive shell as `main` sets it up on the terminal of descriptor
`1`: default options, status `0`, default prompt, no descriptor open above
`stderr`, working directory `/`. -/
def shell0 : shell simw :=
  { opts := OPT_GLOB ||| OPT_STDIN, laststatus := 0, lastfail := 0, prompt := defaultprompt
    term := 1, shell_pgid := 50, out := []
    world := { fds := [], cwd := ['/'], children := [], nextpid := 1000 } }

/-- No glob pattern matches. -/
def glob_none : Glob := fun _ => (GLOB_NOMATCH, [])

/-- The number a string of decimal digits spells. -/
def decimal_value (ds : CStr) : Nat :=
  ds.foldl (fun a c => 10 * a + (c.toNat - '0'.toNat)) 0

/-- A decimal number as typed: one or more decimal digits. -/
def is_decimal (ds : CStr) : Prop := ds ≠ [] ∧ ∀ c ∈ ds, isdigit c = true

/-- A function in the place of `exec` that fails on every segment and keeps a
record of the strings it was called on. -/
def run_failing (seg : CStr) (sh : shell simw) : outcome simw Int :=
  .ret (-1) { sh with out := sh.out ++ [seg] }

/-! ## Lemmas on the tokenizer -/

theorem strchr_eq_none_iff (s : CStr) (c : Char) : strchr s c = none ↔ c ∉ s := by
  unfold strchr
  constructor
  · intro h
    split at h
    · rename_i hd
      rw [List.dropWhile_eq_nil_iff] at hd
      intro hc
      have := hd c hc
      simp at this
    · exact absurd h (by simp)
  · intro h
    have hd : s.dropWhile (fun d => d != c) = [] := by
      rw [List.dropWhile_eq_nil_iff]
      intro x hx
      have : x ≠ c := fun e => h (e ▸ hx)
      simpa using this
    rw [hd]

theorem takeWhile_append_stop (p : Char → Bool) (l nl : CStr)
    (hl : ∀ c ∈ l, p c = true) (hnl : ∀ c, nl.head? = some c → p c = false) :
    (l ++ nl).takeWhile p = l := by
  induction l with
  | nil =>
    cases nl with
    | nil => rfl
    | cons c r => simp [List.takeWhile, hnl c (by simp)]
  | cons a l ih =>
    have ha : p a = true := hl a (by simp)
    have ih2 := ih (fun c hc => hl c (by simp [hc]))
    show (a :: (l ++ nl)).takeWhile p = a :: l
    rw [List.takeWhile_cons, ha, if_pos rfl, ih2]

theorem parsecmd_loop_backslash (env : Env) (d : Char) (rest cur : CStr) (delim : Char)
    (sr : Bool) (slots : List (CStr × Int)) :
    parsecmd_loop env ('\\' :: d :: rest) cur delim sr slots
      = parsecmd_loop env rest (cur ++ [d]) delim sr slots := by
  simp [parsecmd_loop]

theorem parsecmd_loop_plain (env : Env) (c : Char) (hc : plain_byte c) (rest cur : CStr)
    (sr : Bool) (slots : List (CStr × Int)) :
    parsecmd_loop env (c :: rest) cur ' ' sr slots
      = parsecmd_loop env rest (cur ++ [c]) ' ' sr slots := by
  obtain ⟨h1, h2, h3, h4, _⟩ := hc
  cases rest <;> simp [parsecmd_loop, h1, h2, h3, h4]

theorem parsecmd_loop_space (env : Env) (rest cur : CStr)
    (sr : Bool) (slots : List (CStr × Int)) :
    parsecmd_loop env (' ' :: rest) cur ' ' sr slots
      = parsecmd_loop env rest [] ' ' sr (slots ++ [store_slot env cur]) := by
  cases rest <;> simp [parsecmd_loop]

/-- The loop walks over a word typed without quotes or bare special bytes
and collects the bytes it stands for. -/
theorem parsecmd_loop_typed (env : Env) (w : EWord)
    (hw : ∀ p ∈ w, p.1 = false → plain_byte p.2)
    (rest cur : CStr) (slots : List (CStr × Int)) :
    parsecmd_loop env (typed w ++ rest) cur ' ' false slots
      = parsecmd_loop env rest (cur ++ meant w) ' ' false slots := by
  induction w generalizing cur with
  | nil => simp [typed, meant]
  | cons p w ih =>
    obtain ⟨b, c⟩ := p
    have ih2 := ih (fun q hq => hw q (by simp [hq]))
    cases b with
    | true =>
      show parsecmd_loop env ('\\' :: c :: (typed w ++ rest)) cur ' ' false slots = _
      rw [parsecmd_loop_backslash, ih2]
      simp [meant]
    | false =>
      have hc : plain_byte c := hw (false, c) (by simp) rfl
      show parsecmd_loop env (c :: (typed w ++ rest)) cur ' ' false slots = _
      rw [parsecmd_loop_plain env c hc, ih2]
      simp [meant]

theorem takeWhile_newline (s nl : CStr) (hnl : '\n' ∉ s) (hn : nl = [] ∨ nl = ['\n']) :
    (s ++ nl).takeWhile (fun c => c != '\n') = s := by
  apply takeWhile_append_stop
  · intro c hc
    have : c ≠ '\n' := fun e => hnl (e ▸ hc)
    simpa using this
  · intro c hc
    rcases hn with rfl | rfl
    · simp at hc
    · simp at hc
      simp [← hc]

theorem parsecmd_of_space (env : Env) (s : CStr) (info : cmdinfo)
    (hsp : ' ' ∈ s) (hnl : '\n' ∉ s) (nl : CStr) (hn : nl = [] ∨ nl = ['\n'])
    (hs : (parsecmd_loop env s [] ' ' false []).searching = false) :
    parsecmd env (s ++ nl) info
      = .ok (mkcommand (final_slots env (parsecmd_loop env s [] ' ' false [])),
             { info with canexpandpath := (strpbrk (s ++ nl) ['?', '*', '[']).isSome }) := by
  have htw := takeWhile_newline s nl hnl hn
  have hch : (strchr s ' ').isNone = false := by
    cases h : strchr s ' ' with
    | none => exact absurd hsp ((strchr_eq_none_iff s ' ').1 h)
    | some r => rfl
  unfold parsecmd
  simp only [htw, hch, hs, final_slots]
  simp

theorem parsecmd_of_no_space (env : Env) (s : CStr) (info : cmdinfo)
    (hsp : ' ' ∉ s) (hnl : '\n' ∉ s) (nl : CStr) (hn : nl = [] ∨ nl = ['\n']) :
    parsecmd env (s ++ nl) info
      = .ok ({ argv := [some s, none], argc := 1, dynallocinfo := [0, -1] },
             { info with canexpandpath := (strpbrk (s ++ nl) ['?', '*', '[']).isSome }) := by
  have htw := takeWhile_newline s nl hnl hn
  have hch : (strchr s ' ').isNone = true := by
    rw [(strchr_eq_none_iff s ' ').2 hsp]
    rfl
  unfold parsecmd
  simp only [htw, hch]
  simp

theorem store_slot_no_tilde (env : Env) (t : CStr) (h : t.head? ≠ some '~') :
    store_slot env t = (t, 0) := by
  simp [store_slot, expand_tilde, h]

theorem meant_ne_nil (w : EWord) (h : w ≠ []) : meant w ≠ [] := by
  cases w with
  | nil => exact absurd rfl h
  | cons p w => simp [meant]

/-- The loop on words typed one after the other with single spaces between
them: one slot per word, none left open. -/
theorem parsecmd_loop_join (env : Env) (ws : List EWord) (w : EWord)
    (hw : ∀ v ∈ w :: ws, v ≠ [] ∧ ∀ p ∈ v, p.1 = false → plain_byte p.2)
    (slots : List (CStr × Int)) :
    (parsecmd_loop env (join_spaces ((w :: ws).map typed)) [] ' ' false slots).searching = false
    ∧ final_slots env (parsecmd_loop env (join_spaces ((w :: ws).map typed)) [] ' ' false slots)
        = slots ++ (w :: ws).map (fun v => store_slot env (meant v)) := by
  induction ws generalizing w slots with
  | nil =>
    have h1 := parsecmd_loop_typed env w (hw w (by simp)).2 [] [] slots
    simp only [List.append_nil, List.nil_append] at h1
    simp only [List.map, join_spaces, h1, parsecmd_loop, final_slots]
    simp [meant_ne_nil w (hw w (by simp)).1]
  | cons u ws ih =>
    have h1 := parsecmd_loop_typed env w (hw w (by simp)).2
      (' ' :: join_spaces ((u :: ws).map typed)) [] slots
    have ih2 := ih u (fun v hv => hw v (by simp [List.mem_cons] at hv ⊢; tauto))
      (slots ++ [store_slot env (meant w)])
    show (parsecmd_loop env (typed w ++ ' ' :: join_spaces ((u :: ws).map typed)) [] ' ' false
        slots).searching = false
      ∧ final_slots env (parsecmd_loop env
          (typed w ++ ' ' :: join_spaces ((u :: ws).map typed)) [] ' ' false slots) = _
    rw [h1, parsecmd_loop_space]
    simp only [List.nil_append]
    refine ⟨ih2.1, ?_⟩
    rw [ih2.2]
    simp

theorem mem_join_spaces (ts : List CStr) (c : Char) (h : c ∈ join_spaces ts) :
    c = ' ' ∨ ∃ t ∈ ts, c ∈ t := by
  induction ts with
  | nil => simp [join_spaces] at h
  | cons t ts ih =>
    cases ts with
    | nil => exact Or.inr ⟨t, by simp, by simpa [join_spaces] using h⟩
    | cons u ts =>
      simp only [join_spaces, List.mem_append, List.mem_cons] at h
      rcases h with h | h | h
      · exact Or.inr ⟨t, by simp, h⟩
      · exact Or.inl h
      · rcases ih h with h | ⟨v, hv, hc⟩
        · exact Or.inl h
        · exact Or.inr ⟨v, List.mem_cons_of_mem _ hv, hc⟩

theorem space_mem_join_spaces (t u : CStr) (ts : List CStr) :
    ' ' ∈ join_spaces (t :: u :: ts) := by
  simp [join_spaces]

theorem mem_typed (w : EWord) (c : Char) (h : c ∈ typed w) : c = '\\' ∨ c ∈ meant w := by
  induction w with
  | nil => simp [typed] at h
  | cons p w ih =>
    obtain ⟨b, d⟩ := p
    cases b with
    | true =>
      simp only [typed, List.mem_cons] at h
      rcases h with h | h | h
      · exact Or.inl h
      · exact Or.inr (by simp [meant, h])
      · rcases ih h with h | h
        · exact Or.inl h
        · exact Or.inr (by simp only [meant, List.map_cons, List.mem_cons]; exact Or.inr h)
    | false =>
      simp only [typed, List.mem_cons] at h
      rcases h with h | h
      · exact Or.inr (by simp [meant, h])
      · rcases ih h with h | h
        · exact Or.inl h
        · exact Or.inr (by simp only [meant, List.map_cons, List.mem_cons]; exact Or.inr h)

/-- Two or more typed words separated by single spaces: `parsecmd` stores one
slot per word, holding the bytes the word stands for (tilde-expanded). -/
theorem parsecmd_typed_words (env : Env) (info : cmdinfo) (w u : EWord) (ws : List EWord)
    (hw : ∀ v ∈ w :: u :: ws, v ≠ [] ∧ (∀ p ∈ v, p.1 = false → plain_byte p.2)
      ∧ '\n' ∉ meant v)
    (nl : CStr) (hn : nl = [] ∨ nl = ['\n']) :
    parsecmd env (join_spaces ((w :: u :: ws).map typed) ++ nl) info
      = .ok (mkcommand ((w :: u :: ws).map (fun v => store_slot env (meant v))),
             { info with canexpandpath :=
                 (strpbrk (join_spaces ((w :: u :: ws).map typed) ++ nl)
                   ['?', '*', '[']).isSome }) := by
  have hl := parsecmd_loop_join env (u :: ws) w (fun v hv => ⟨(hw v hv).1, (hw v hv).2.1⟩) []
  have hnl : '\n' ∉ join_spaces ((w :: u :: ws).map typed) := by
    intro h
    rcases mem_join_spaces _ _ h with h | ⟨t, ht, hc⟩
    · exact absurd h (by decide)
    · obtain ⟨v, hv, rfl⟩ := List.mem_map.1 ht
      rcases mem_typed v _ hc with h | h
      · exact absurd h (by decide)
      · exact (hw v hv).2.2 h
  have hsp : ' ' ∈ join_spaces ((w :: u :: ws).map typed) := space_mem_join_spaces _ _ _
  rw [parsecmd_of_space env _ info hsp hnl nl hn hl.1, hl.2]
  simp

theorem typed_map_false (t : CStr) : typed (t.map (fun c => (false, c))) = t := by
  induction t with
  | nil => rfl
  | cons c t ih => simp [typed, ih]

theorem meant_map_false (t : CStr) : meant (t.map (fun c => (false, c))) = t := by
  simp [meant]

theorem typed_map_map_false (l : List CStr) :
    (l.map (fun v => v.map (fun c => (false, c)))).map typed = l := by
  induction l with
  | nil => rfl
  | cons t l ih => simp only [List.map_cons, typed_map_false, ih]

theorem mkcommand_borrowed (ts : List CStr) :
    mkcommand (ts.map (fun x => (x, (0 : Int))))
      = { argv := ts.map some ++ [none]
          argc := ts.length
          dynallocinfo := List.replicate ts.length 0 ++ [-1] } := by
  simp [mkcommand, Function.comp_def, List.map_const']

/-- C1. Tokenize/re-join round trip: for every list of one or more non-empty
tokens free of space, quotes, backslash and newline and not beginning with
`~`, `parsecmd` on the tokens joined by single spaces, with or without one
final newline, succeeds with `argc` the number of tokens, `argv` exactly the
tokens in order followed by `NULL`, and every slot marked non-owning. -/
theorem parsecmd_join_spaces_roundtrip (env : Env) (info : cmdinfo) (ts : List CStr)
    (hne : ts ≠ [])
    (hts : ∀ t ∈ ts, t ≠ [] ∧ (∀ c ∈ t, plain_byte c) ∧ t.head? ≠ some '~')
    (nl : CStr) (hn : nl = [] ∨ nl = ['\n']) :
    parsecmd env (join_spaces ts ++ nl) info
      = .ok ({ argv := ts.map some ++ [none]
               argc := ts.length
               dynallocinfo := List.replicate ts.length 0 ++ [-1] },
             { info with canexpandpath :=
                 (strpbrk (join_spaces ts ++ nl) ['?', '*', '[']).isSome }) := by
  match ts, hne, hts with
  | [t], _, hts =>
    obtain ⟨_, hp, _⟩ := hts t (by simp)
    have h := parsecmd_of_no_space env t info (fun h => (hp _ h).1 rfl)
      (fun h => (hp _ h).2.2.2.2 rfl) nl hn
    simpa [join_spaces] using h
  | t :: u :: ts, _, hts =>
    have key := parsecmd_typed_words env info (t.map (fun c => (false, c)))
      (u.map (fun c => (false, c))) (ts.map (fun v => v.map (fun c => (false, c))))
      (by
        intro v hv
        have : ∃ x ∈ t :: u :: ts, v = x.map (fun c => (false, c)) := by
          simp only [List.mem_cons, List.mem_map] at hv ⊢
          rcases hv with rfl | rfl | ⟨x, hx, rfl⟩
          · exact ⟨t, Or.inl rfl, rfl⟩
          · exact ⟨u, Or.inr (Or.inl rfl), rfl⟩
          · exact ⟨x, Or.inr (Or.inr hx), rfl⟩
        obtain ⟨x, hx, rfl⟩ := this
        obtain ⟨h1, h2, _⟩ := hts x hx
        refine ⟨by simpa using h1, ?_, ?_⟩
        · intro p hp hf
          obtain ⟨c, hc, rfl⟩ := List.mem_map.1 hp
          exact h2 c hc
        · rw [meant_map_false]
          exact fun h => (h2 _ h).2.2.2.2 rfl)
      nl hn
    have e1 : (t.map (fun c => (false, c)) :: u.map (fun c => (false, c)) ::
        ts.map (fun v => v.map (fun c => (false, c)))).map typed = t :: u :: ts :=
      typed_map_map_false (t :: u :: ts)
    have e2 : (t.map (fun c => (false, c)) :: u.map (fun c => (false, c)) ::
        ts.map (fun v => v.map (fun c => (false, c)))).map
          (fun v => store_slot env (meant v)) = (t :: u :: ts).map (fun x => (x, (0 : Int))) := by
      simp only [List.map_cons, List.map_map, meant_map_false]
      rw [store_slot_no_tilde env t (hts t (by simp)).2.2,
        store_slot_no_tilde env u (hts u (by simp)).2.2]
      congr 2
      apply List.map_congr_left
      intro x hx
      simp only [Function.comp, meant_map_false]
      exact store_slot_no_tilde env x (hts x (by simp [hx])).2.2
    rw [e1, e2, mkcommand_borrowed] at key
    exact key

/-- Witness of C1 on the line `ls -l` followed by a newline. -/
theorem parsecmd_join_spaces_roundtrip_witness :
    parsecmd ⟨none, fun _ => none⟩ (join_spaces ["ls".toList, "-l".toList] ++ ['\n'])
        ⟨false, (-1, -1, -1)⟩
      = .ok ({ argv := ["ls".toList, "-l".toList].map some ++ [none]
               argc := 2
               dynallocinfo := List.replicate 2 0 ++ [-1] },
             { canexpandpath :=
                 (strpbrk (join_spaces ["ls".toList, "-l".toList] ++ ['\n'])
                   ['?', '*', '[']).isSome
               redirfds := (-1, -1, -1) }) :=
  parsecmd_join_spaces_roundtrip ⟨none, fun _ => none⟩ ⟨false, (-1, -1, -1)⟩
    ["ls".toList, "-l".toList] (by decide)
    (by
      intro t ht
      simp only [List.mem_cons, List.mem_singleton, List.not_mem_nil, or_false] at ht
      rcases ht with rfl | rfl <;> refine ⟨by decide, ?_, by decide⟩ <;>
        (intro c hc; simp only [String.toList, List.mem_cons, List.not_mem_nil, or_false] at hc;
         rcases hc with rfl | rfl <;> (unfold plain_byte; decide)))
    ['\n'] (Or.inr rfl)

theorem parsecmd_loop_plain_word (env : Env) (t : CStr) (ht : ∀ c ∈ t, plain_byte c)
    (rest cur : CStr) (slots : List (CStr × Int)) :
    parsecmd_loop env (t ++ rest) cur ' ' false slots
      = parsecmd_loop env rest (cur ++ t) ' ' false slots := by
  have h := parsecmd_loop_typed env (t.map (fun c => (false, c)))
    (by
      intro p hp _
      obtain ⟨c, hc, rfl⟩ := List.mem_map.1 hp
      exact ht c hc)
    rest cur slots
  rwa [typed_map_false, meant_map_false] at h

theorem parsecmd_loop_open (env : Env) (q : Char) (hq : q = '"' ∨ q = '\'') (rest cur : CStr)
    (sr : Bool) (slots : List (CStr × Int)) :
    parsecmd_loop env (q :: rest) cur ' ' sr slots = parsecmd_loop env rest cur q true slots := by
  rcases hq with rfl | rfl <;> cases rest <;> simp [parsecmd_loop]

theorem parsecmd_loop_close (env : Env) (q : Char) (hq : q = '"' ∨ q = '\'') (rest cur : CStr)
    (sr : Bool) (slots : List (CStr × Int)) :
    parsecmd_loop env (q :: rest) cur q sr slots
      = parsecmd_loop env rest [] ' ' false (slots ++ [store_slot env cur]) := by
  rcases hq with rfl | rfl <;> cases rest <;> simp [parsecmd_loop]

/-- Inside a quoted region the loop collects every byte other than the
closing quote and the backslash, spaces included. -/
theorem parsecmd_loop_quoted (env : Env) (q : Char) (hq : q = '"' ∨ q = '\'') (body : CStr)
    (hb : ∀ c ∈ body, c ≠ q ∧ c ≠ '\\') (rest cur : CStr) (sr : Bool)
    (slots : List (CStr × Int)) :
    parsecmd_loop env (body ++ rest) cur q sr slots
      = parsecmd_loop env rest (cur ++ body) q sr slots := by
  induction body generalizing cur with
  | nil => simp
  | cons c body ih =>
    obtain ⟨h1, h2⟩ := hb c (by simp)
    have hq2 : q ≠ ' ' := by rcases hq with rfl | rfl <;> decide
    have step : parsecmd_loop env (c :: (body ++ rest)) cur q sr slots
        = parsecmd_loop env (body ++ rest) (cur ++ [c]) q sr slots := by
      cases hbr : body ++ rest <;> simp [parsecmd_loop, h1, h2, hq2]
    show parsecmd_loop env (c :: (body ++ rest)) cur q sr slots = _
    rw [step, ih (fun d hd => hb d (by simp [hd]))]
    simp

/-- C2. Quoting removes exactly the outer quote pair and keeps inner spaces:
for a plain word `w` and a string `q` free of the quote character, backslash
and newline and not beginning with `~`, `parsecmd` on `w`, a space and `q`
between double quotes (or between single quotes) succeeds with `argc = 2` and
`argv = [w, q]`, all bytes of `q` kept. -/
theorem parsecmd_quoted_pair (env : Env) (info : cmdinfo) (w q : CStr) (quote : Char)
    (hquote : quote = '"' ∨ quote = '\'')
    (hw : (∀ c ∈ w, plain_byte c) ∧ w.head? ≠ some '~')
    (hq : (∀ c ∈ q, c ≠ quote ∧ c ≠ '\\' ∧ c ≠ '\n') ∧ q.head? ≠ some '~') :
    parsecmd env (w ++ ' ' :: quote :: (q ++ [quote])) info
      = .ok ({ argv := [some w, some q, none], argc := 2, dynallocinfo := [0, 0, -1] },
             { info with canexpandpath :=
                 (strpbrk (w ++ ' ' :: quote :: (q ++ [quote])) ['?', '*', '[']).isSome }) := by
  have hloop : parsecmd_loop env (w ++ ' ' :: quote :: (q ++ [quote])) [] ' ' false []
      = ⟨[], ' ', false, [(w, 0), (q, 0)]⟩ := by
    rw [parsecmd_loop_plain_word env w hw.1, parsecmd_loop_space,
      parsecmd_loop_open env quote hquote,
      parsecmd_loop_quoted env quote hquote q (fun c hc => ⟨(hq.1 c hc).1, (hq.1 c hc).2.1⟩),
      parsecmd_loop_close env quote hquote]
    simp only [List.nil_append, store_slot_no_tilde env _ hw.2, store_slot_no_tilde env _ hq.2]
    rfl
  have hsp : ' ' ∈ w ++ ' ' :: quote :: (q ++ [quote]) := by simp
  have hnl : '\n' ∉ w ++ ' ' :: quote :: (q ++ [quote]) := by
    have hqn : quote ≠ '\n' := by rcases hquote with rfl | rfl <;> decide
    intro h
    simp only [List.mem_append, List.mem_cons, List.mem_singleton, List.not_mem_nil,
      or_false] at h
    rcases h with h | h | h | h | h
    · exact (hw.1 _ h).2.2.2.2 rfl
    · exact absurd h (by decide)
    · exact hqn h.symm
    · exact (hq.1 _ h).2.2 rfl
    · exact hqn h.symm
  have h := parsecmd_of_space env _ info hsp hnl [] (Or.inl rfl) (by rw [hloop])
  rw [List.append_nil, hloop] at h
  rw [h]
  rfl

/-- Witness of C2 on the line `echo "a  'b"`. -/
theorem parsecmd_quoted_pair_witness :
    parsecmd ⟨none, fun _ => none⟩ ("echo".toList ++ ' ' :: '"' :: ("a  'b".toList ++ ['"']))
        ⟨false, (-1, -1, -1)⟩
      = .ok ({ argv := [some "echo".toList, some "a  'b".toList, none], argc := 2,
               dynallocinfo := [0, 0, -1] },
             { canexpandpath :=
                 (strpbrk ("echo".toList ++ ' ' :: '"' :: ("a  'b".toList ++ ['"']))
                   ['?', '*', '[']).isSome
               redirfds := (-1, -1, -1) }) :=
  parsecmd_quoted_pair ⟨none, fun _ => none⟩ ⟨false, (-1, -1, -1)⟩ "echo".toList "a  'b".toList
    '"' (Or.inl rfl)
    ⟨by unfold plain_byte; decide, by decide⟩
    ⟨by decide, by decide⟩

/-! ## The claims on the tokenizer that fail on the code -/

/-- C3. The line `echo "a b"  'c  d'` is split by `parsecmd` into five
tokens, not three: the space after the closing quote and the second space
each store an empty token, because the loop stores a token at every separator
without looking whether it is empty (only the remainder after the last
separator is tested with `if (*prev_start)`). -/
theorem parsecmd_stores_empty_tokens (env : Env) (info : cmdinfo) :
    parsecmd env "echo \"a b\"  'c  d'".toList info
      = .ok ({ argv := [some "echo".toList, some "a b".toList, some [], some [],
                        some "c  d".toList, none]
               argc := 5
               dynallocinfo := [0, 0, 0, 0, 0, -1] },
             { info with canexpandpath := false }) := by
  rfl

/-- C4. On a line without a space `parsecmd` returns before it looks at
quotes: the line `'abc`, whose quote is never closed, is accepted as the
single token `'abc`, while the same unclosed quote on the line `echo 'abc`
is rejected with `syntax error: unclosed quotation`. -/
theorem parsecmd_no_space_accepts_unclosed_quote (env : Env) (info : cmdinfo) :
    parsecmd env "'abc".toList info
      = .ok ({ argv := [some "'abc".toList, none], argc := 1, dynallocinfo := [0, -1] },
             { info with canexpandpath := false })
    ∧ parsecmd env "echo 'abc".toList info
      = .error "syntax error: unclosed quotation\n" := by
  constructor <;> rfl

/-- C6. On a line without a space `parsecmd` returns before tilde expansion:
with `HOME=/home/u` the line `~/bin` is stored as it is, while on the line
`ls ~/bin` the same token becomes `/home/u/bin`. -/
theorem parsecmd_no_space_skips_tilde (info : cmdinfo) :
    parsecmd env_home "~/bin".toList info
      = .ok ({ argv := [some "~/bin".toList, none], argc := 1, dynallocinfo := [0, -1] },
             { info with canexpandpath := false })
    ∧ parsecmd env_home "ls ~/bin".toList info
      = .ok ({ argv := [some "ls".toList, some "/home/u/bin".toList, none], argc := 2,
               dynallocinfo := [0, 1, -1] },
             { info with canexpandpath := false }) := by
  constructor <;> rfl

/-! ## Lemmas on the redirection parser -/

theorem strpbrk_eq_none_iff (s accept : CStr) :
    strpbrk s accept = none ↔ ∀ c ∈ s, c ∉ accept := by
  unfold strpbrk
  constructor
  · intro h
    split at h
    · rename_i hd
      rw [List.dropWhile_eq_nil_iff] at hd
      intro c hc
      simpa using hd c hc
    · exact absurd h (by simp)
  · intro h
    have hd : s.dropWhile (fun c => !accept.contains c) = [] := by
      rw [List.dropWhile_eq_nil_iff]
      intro x hx
      simpa using h x hx
    rw [hd]

theorem strpbrk_append_cons (pfx r accept : CStr) (x : Char)
    (hp : ∀ c ∈ pfx, c ∉ accept) (hx : x ∈ accept) :
    strpbrk (pfx ++ x :: r) accept = some (x :: r) := by
  induction pfx with
  | nil => simp [strpbrk, List.dropWhile, hx]
  | cons a pfx ih =>
    have ha : a ∉ accept := hp a (by simp)
    have ih2 := ih (fun c hc => hp c (by simp [hc]))
    unfold strpbrk at ih2 ⊢
    simpa [List.dropWhile, ha] using ih2

theorem take_length_sub (pfx r : CStr) :
    (pfx ++ r).take ((pfx ++ r).length - r.length) = pfx := by
  simp

theorem xstrtoint_nil : xstrtoint [] = none := rfl

/-- The body of the loop of `parseredir` on a redirection `<` onto a file. -/
theorem parseredir_arg_in {W : Type} (sys_open : SysOpen W) (opts i : Nat) (st : rstate W)
    (pfx inl file : CStr) (next : Option CStr)
    (hpfx : ∀ c ∈ pfx, c ∉ ['<', '>'])
    (hfile : (if inl = [] then next else some inl) = some file)
    (hamp : file.head? ≠ some '&') :
    parseredir_arg sys_open opts i (pfx ++ '<' :: inl) next st
      = file_redir_result sys_open i st file O_RDONLY pfx STDIN_FILENO := by
  unfold parseredir_arg file_redir_result
  rw [strpbrk_append_cons pfx inl _ '<' hpfx (by simp)]
  simp only [List.head?_cons, if_true, List.drop_succ_cons, List.drop_zero, hfile, hamp, if_false,
    take_length_sub]
  generalize sys_open st.world file _ _ = r
  by_cases h : 0 ≤ r.1
  · cases hb : pfx with
    | nil => simp [h, xstrtoint, set_redirfd]
    | cons a l => cases hx : xstrtoint (a :: l) <;> simp [h, set_redirfd]
  · simp [h]

/-- The body of the loop of `parseredir` on a redirection `>` onto a file. -/
theorem parseredir_arg_out {W : Type} (sys_open : SysOpen W) (opts i : Nat) (st : rstate W)
    (pfx inl file : CStr) (next : Option CStr)
    (hpfx : ∀ c ∈ pfx, c ∉ ['<', '>'])
    (hbar : inl.head? ≠ some '|')
    (hfile : (if inl = [] then next else some inl) = some file)
    (hamp : file.head? ≠ some '&') :
    parseredir_arg sys_open opts i (pfx ++ '>' :: inl) next st
      = file_redir_result sys_open i st file
          (if opts &&& OPT_CLOBBER ≠ 0 then O_WRONLY ||| O_CREAT ||| O_TRUNC
           else O_WRONLY ||| O_CREAT ||| O_EXCL) pfx STDOUT_FILENO := by
  unfold parseredir_arg file_redir_result
  rw [strpbrk_append_cons pfx inl _ '>' hpfx (by simp)]
  have h1 : ¬ (some '>' = some '<') := by decide
  by_cases hc : opts &&& OPT_CLOBBER ≠ 0
  · simp only [if_pos hc]
    simp only [List.head?_cons, h1, if_true, List.drop_succ_cons, List.drop_zero, hbar,
      hfile, hamp, if_false, take_length_sub]
    generalize sys_open st.world file _ _ = r
    by_cases h : 0 ≤ r.1
    · cases hb : pfx with
      | nil => simp [h, xstrtoint, set_redirfd]
      | cons a l => cases hx : xstrtoint (a :: l) <;> simp [h, set_redirfd]
    · simp [h]
  · simp only [if_neg hc]
    simp only [List.head?_cons, h1, if_true, List.drop_succ_cons, List.drop_zero, hbar,
      hfile, hamp, if_false, take_length_sub]
    generalize sys_open st.world file _ _ = r
    by_cases h : 0 ≤ r.1
    · cases hb : pfx with
      | nil => simp [h, xstrtoint, set_redirfd]
      | cons a l => cases hx : xstrtoint (a :: l) <;> simp [h, set_redirfd]
    · simp [h]

/-- The body of the loop of `parseredir` on a redirection `>|` onto a file:
the bytes before `ptr` end with the `>` that `ptr++` stepped over. -/
theorem parseredir_arg_force {W : Type} (sys_open : SysOpen W) (opts i : Nat) (st : rstate W)
    (pfx inl file : CStr) (next : Option CStr)
    (hpfx : ∀ c ∈ pfx, c ∉ ['<', '>'])
    (hfile : (if inl = [] then next else some inl) = some file)
    (hamp : file.head? ≠ some '&') :
    parseredir_arg sys_open opts i (pfx ++ '>' :: '|' :: inl) next st
      = file_redir_result sys_open i st file (O_WRONLY ||| O_CREAT ||| O_TRUNC)
          (pfx ++ ['>']) STDOUT_FILENO := by
  unfold parseredir_arg file_redir_result
  rw [strpbrk_append_cons pfx ('|' :: inl) _ '>' hpfx (by simp)]
  have h1 : ¬ (some '>' = some '<') := by decide
  simp only [List.head?_cons, h1, if_true, List.drop_succ_cons, List.drop_zero,
    hfile, hamp, if_false, take_length_sub, List.take_succ_cons, List.take_zero]
  generalize sys_open st.world file _ _ = r
  by_cases h : 0 ≤ r.1
  · cases hx : xstrtoint (pfx ++ ['>']) <;> simp [h, set_redirfd]
  · simp [h]

theorem parseredir_loop_cons_ok {W : Type} (sys_open : SysOpen W) (opts i : Nat) (tok : CStr)
    (rest : List (Option CStr)) (st st1 : rstate W)
    (h : parseredir_arg sys_open opts i tok (rest.head?.bind id) st = (true, st1)) :
    parseredir_loop sys_open opts i (some tok :: rest) st
      = parseredir_loop sys_open opts (i + 1) rest st1 := by
  simp only [parseredir_loop, h]

theorem parseredir_loop_skip {W : Type} (sys_open : SysOpen W) (opts : Nat) (l : List CStr)
    (hl : ∀ t ∈ l, ∀ c ∈ t, c ∉ ['<', '>']) (rest : List (Option CStr)) (i : Nat)
    (st : rstate W) :
    parseredir_loop sys_open opts i (l.map some ++ rest) st
      = parseredir_loop sys_open opts (i + l.length) rest st := by
  induction l generalizing i with
  | nil => simp
  | cons t l ih =>
    have ht : strpbrk t ['<', '>'] = none := (strpbrk_eq_none_iff t _).2 (hl t (by simp))
    have ih2 := ih (fun u hu => hl u (by simp [hu])) (i + 1)
    have hb : parseredir_arg sys_open opts i t ((l.map some ++ rest).head?.bind id) st
        = (true, st) := by
      simp only [parseredir_arg, ht]
    rw [List.map_cons, List.cons_append, parseredir_loop_cons_ok sys_open opts i t _ st st hb, ih2]
    simp [Nat.add_assoc, Nat.add_comm 1]

/-- A file redirection with operator `<` or `>`, typed in one token or in
two, whose file opens: the loop of `parseredir` goes on after it with the
descriptor as source and the default descriptor of the operator as target. -/
theorem parseredir_loop_redir {W : Type} (sys_open : SysOpen W) (opts : Nat) (op : Char)
    (file : CStr) (inl : Bool) (rest : List (Option CStr)) (i : Nat) (st : rstate W)
    (hop : op = '<' ∨ op = '>')
    (hf : file ≠ [] ∧ file.head? ≠ some '&' ∧ file.head? ≠ some '|'
      ∧ ∀ c ∈ file, c ∉ ['<', '>'])
    (fd : Int) (w1 : W)
    (ho : sys_open st.world file (redir_flags opts op) (redir_mode op) = (fd, w1))
    (hfd : 0 ≤ fd) :
    parseredir_loop sys_open opts i ((redir_tokens op file inl).map some ++ rest) st
      = parseredir_loop sys_open opts (i + (redir_tokens op file inl).length) rest
          { info := { st.info with redirfds := (fd, redir_default op, st.info.redirfds.2.2) }
            argend := i, world := w1 } := by
  obtain ⟨hne, hamp, hbar, hnr⟩ := hf
  have body : ∀ (inl0 : CStr) (next : Option CStr),
      (if inl0 = [] then next else some inl0) = some file → inl0.head? ≠ some '|' →
      parseredir_arg sys_open opts i (op :: inl0) next st
        = (true, { info := { st.info with
                     redirfds := (fd, redir_default op, st.info.redirfds.2.2) }
                   argend := i, world := w1 }) := by
    intro inl0 next hfile hb0
    rcases hop with rfl | rfl
    · have h := parseredir_arg_in sys_open opts i st [] inl0 file next (by simp) hfile hamp
      rw [List.nil_append] at h
      rw [h]
      have ho2 : sys_open st.world file O_RDONLY none = (fd, w1) := by
        simpa [redir_flags, redir_mode] using ho
      unfold file_redir_result
      rw [show (if O_RDONLY &&& O_CREAT ≠ 0 then some S_IRW_ALL else none) = none from by decide,
        ho2]
      simp [hfd, xstrtoint, redir_default]
    · have h := parseredir_arg_out sys_open opts i st [] inl0 file next (by simp) hb0 hfile hamp
      rw [List.nil_append] at h
      rw [h]
      have hcr : ∀ fl : Nat, fl = O_WRONLY ||| O_CREAT ||| O_TRUNC
          ∨ fl = O_WRONLY ||| O_CREAT ||| O_EXCL →
          (if fl &&& O_CREAT ≠ 0 then some S_IRW_ALL else none) = some S_IRW_ALL := by
        intro fl hfl
        rcases hfl with rfl | rfl <;> decide
      have ho2 : sys_open st.world file
          (if opts &&& OPT_CLOBBER ≠ 0 then O_WRONLY ||| O_CREAT ||| O_TRUNC
           else O_WRONLY ||| O_CREAT ||| O_EXCL) (some S_IRW_ALL) = (fd, w1) := by
        have e1 : ('>' = '<') = False := by decide
        simpa [redir_flags, redir_mode, e1] using ho
      unfold file_redir_result
      rw [hcr _ (by by_cases hc : opts &&& OPT_CLOBBER ≠ 0
                    · exact Or.inl (if_pos hc)
                    · exact Or.inr (if_neg hc)), ho2]
      simp [hfd, xstrtoint, redir_default]
  cases inl with
  | true =>
    have hb := body file (rest.head?.bind id) (by simp [hne]) hbar
    simp only [redir_tokens, if_true, List.map_cons, List.map_nil, List.cons_append,
      List.nil_append, List.length_singleton]
    exact parseredir_loop_cons_ok sys_open opts i _ rest st _ hb
  | false =>
    have hb := body [] (some file) (by simp) (by simp)
    have hs := parseredir_loop_skip sys_open opts [file]
      (by intro t ht; simp only [List.mem_singleton] at ht; subst ht; exact hnr) rest (i + 1)
      { info := { st.info with redirfds := (fd, redir_default op, st.info.redirfds.2.2) }
        argend := i, world := w1 }
    simp only [List.map_cons, List.map_nil, List.cons_append, List.nil_append,
      List.length_singleton] at hs
    simp only [redir_tokens, Bool.false_eq_true, if_false, List.map_cons, List.map_nil,
      List.cons_append, List.nil_append, List.length_cons, List.length_nil]
    rw [parseredir_loop_cons_ok sys_open opts i [op] (some file :: rest) st _
      (by simpa using hb)]
    simpa [Nat.add_assoc] using hs

theorem command_of_slots (l : List CStr) :
    (command_of l).argv.take (command_of l).argc = l.map some := by
  simp [command_of, mkcommand, Function.comp_def]

/-! ## The claims on the redirection parser -/

/-- C8 as stated fails on `cat < in > out`: with both files opened, as
descriptors 3 and 4, the plan `parseredir` leaves is the single pair
`redirfds[0] = 4`, `redirfds[1] = 1`; descriptor 3, the input file, is in no
slot of the plan, so nothing routes descriptor 0 from it. -/
theorem parseredir_in_then_out_loses_input :
    parseredir open_next 0
        (command_of ["cat".toList, "<".toList, "in".toList, ">".toList, "out".toList])
        ⟨false, (-1, -1, -1)⟩ 3
      = (0,
         { argv := [some "cat".toList, some "<".toList, some "in".toList, none,
                    some "out".toList, none]
           argc := 3
           dynallocinfo := [0, 0, 0, 0, 0, -1] },
         ⟨false, (4, 1, -1)⟩, 5) := by
  rfl

/-- C8, amended. The plan of `parseredir` holds one source/target pair, and of
two file redirections the later one takes it, whatever their directions: for
a command with the file redirections `op1 f1` then `op2 f2` (each `<` or `>`,
typed in one token or two) among arguments free of `<` and `>`, when both
files open, `parseredir` succeeds with `redirfds[0]` the descriptor of `f2`,
`redirfds[1]` the default target of `op2` and `redirfds[2] = -1`; the
descriptor of `f1` is in no slot of the plan. `argc` becomes the index of the
second operator. -/
theorem parseredir_later_redirection_wins {W : Type} (sys_open : SysOpen W) (opts : Nat)
    (info : cmdinfo) (w : W) (c : CStr) (a1 a2 a3 : List CStr) (op1 op2 : Char)
    (f1 f2 : CStr) (inl1 inl2 : Bool)
    (hop1 : op1 = '<' ∨ op1 = '>') (hop2 : op2 = '<' ∨ op2 = '>')
    (ha : ∀ t ∈ a1 ++ a2 ++ a3, ∀ x ∈ t, x ∉ ['<', '>'])
    (hf1 : f1 ≠ [] ∧ f1.head? ≠ some '&' ∧ f1.head? ≠ some '|' ∧ ∀ x ∈ f1, x ∉ ['<', '>'])
    (hf2 : f2 ≠ [] ∧ f2.head? ≠ some '&' ∧ f2.head? ≠ some '|' ∧ ∀ x ∈ f2, x ∉ ['<', '>'])
    (fd1 fd2 : Int) (w1 w2 : W)
    (ho1 : sys_open w f1 (redir_flags opts op1) (redir_mode op1) = (fd1, w1)) (hfd1 : 0 ≤ fd1)
    (ho2 : sys_open w1 f2 (redir_flags opts op2) (redir_mode op2) = (fd2, w2))
    (hfd2 : 0 ≤ fd2) :
    parseredir sys_open opts
        (command_of (c :: (a1 ++ redir_tokens op1 f1 inl1 ++ a2 ++ redir_tokens op2 f2 inl2
          ++ a3))) info w
      = (0,
         { command_of (c :: (a1 ++ redir_tokens op1 f1 inl1 ++ a2 ++ redir_tokens op2 f2 inl2
             ++ a3)) with
           argv := (command_of (c :: (a1 ++ redir_tokens op1 f1 inl1 ++ a2
             ++ redir_tokens op2 f2 inl2 ++ a3))).argv.set
               (1 + a1.length + (redir_tokens op1 f1 inl1).length + a2.length) none
           argc := 1 + a1.length + (redir_tokens op1 f1 inl1).length + a2.length },
         { info with redirfds := (fd2, redir_default op2, -1) }, w2) := by
  have h1 : ∀ t ∈ a1, ∀ x ∈ t, x ∉ ['<', '>'] := fun t ht => ha t (by simp [ht])
  have h2 : ∀ t ∈ a2, ∀ x ∈ t, x ∉ ['<', '>'] := fun t ht => ha t (by simp [ht])
  have h3 : ∀ t ∈ a3, ∀ x ∈ t, x ∉ ['<', '>'] := fun t ht => ha t (by simp [ht])
  have hloop : parseredir_loop sys_open opts 1
      (((command_of (c :: (a1 ++ redir_tokens op1 f1 inl1 ++ a2 ++ redir_tokens op2 f2 inl2
          ++ a3))).argv.take (command_of (c :: (a1 ++ redir_tokens op1 f1 inl1 ++ a2
          ++ redir_tokens op2 f2 inl2 ++ a3))).argc).drop 1)
      ⟨{ info with redirfds := (-1, -1, -1) }, 0, w⟩
      = (true, ⟨{ info with redirfds := (fd2, redir_default op2, -1) },
          1 + a1.length + (redir_tokens op1 f1 inl1).length + a2.length, w2⟩) := by
    rw [command_of_slots]
    simp only [List.map_cons, List.drop_succ_cons, List.drop_zero, List.map_append,
      List.append_assoc]
    rw [parseredir_loop_skip sys_open opts a1 h1,
      parseredir_loop_redir sys_open opts op1 f1 inl1 _ _ _ hop1 hf1 fd1 w1 ho1 hfd1,
      parseredir_loop_skip sys_open opts a2 h2,
      parseredir_loop_redir sys_open opts op2 f2 inl2 _ _ _ hop2 hf2 fd2 w2 ho2 hfd2]
    have h := parseredir_loop_skip sys_open opts a3 h3 []
      (1 + a1.length + (redir_tokens op1 f1 inl1).length + a2.length
        + (redir_tokens op2 f2 inl2).length)
      ⟨{ info with redirfds := (fd2, redir_default op2, -1) },
          1 + a1.length + (redir_tokens op1 f1 inl1).length + a2.length, w2⟩
    rw [List.append_nil] at h
    rw [h]
    simp [parseredir_loop]
  unfold parseredir
  simp only [hloop]
  have hpos : 1 + a1.length + (redir_tokens op1 f1 inl1).length + a2.length > 0 := by omega
  simp [hpos]

/-- Witness of the amended C8 on `sort >out -r <in` with the clobber option
off: the plan is the input redirection alone. -/
theorem parseredir_later_redirection_wins_witness :
    parseredir open_next 0
        (command_of ("sort".toList :: ([] ++ redir_tokens '>' "out".toList true
          ++ ["-r".toList] ++ redir_tokens '<' "in".toList true ++ []))) ⟨false, (0, 0, 0)⟩ 3
      = (0,
         { command_of ("sort".toList :: ([] ++ redir_tokens '>' "out".toList true
             ++ ["-r".toList] ++ redir_tokens '<' "in".toList true ++ [])) with
           argv := (command_of ("sort".toList :: ([] ++ redir_tokens '>' "out".toList true
             ++ ["-r".toList] ++ redir_tokens '<' "in".toList true ++ []))).argv.set
               (1 + ([] : List CStr).length + (redir_tokens '>' "out".toList true).length
                 + ["-r".toList].length) none
           argc := 1 + ([] : List CStr).length + (redir_tokens '>' "out".toList true).length
                 + ["-r".toList].length },
         { canexpandpath := false, redirfds := (4, redir_default '<', -1) }, 5) :=
  parseredir_later_redirection_wins open_next 0 ⟨false, (0, 0, 0)⟩ 3 "sort".toList
    [] ["-r".toList] [] '>' '<' "out".toList "in".toList true true
    (Or.inr rfl) (Or.inl rfl) (by decide) (by decide) (by decide) 3 4 4 5 rfl (by decide)
    rfl (by decide)

/-- C9. A numeric prefix before `>|` does not override the target
descriptor: for `cat 2>|out` `parseredir` leaves `redirfds[1]` at `1`, because
`ptr` was moved onto the `|` and the prefix handed to `xstrtoint` is `2>`;
for `cat 2>out` and `cat 2<in` it sets `redirfds[1]` to `2`. -/
theorem parseredir_prefix_lost_on_force (opts : Nat) (info : cmdinfo) :
    (parseredir open_next opts (command_of ["cat".toList, "2>|out".toList]) info 3).2.2.1.redirfds
      = (3, 1, -1)
    ∧ (parseredir open_next opts (command_of ["cat".toList, "2>out".toList]) info 3).2.2.1.redirfds
      = (3, 2, -1)
    ∧ (parseredir open_next opts (command_of ["cat".toList, "2<in".toList]) info 3).2.2.1.redirfds
      = (3, 2, -1) := by
  refine ⟨rfl, ?_, rfl⟩
  have hb := parseredir_arg_out open_next opts 1 ⟨{ info with redirfds := (-1, -1, -1) }, 0, 3⟩
    ['2'] "out".toList "out".toList none (by decide) (by decide) rfl (by decide)
  have hb2 : parseredir_arg open_next opts 1 "2>out".toList none
      ⟨{ info with redirfds := (-1, -1, -1) }, 0, 3⟩
      = (true, ⟨{ info with redirfds := (3, 2, -1) }, 1, 4⟩) := by
    rw [show "2>out".toList = ['2'] ++ '>' :: "out".toList from rfl, hb]
    rfl
  have hl : parseredir_loop open_next opts 1
      (((command_of ["cat".toList, "2>out".toList]).argv.take
        (command_of ["cat".toList, "2>out".toList]).argc).drop 1)
      ⟨{ info with redirfds := (-1, -1, -1) }, 0, 3⟩
      = (true, ⟨{ info with redirfds := (3, 2, -1) }, 1, 4⟩) := by
    show parseredir_loop open_next opts 1 [some "2>out".toList] _ = _
    rw [parseredir_loop_cons_ok open_next opts 1 _ [] _ _ hb2]
    rfl
  unfold parseredir
  simp only [hl]
  rfl

/-- C10. Clobber protection, on the body of the loop of `parseredir`, which
runs on every slot `argv[i]`, `1 ≤ i < argc`: for a token made of bytes `pfx`
without `<` or `>`, the operator, and the file name either after the operator
or in the next slot, the file is opened with `O_WRONLY|O_CREAT|O_TRUNC` for
`>|` whatever the options, with the same flags for `>` when clobber is on,
with `O_WRONLY|O_CREAT|O_EXCL` (which holds no `O_TRUNC`) for `>` when
clobber is off, and with `O_RDONLY` and default target `0` for `<`. -/
theorem parseredir_arg_clobber_flags {W : Type} (sys_open : SysOpen W) (opts i : Nat)
    (st : rstate W) (pfx inl file : CStr) (next : Option CStr)
    (hpfx : ∀ c ∈ pfx, c ∉ ['<', '>'])
    (hfile : (if inl = [] then next else some inl) = some file)
    (hamp : file.head? ≠ some '&') :
    parseredir_arg sys_open opts i (pfx ++ '>' :: '|' :: inl) next st
        = file_redir_result sys_open i st file (O_WRONLY ||| O_CREAT ||| O_TRUNC)
            (pfx ++ ['>']) STDOUT_FILENO
    ∧ (inl.head? ≠ some '|' → opts &&& OPT_CLOBBER ≠ 0 →
        parseredir_arg sys_open opts i (pfx ++ '>' :: inl) next st
          = file_redir_result sys_open i st file (O_WRONLY ||| O_CREAT ||| O_TRUNC)
              pfx STDOUT_FILENO)
    ∧ (inl.head? ≠ some '|' → opts &&& OPT_CLOBBER = 0 →
        parseredir_arg sys_open opts i (pfx ++ '>' :: inl) next st
          = file_redir_result sys_open i st file (O_WRONLY ||| O_CREAT ||| O_EXCL)
              pfx STDOUT_FILENO)
    ∧ parseredir_arg sys_open opts i (pfx ++ '<' :: inl) next st
        = file_redir_result sys_open i st file O_RDONLY pfx 0
    ∧ (O_WRONLY ||| O_CREAT ||| O_EXCL) &&& O_TRUNC = 0 := by
  refine ⟨parseredir_arg_force sys_open opts i st pfx inl file next hpfx hfile hamp, ?_, ?_,
    parseredir_arg_in sys_open opts i st pfx inl file next hpfx hfile hamp, by decide⟩
  · intro hbar hc
    rw [parseredir_arg_out sys_open opts i st pfx inl file next hpfx hbar hfile hamp, if_pos hc]
  · intro hbar hc
    rw [parseredir_arg_out sys_open opts i st pfx inl file next hpfx hbar hfile hamp,
      if_neg (not_not.2 hc)]

/-- Witness of C10 on the tokens `2>|out`, `2>out` and `2<out` with the
clobber option off. -/
theorem parseredir_arg_clobber_flags_witness :
    parseredir_arg open_next 0 1 ("2".toList ++ '>' :: '|' :: "out".toList) none
        ⟨⟨false, (-1, -1, -1)⟩, 0, 3⟩
        = file_redir_result open_next 1 ⟨⟨false, (-1, -1, -1)⟩, 0, 3⟩ "out".toList
            (O_WRONLY ||| O_CREAT ||| O_TRUNC) ("2".toList ++ ['>']) STDOUT_FILENO
    ∧ ("out".toList.head? ≠ some '|' → 0 &&& OPT_CLOBBER ≠ 0 →
        parseredir_arg open_next 0 1 ("2".toList ++ '>' :: "out".toList) none
            ⟨⟨false, (-1, -1, -1)⟩, 0, 3⟩
          = file_redir_result open_next 1 ⟨⟨false, (-1, -1, -1)⟩, 0, 3⟩ "out".toList
              (O_WRONLY ||| O_CREAT ||| O_TRUNC) "2".toList STDOUT_FILENO)
    ∧ ("out".toList.head? ≠ some '|' → 0 &&& OPT_CLOBBER = 0 →
        parseredir_arg open_next 0 1 ("2".toList ++ '>' :: "out".toList) none
            ⟨⟨false, (-1, -1, -1)⟩, 0, 3⟩
          = file_redir_result open_next 1 ⟨⟨false, (-1, -1, -1)⟩, 0, 3⟩ "out".toList
              (O_WRONLY ||| O_CREAT ||| O_EXCL) "2".toList STDOUT_FILENO)
    ∧ parseredir_arg open_next 0 1 ("2".toList ++ '<' :: "out".toList) none
          ⟨⟨false, (-1, -1, -1)⟩, 0, 3⟩
        = file_redir_result open_next 1 ⟨⟨false, (-1, -1, -1)⟩, 0, 3⟩ "out".toList
            O_RDONLY "2".toList 0
    ∧ (O_WRONLY ||| O_CREAT ||| O_EXCL) &&& O_TRUNC = 0 :=
  parseredir_arg_clobber_flags open_next 0 1 ⟨⟨false, (-1, -1, -1)⟩, 0, 3⟩ "2".toList
    "out".toList "out".toList none (by decide) rfl (by decide)

/-! ## Pathname expansion and the command handed to execution -/

theorem expand_path_loop_nomatch (glob : Glob) (pre post : List CStr) (tok : CStr)
    (hmeta : strpbrk tok ['?', '*', '['] ≠ none) (hg : glob tok = (GLOB_NOMATCH, []))
    (out : List (CStr × Int)) :
    expand_path_loop glob ((pre ++ tok :: post).map some) out
      = expand_path_loop glob ((pre ++ post).map some) out := by
  induction pre generalizing out with
  | nil =>
    have hm : (strpbrk tok ['?', '*', '[']).isNone = false := by
      cases h : strpbrk tok ['?', '*', '['] with
      | none => exact absurd h hmeta
      | some r => rfl
    simp [expand_path_loop, hm, hg, GLOB_NOMATCH]
  | cons a pre ih =>
    simp only [List.cons_append, List.map_cons, expand_path_loop]
    split
    · exact ih _
    · split
      · rfl
      · exact ih _

theorem expand_path_loop_plain (glob : Glob) (l : List CStr)
    (hl : ∀ t ∈ l, strpbrk t ['?', '*', '['] = none) (out : List (CStr × Int)) :
    expand_path_loop glob (l.map some) out = some (out ++ l.map (fun a => (a, 0))) := by
  induction l generalizing out with
  | nil => simp [expand_path_loop]
  | cons a l ih =>
    have ha := hl a (by simp)
    simp only [List.map_cons, expand_path_loop, ha, Option.isNone_none, if_true]
    rw [ih (fun t ht => hl t (by simp [ht]))]
    simp

/-- C7 as stated fails on `ls *.xyz` when nothing matches `*.xyz`:
`expand_path` succeeds with `argc = 1` and `argv = [ls, NULL]`; the token
`*.xyz` is in no slot of the output. -/
theorem expand_path_nomatch_loses_token :
    expand_path glob_star (command_of ["ls".toList, "*.xyz".toList])
      = some { argv := [some "ls".toList, none], argc := 1, dynallocinfo := [0, -1] }
    ∧ glob_star "*.xyz".toList = (GLOB_NOMATCH, []) := by
  constructor <;> rfl

/-- C7, amended. When the filename-matching routine reports no match
(`GLOB_NOMATCH`, zero paths) for a token holding `?`, `*` or `[`,
`expand_path` does not fail on it and stores no slot for it: the result is
that of the command without the token. When no other token holds such a byte
`expand_path` succeeds and the output is the other tokens in order, with
`argc` one less than before. -/
theorem expand_path_nomatch_drops_token (glob : Glob) (pre post : List CStr) (tok : CStr)
    (hmeta : strpbrk tok ['?', '*', '['] ≠ none) (hg : glob tok = (GLOB_NOMATCH, [])) :
    expand_path glob (command_of (pre ++ tok :: post))
        = expand_path glob (command_of (pre ++ post))
    ∧ ((∀ t ∈ pre ++ post, strpbrk t ['?', '*', '['] = none) →
        expand_path glob (command_of (pre ++ tok :: post)) = some (command_of (pre ++ post))
        ∧ (command_of (pre ++ post)).argc + 1 = (command_of (pre ++ tok :: post)).argc) := by
  have h1 : expand_path glob (command_of (pre ++ tok :: post))
      = expand_path glob (command_of (pre ++ post)) := by
    unfold expand_path
    rw [command_of_slots, command_of_slots, expand_path_loop_nomatch glob pre post tok hmeta hg]
  refine ⟨h1, fun hp => ⟨?_, by simp [command_of, mkcommand]; omega⟩⟩
  rw [h1]
  unfold expand_path
  rw [command_of_slots, expand_path_loop_plain glob _ hp]
  rfl

/-- Witness of the amended C7 on `ls -l *.xyz dir` when nothing matches
`*.xyz`. -/
theorem expand_path_nomatch_drops_token_witness :
    expand_path glob_star (command_of (["ls".toList, "-l".toList] ++ "*.xyz".toList
        :: ["dir".toList]))
        = expand_path glob_star (command_of (["ls".toList, "-l".toList] ++ ["dir".toList]))
    ∧ ((∀ t ∈ ["ls".toList, "-l".toList] ++ ["dir".toList],
          strpbrk t ['?', '*', '['] = none) →
        expand_path glob_star (command_of (["ls".toList, "-l".toList] ++ "*.xyz".toList
            :: ["dir".toList]))
          = some (command_of (["ls".toList, "-l".toList] ++ ["dir".toList]))
        ∧ (command_of (["ls".toList, "-l".toList] ++ ["dir".toList])).argc + 1
          = (command_of (["ls".toList, "-l".toList] ++ "*.xyz".toList
            :: ["dir".toList])).argc) :=
  expand_path_nomatch_drops_token glob_star ["ls".toList, "-l".toList] ["dir".toList]
    "*.xyz".toList (by decide) rfl

theorem parseredir_no_redirection {W : Type} (sys_open : SysOpen W) (opts : Nat) (c : CStr)
    (l : List CStr) (hl : ∀ t ∈ l, ∀ x ∈ t, x ∉ ['<', '>']) (info : cmdinfo) (w : W) :
    parseredir sys_open opts (command_of (c :: l)) info w
      = (0, command_of (c :: l), { info with redirfds := (-1, -1, -1) }, w) := by
  have h := parseredir_loop_skip sys_open opts l hl [] 1
    ⟨{ info with redirfds := (-1, -1, -1) }, 0, w⟩
  rw [List.append_nil] at h
  unfold parseredir
  rw [command_of_slots]
  simp only [List.map_cons, List.drop_succ_cons, List.drop_zero, h]
  simp [parseredir_loop]

theorem exec_is_pipeline_of_no_bar (s : CStr) (h : '|' ∉ s) : exec_is_pipeline s = false := by
  unfold exec_is_pipeline
  rw [(strchr_eq_none_iff s '|').2 h]

/-- C5 as stated fails on `echo \*` with the glob option on, in a directory
holding `a.c` and `b.c`: the line is no pipeline, `parsecmd` removes the
backslash and `expand_path` then hands the token `*` to the filename-matching
routine, so the command `exec` passes on is `echo a.c b.c` and no slot holds
the byte `*`. -/
theorem exec_args_escaped_star_is_expanded :
    exec_is_pipeline "echo \\*".toList = false
    ∧ exec_args env_home glob_star open_next (OPT_GLOB ||| OPT_STDIN) "echo \\*".toList
        ⟨false, (-1, -1, -1)⟩ 3
      = (some ({ argv := [some "echo".toList, some "a.c".toList, some "b.c".toList, none]
                 argc := 3
                 dynallocinfo := [0, 1, 1, -1] },
               ⟨true, (-1, -1, -1)⟩), 3) := by
  constructor <;> rfl

/-- C5, amended. With the glob option off, on a line of two or more non-empty
words separated by single spaces (with or without a final newline), where a
byte typed without a backslash is no space, quote, backslash or newline, and
the words hold no newline, `<`, `>` or `|` and do not begin with `~`, `exec`
takes the single-command branch and the command it hands to builtin dispatch
and `execvp` holds each word with its backslashes removed and every byte
typed after a backslash, `?`, `*` and `[` among them, as it is; the slots are
not owned and no redirection is planned. -/
theorem exec_args_escaped_literal_glob_off {W : Type} (env : Env) (glob : Glob)
    (sys_open : SysOpen W) (opts : Nat) (info : cmdinfo) (w : W)
    (a b : EWord) (ws : List EWord) (nl : CStr)
    (hglob : opts &&& OPT_GLOB = 0)
    (hw : ∀ v ∈ a :: b :: ws, v ≠ [] ∧ (∀ p ∈ v, p.1 = false → plain_byte p.2)
      ∧ (∀ x ∈ meant v, x ≠ '\n' ∧ x ≠ '<' ∧ x ≠ '>' ∧ x ≠ '|')
      ∧ (meant v).head? ≠ some '~')
    (hn : nl = [] ∨ nl = ['\n']) :
    exec_is_pipeline (join_spaces ((a :: b :: ws).map typed) ++ nl) = false
    ∧ exec_args env glob sys_open opts (join_spaces ((a :: b :: ws).map typed) ++ nl) info w
      = (some (command_of ((a :: b :: ws).map meant),
               { canexpandpath :=
                   (strpbrk (join_spaces ((a :: b :: ws).map typed) ++ nl)
                     ['?', '*', '[']).isSome
                 redirfds := (-1, -1, -1) }), w) := by
  have hbar : '|' ∉ join_spaces ((a :: b :: ws).map typed) ++ nl := by
    intro h
    rcases List.mem_append.1 h with h | h
    · rcases mem_join_spaces _ _ h with h | ⟨t, ht, hc⟩
      · exact absurd h (by decide)
      · obtain ⟨v, hv, rfl⟩ := List.mem_map.1 ht
        rcases mem_typed v _ hc with h | h
        · exact absurd h (by decide)
        · exact ((hw v hv).2.2.1 _ h).2.2.2 rfl
    · rcases hn with rfl | rfl
      · simp at h
      · simp at h
  refine ⟨exec_is_pipeline_of_no_bar _ hbar, ?_⟩
  have hp := parsecmd_typed_words env info a b ws
    (fun v hv => ⟨(hw v hv).1, (hw v hv).2.1, fun h => ((hw v hv).2.2.1 _ h).1 rfl⟩) nl hn
  have hs : (a :: b :: ws).map (fun v => store_slot env (meant v))
      = ((a :: b :: ws).map meant).map (fun x => (x, (0 : Int))) := by
    rw [List.map_map]
    apply List.map_congr_left
    intro v hv
    exact store_slot_no_tilde env _ (hw v hv).2.2.2
  rw [hs] at hp
  have hr := parseredir_no_redirection sys_open opts (meant a) ((b :: ws).map meant)
    (by
      intro t ht x hx
      obtain ⟨v, hv, rfl⟩ := List.mem_map.1 ht
      have := (hw v (List.mem_cons_of_mem _ hv)).2.2.1 x hx
      simp only [List.mem_cons, List.not_mem_nil, or_false, not_or]
      exact ⟨this.2.1, this.2.2.1⟩)
    { info with canexpandpath :=
        (strpbrk (join_spaces ((a :: b :: ws).map typed) ++ nl) ['?', '*', '[']).isSome } w
  unfold exec_args
  rw [hp]
  have hg : ¬ (opts &&& OPT_GLOB ≠ 0) := not_not.2 hglob
  simp only [hg, and_false, if_false]
  show (match parseredir sys_open opts (command_of (meant a :: (b :: ws).map meant)) _ w with
    | (r, cmd1, info2, w1) => if r < 0 then (none, w1) else (some (cmd1, info2), w1)) = _
  rw [hr]
  rfl

/-- Witness of the amended C5 on the line `echo \* a\?b` with all options
off. -/
theorem exec_args_escaped_literal_glob_off_witness :
    exec_is_pipeline
      (join_spaces (([(false, 'e'), (false, 'c'), (false, 'h'), (false, 'o')]
          :: [(true, '*')] :: [[(false, 'a'), (true, '?'), (false, 'b')]]).map typed) ++ [])
        = false
    ∧ exec_args env_home glob_star open_next 0
        (join_spaces (([(false, 'e'), (false, 'c'), (false, 'h'), (false, 'o')]
          :: [(true, '*')] :: [[(false, 'a'), (true, '?'), (false, 'b')]]).map typed) ++ [])
        ⟨false, (0, 0, 0)⟩ 3
      = (some (command_of (([(false, 'e'), (false, 'c'), (false, 'h'), (false, 'o')]
                 :: [(true, '*')] :: [[(false, 'a'), (true, '?'), (false, 'b')]]).map meant),
               { canexpandpath :=
                   (strpbrk (join_spaces (([(false, 'e'), (false, 'c'), (false, 'h'),
                       (false, 'o')] :: [(true, '*')]
                       :: [[(false, 'a'), (true, '?'), (false, 'b')]]).map typed) ++ [])
                     ['?', '*', '[']).isSome
                 redirfds := (-1, -1, -1) }), 3) :=
  exec_args_escaped_literal_glob_off env_home glob_star open_next 0 ⟨false, (0, 0, 0)⟩ 3
    [(false, 'e'), (false, 'c'), (false, 'h'), (false, 'o')] [(true, '*')]
    [[(false, 'a'), (true, '?'), (false, 'b')]] [] rfl
    (by unfold plain_byte; decide) (Or.inl rfl)

/-! ## The tokenizer on the buffer computes what `parsecmd` computes -/

theorem NUL_ne_special : NUL ≠ '\\' ∧ NUL ≠ ' ' ∧ NUL ≠ '\'' ∧ NUL ≠ '"' ∧ NUL ≠ '\n' := by
  decide

theorem takeWhile_ne_NUL (t r : List Char) (ht : NUL ∉ t) :
    (t ++ NUL :: r).takeWhile (fun c => c != NUL) = t := by
  apply takeWhile_append_stop
  · intro c hc
    have : c ≠ NUL := fun e => ht (e ▸ hc)
    simpa using this
  · intro c hc
    simp only [List.head?_cons, Option.some.injEq] at hc
    simp [← hc]

theorem cstr_at_append (pre t r : List Char) (ht : NUL ∉ t) :
    cstr_at (pre ++ (t ++ NUL :: r)) pre.length = t := by
  unfold cstr_at
  rw [List.drop_left]
  exact takeWhile_ne_NUL t r ht

theorem getD_append_cons (pre r : List Char) (c d : Char) :
    (pre ++ c :: r).getD pre.length d = c := by
  induction pre with
  | nil => rfl
  | cons a pre ih => simpa using ih

theorem set_append_cons (pre r : List Char) (c x : Char) :
    (pre ++ c :: r).set pre.length x = pre ++ x :: r := by
  induction pre with
  | nil => rfl
  | cons a pre ih => simp [ih]

theorem popchar_append (pre t r : List Char) (c : Char) (hc : c ≠ NUL) (ht : NUL ∉ t) :
    popchar (pre ++ (c :: t ++ NUL :: r)) pre.length = pre ++ (t ++ NUL :: NUL :: r) := by
  have h1 : cstr_at (pre ++ (c :: t ++ NUL :: r)) pre.length = c :: t := by
    apply cstr_at_append
    simp only [List.mem_cons, not_or]
    exact ⟨fun e => hc e.symm, ht⟩
  unfold popchar
  rw [h1]
  have h2 : (pre ++ (c :: t ++ NUL :: r)).drop (pre.length + 1) = t ++ NUL :: r := by
    rw [← List.drop_drop, List.drop_left]
    rfl
  have h3 : (pre ++ (c :: t ++ NUL :: r)).drop (pre.length + ((c :: t).length - 1) + 1)
      = NUL :: r := by
    have : pre.length + ((c :: t).length - 1) + 1 = (pre.length + 1) + t.length := by
      simp only [List.length_cons]; omega
    rw [this, ← List.drop_drop, h2, List.drop_left]
  dsimp only
  rw [h2, h3, List.take_left]
  simp only [List.length_cons, Nat.add_sub_cancel, List.take_left, List.append_assoc]

theorem getD_replicate_NUL (m i : Nat) (junk : List Char) (hi : i < m) :
    (List.replicate m NUL ++ junk).getD i NUL = NUL := by
  induction m generalizing i with
  | zero => omega
  | succ m ih =>
    cases i with
    | zero => rfl
    | succ i => simpa [List.replicate_succ] using ih i (by omega)

theorem getD_append_add (pre x : List Char) (i : Nat) :
    (pre ++ x).getD (pre.length + i) NUL = x.getD i NUL := by
  induction pre with
  | nil => simp
  | cons a pre ih =>
    have : (a :: pre).length + i = (pre.length + i) + 1 := by simp only [List.length_cons]; omega
    rw [this]
    simpa using ih

theorem buffer_loop_step (env : Env) (endp fuel : Nat) (st : bstate) (h : st.ptr < endp) :
    parsecmd_buffer_loop env endp (fuel + 1) st
      = if st.buf.getD st.ptr NUL = '\\' then
          parsecmd_buffer_loop env endp fuel
            { st with buf := popchar st.buf st.ptr, ptr := st.ptr + 1 }
        else if st.buf.getD st.ptr NUL = st.delim then
          parsecmd_buffer_loop env endp fuel
            { buf := st.buf.set st.ptr NUL, ptr := st.ptr + 1, prev_start := st.ptr + 1
              delim := ' '
              searching := if st.delim ≠ ' ' then false else st.searching
              argv := st.argv ++ [store_bslot env (st.buf.set st.ptr NUL) st.prev_start] }
        else if st.delim = ' ' ∧ (st.buf.getD st.ptr NUL = '\''
            ∨ st.buf.getD st.ptr NUL = '"') then
          parsecmd_buffer_loop env endp fuel
            { st with delim := st.buf.getD st.ptr NUL, buf := popchar st.buf st.ptr,
                      searching := true }
        else
          parsecmd_buffer_loop env endp fuel { st with ptr := st.ptr + 1 } := by
  rw [parsecmd_buffer_loop]
  simp only [if_pos h]

theorem buffer_loop_done (env : Env) (endp fuel : Nat) (st : bstate) (h : ¬ st.ptr < endp) :
    parsecmd_buffer_loop env endp fuel st = some st := by
  cases fuel <;> simp [parsecmd_buffer_loop, h]

/-- Once the string at `ptr` is used up the loop walks over the NUL bytes up
to `end` and changes nothing but `ptr`. -/
theorem buffer_loop_walk (env : Env) (endp fuel : Nat) (A junk : List Char) (m : Nat)
    (st : bstate) (hbuf : st.buf = A ++ (List.replicate m NUL ++ junk))
    (hA : A.length ≤ st.ptr) (hend : endp ≤ A.length + m)
    (hd : st.delim = ' ' ∨ st.delim = '\'' ∨ st.delim = '"')
    (hf : endp - st.ptr ≤ fuel) :
    ∃ p, parsecmd_buffer_loop env endp fuel st = some { st with ptr := p } := by
  induction fuel generalizing st with
  | zero =>
    refine ⟨st.ptr, ?_⟩
    rw [buffer_loop_done env endp 0 st (by omega)]
  | succ fuel ih =>
    by_cases h : st.ptr < endp
    · have hc : st.buf.getD st.ptr NUL = NUL := by
        obtain ⟨i, hi⟩ : ∃ i, st.ptr = A.length + i := ⟨st.ptr - A.length, by omega⟩
        rw [hbuf, hi, getD_append_add, getD_replicate_NUL m i junk (by omega)]
      obtain ⟨n1, n2, n3, n4, _⟩ := NUL_ne_special
      have hnd : NUL ≠ st.delim := by
        rcases hd with e | e | e <;> rw [e] <;> assumption
      rw [buffer_loop_step env endp fuel st h, hc, if_neg n1, if_neg hnd,
        if_neg (by rintro ⟨_, e | e⟩; exact n3 e; exact n4 e)]
      obtain ⟨p, hp⟩ := ih { st with ptr := st.ptr + 1 } hbuf (by simp only; omega) hd
        (by simp only; omega)
      exact ⟨p, hp⟩
    · refine ⟨st.ptr, ?_⟩
      rw [buffer_loop_done env endp _ st h]

theorem parsecmd_loop_cons (env : Env) (c : Char) (rest cur : CStr) (delim : Char)
    (sr : Bool) (slots : List (CStr × Int)) :
    parsecmd_loop env (c :: rest) cur delim sr slots
      = if c = '\\' then
          match rest with
          | [] => ⟨cur, delim, sr, slots⟩
          | d :: rest2 => parsecmd_loop env rest2 (cur ++ [d]) delim sr slots
        else if c = delim then
          parsecmd_loop env rest [] ' ' (if delim ≠ ' ' then false else sr)
            (slots ++ [store_slot env cur])
        else if delim = ' ' ∧ (c = '\'' ∨ c = '"') then
          parsecmd_loop env rest cur c true slots
        else
          parsecmd_loop env rest (cur ++ [c]) delim sr slots := by
  cases rest <;> simp [parsecmd_loop]

theorem slot_rel_append (pre x : List Char) (b : bslot) (s : CStr × Int)
    (h : slot_rel pre b s) : slot_rel (pre ++ x) b s := by
  cases b with
  | inl p =>
    obtain ⟨h1, h2, r, hr⟩ := h
    refine ⟨h1, h2, r ++ x, ?_⟩
    have hp : p ≤ pre.length := by
      by_contra hc
      rw [List.drop_of_length_le (by omega)] at hr
      cases s.1 <;> simp at hr
    rw [List.drop_append_of_le_length hp, hr]
    simp
  | inr r => exact h

theorem slot_rel_store (env : Env) (pre cur r : List Char) (hcur : NUL ∉ cur) :
    slot_rel (pre ++ (cur ++ [NUL])) (store_bslot env (pre ++ (cur ++ NUL :: r)) pre.length)
      (store_slot env cur) := by
  unfold store_bslot store_slot
  rw [cstr_at_append pre cur r hcur]
  cases h : expand_tilde env cur with
  | some x => rfl
  | none =>
    refine ⟨rfl, hcur, [], ?_⟩
    simp

/-- The loop on the buffer follows the loop of `parsecmd`: with the bytes
before `prev_start` in `pre`, those from `prev_start` to `ptr` in `cur`, the
string at `ptr` in `rest` and NUL bytes from there up to `end`, it ends
within `2 * strlen(ptr) + k` iterations in a state that holds what
`parsecmd_loop` returns. -/
theorem buffer_loop_simulates (env : Env) (endp : Nat) (junk : List Char) :
    ∀ (n : Nat) (rest : CStr), rest.length ≤ n →
    ∀ (pre cur : List Char) (k : Nat) (delim : Char) (sr : Bool)
      (slots : List (CStr × Int)) (bargv : List bslot) (fuel : Nat),
    NUL ∉ rest → NUL ∉ cur → (delim = ' ' ∨ delim = '\'' ∨ delim = '"') →
    List.Forall₂ (slot_rel pre) bargv slots →
    endp = pre.length + cur.length + rest.length + k →
    2 * rest.length + k ≤ fuel →
    ∃ (st : bstate) (pre2 : List Char) (k2 : Nat),
      parsecmd_buffer_loop env endp fuel
          ⟨pre ++ (cur ++ (rest ++ NUL :: (List.replicate k NUL ++ junk))),
            pre.length + cur.length, pre.length, delim, sr, bargv⟩ = some st
      ∧ st.buf = pre2 ++ ((parsecmd_loop env rest cur delim sr slots).cur
          ++ NUL :: (List.replicate k2 NUL ++ junk))
      ∧ st.prev_start = pre2.length
      ∧ st.searching = (parsecmd_loop env rest cur delim sr slots).searching
      ∧ List.Forall₂ (slot_rel pre2) st.argv (parsecmd_loop env rest cur delim sr slots).slots
      ∧ NUL ∉ (parsecmd_loop env rest cur delim sr slots).cur := by
  intro n
  induction n with
  | zero =>
    intro rest hn pre cur k delim sr slots bargv fuel _ hcur hd hrel hend hfuel
    have hr : rest = [] := List.length_eq_zero.1 (by omega)
    subst hr
    obtain ⟨p, hp⟩ := buffer_loop_walk env endp fuel (pre ++ cur) junk (k + 1)
      ⟨pre ++ (cur ++ ([] ++ NUL :: (List.replicate k NUL ++ junk))),
        pre.length + cur.length, pre.length, delim, sr, bargv⟩
      (by simp [List.replicate_succ]) (by simp) (by simp at hend ⊢; omega) hd
      (by simp at hend hfuel ⊢; omega)
    exact ⟨_, pre, k, hp, by simp [parsecmd_loop], rfl, by simp [parsecmd_loop],
      by simpa [parsecmd_loop] using hrel, by simpa [parsecmd_loop] using hcur⟩
  | succ n ih =>
    intro rest hn pre cur k delim sr slots bargv fuel hrest hcur hd hrel hend hfuel
    cases rest with
    | nil => exact ih [] (by simp) pre cur k delim sr slots bargv fuel hrest hcur hd hrel hend hfuel
    | cons c rest1 =>
      have hcN : c ≠ NUL := fun e => hrest (by simp [e])
      have hrest1 : NUL ∉ rest1 := fun h => hrest (by simp [h])
      simp only [List.length_cons] at hn hend hfuel
      obtain ⟨f, rfl⟩ : ∃ f, fuel = f + 1 := ⟨fuel - 1, by omega⟩
      have hget : (pre ++ (cur ++ (c :: rest1 ++ NUL :: (List.replicate k NUL ++ junk)))).getD
          (pre.length + cur.length) NUL = c := by
        have := getD_append_cons (pre ++ cur) (rest1 ++ NUL :: (List.replicate k NUL ++ junk))
          c NUL
        simpa using this
      have hpop : popchar (pre ++ (cur ++ (c :: rest1 ++ NUL :: (List.replicate k NUL ++ junk))))
          (pre.length + cur.length)
          = pre ++ (cur ++ (rest1 ++ NUL :: (List.replicate (k + 1) NUL ++ junk))) := by
        have := popchar_append (pre ++ cur) rest1 (List.replicate k NUL ++ junk) c hcN hrest1
        simpa [List.replicate_succ] using this
      have hset : (pre ++ (cur ++ (c :: rest1 ++ NUL :: (List.replicate k NUL ++ junk)))).set
          (pre.length + cur.length) NUL
          = pre ++ (cur ++ NUL :: (rest1 ++ NUL :: (List.replicate k NUL ++ junk))) := by
        have := set_append_cons (pre ++ cur) (rest1 ++ NUL :: (List.replicate k NUL ++ junk))
          c NUL
        rw [List.length_append] at this
        simp only [List.append_assoc, List.cons_append] at this ⊢
        exact this
      rw [buffer_loop_step env endp f _ (by simp only; omega), parsecmd_loop_cons]
      simp only [hget, hpop, hset]
      by_cases h1 : c = '\\'
      · simp only [if_pos h1]
        cases rest1 with
        | nil =>
          obtain ⟨p, hp⟩ := buffer_loop_walk env endp f (pre ++ cur) junk (k + 2)
            ⟨pre ++ (cur ++ ([] ++ NUL :: (List.replicate (k + 1) NUL ++ junk))),
              pre.length + cur.length + 1, pre.length, delim, sr, bargv⟩
            (by simp [List.replicate_succ]) (by simp) (by simp at hend ⊢; omega) hd
            (by simp at hend hfuel ⊢; omega)
          exact ⟨_, pre, k + 1, hp, by simp, rfl, rfl, hrel, hcur⟩
        | cons d rest2 =>
          have hdN : d ≠ NUL := fun e => hrest1 (by simp [e])
          have hrest2 : NUL ∉ rest2 := fun h => hrest1 (by simp [h])
          simp only [List.length_cons] at hn hend hfuel
          have := ih rest2 (by omega) pre (cur ++ [d]) (k + 1) delim sr slots bargv f hrest2
            (by simp only [List.mem_append, List.mem_singleton, not_or]
                exact ⟨hcur, fun e => hdN e.symm⟩)
            hd hrel (by simp; omega) (by omega)
          simpa [Nat.add_assoc] using this
      · simp only [if_neg h1]
        by_cases h2 : c = delim
        · simp only [if_pos h2]
          have hrel2 : List.Forall₂ (slot_rel (pre ++ (cur ++ [NUL])))
              (bargv ++ [store_bslot env
                (pre ++ (cur ++ NUL :: (rest1 ++ NUL :: (List.replicate k NUL ++ junk))))
                pre.length])
              (slots ++ [store_slot env cur]) := by
            apply List.rel_append
            · exact hrel.imp (fun b s h => slot_rel_append pre _ b s h)
            · exact List.Forall₂.cons (slot_rel_store env pre cur _ hcur) List.Forall₂.nil
          have := ih rest1 (by omega) (pre ++ (cur ++ [NUL])) [] k ' '
            (if delim ≠ ' ' then false else sr) (slots ++ [store_slot env cur]) _ f hrest1
            (by simp) (Or.inl rfl) hrel2 (by simp; omega) (by omega)
          simpa [Nat.add_assoc] using this
        · simp only [if_neg h2]
          by_cases h3 : delim = ' ' ∧ (c = '\'' ∨ c = '"')
          · simp only [if_pos h3]
            exact ih rest1 (by omega) pre cur (k + 1) c true slots bargv f hrest1 hcur
              (Or.inr h3.2) hrel (by omega) (by omega)
          · simp only [if_neg h3]
            have := ih rest1 (by omega) pre (cur ++ [c]) k delim sr slots bargv f hrest1
              (by simp only [List.mem_append, List.mem_singleton, not_or]
                  exact ⟨hcur, fun e => hcN e.symm⟩)
              hd hrel (by simp; omega) (by omega)
            simpa [Nat.add_assoc] using this

theorem read_bslot_of_rel (pre x : List Char) (b : bslot) (s : CStr × Int)
    (h : slot_rel pre b s) : read_bslot (pre ++ x) b = s := by
  cases b with
  | inl p =>
    obtain ⟨h1, h2, r, hr⟩ := h
    have hp : p ≤ pre.length := by
      by_contra hc
      rw [List.drop_of_length_le (by omega)] at hr
      cases s.1 <;> simp at hr
    have : cstr_at (pre ++ x) p = s.1 := by
      unfold cstr_at
      rw [List.drop_append_of_le_length hp, hr, List.append_assoc, List.cons_append]
      exact takeWhile_ne_NUL s.1 (r ++ x) h2
    show (cstr_at (pre ++ x) p, (0 : Int)) = s
    rw [this, ← h1]
  | inr r => exact h

theorem map_read_bslot_of_rel (pre x : List Char) (bargv : List bslot)
    (slots : List (CStr × Int)) (h : List.Forall₂ (slot_rel pre) bargv slots) :
    bargv.map (read_bslot (pre ++ x)) = slots := by
  induction h with
  | nil => rfl
  | cons hb _ ih => simp only [List.map_cons, read_bslot_of_rel pre x _ _ hb, ih]

theorem buffer_after_newline (s : CStr) (hs : NUL ∉ s) :
    NUL ∉ s.takeWhile (fun c => c != '\n')
    ∧ ∃ junk, (s ++ [NUL]).set (s.takeWhile (fun c => c != '\n')).length NUL
        = s.takeWhile (fun c => c != '\n') ++ NUL :: junk := by
  refine ⟨fun h => hs ((List.takeWhile_prefix _).subset h), ?_⟩
  have hsplit := List.takeWhile_append_dropWhile (fun c => c != '\n') s
  cases hd : s.dropWhile (fun c => c != '\n') with
  | nil =>
    rw [hd, List.append_nil] at hsplit
    refine ⟨[], ?_⟩
    rw [hsplit]
    exact set_append_cons s [] NUL NUL
  | cons x d =>
    rw [hd] at hsplit
    refine ⟨d ++ [NUL], ?_⟩
    have := set_append_cons (s.takeWhile (fun c => c != '\n')) (d ++ [NUL]) x NUL
    rw [← List.cons_append, ← List.append_assoc, hsplit] at this
    exact this

/-- The tokenizer on the bytes of the line buffer, with `popchar` moving the
bytes in place and `end` fixed before the loop, ends and returns what
`parsecmd` returns, on every line (a C string, free of NUL). -/
theorem parsecmd_buffer_eq_parsecmd (env : Env) (s : CStr) (info : cmdinfo)
    (hs : NUL ∉ s) : parsecmd_buffer env s info = some (parsecmd env s info) := by
  obtain ⟨ht, junk, hbuf⟩ := buffer_after_newline s hs
  have hc0 : cstr_at (s.takeWhile (fun c => c != '\n') ++ NUL :: junk) 0
      = s.takeWhile (fun c => c != '\n') :=
    cstr_at_append [] _ junk ht
  unfold parsecmd_buffer parsecmd
  simp only [hbuf, hc0]
  by_cases hsp : (strchr (s.takeWhile (fun c => c != '\n')) ' ').isNone = true
  · simp only [hsp, if_true, read_bslot, hc0]
    rfl
  · simp only [hsp, if_false, Bool.false_eq_true]
    obtain ⟨st, pre2, k2, hrun, hb, hps, hsr, hrel, hcur⟩ :=
      buffer_loop_simulates env (s.takeWhile (fun c => c != '\n')).length junk
        (s.takeWhile (fun c => c != '\n')).length (s.takeWhile (fun c => c != '\n'))
        (Nat.le_refl _) [] [] 0 ' ' false [] []
        (2 * (s.takeWhile (fun c => c != '\n')).length + 1) ht (by simp) (Or.inl rfl)
        List.Forall₂.nil (by simp) (by omega)
    simp only [List.nil_append, List.replicate_zero, List.length_nil, Nat.add_zero] at hrun
    rw [hrun]
    simp only [hsr]
    by_cases hsearch : (parsecmd_loop env (s.takeWhile (fun c => c != '\n')) [] ' ' false
        []).searching = true
    · simp only [hsearch, if_true]
    · simp only [hsearch, if_false, Bool.false_eq_true]
      congr 3
      unfold final_slots
      generalize parsecmd_loop env (s.takeWhile (fun c => c != '\n')) [] ' ' false [] = L
        at hb hrel hcur
      cases hL : L.cur with
      | nil =>
        rw [hL] at hb
        have hg : st.buf.getD st.prev_start NUL = NUL := by
          rw [hb, hps]
          exact getD_append_cons pre2 _ NUL NUL
        simp only [hg, ne_eq, not_true_eq_false, if_false]
        rw [hb]
        exact congrArg mkcommand (map_read_bslot_of_rel pre2 _ _ _ hrel)
      | cons c cur1 =>
        rw [hL] at hb hcur
        have hcN : c ≠ NUL := fun e => hcur (by simp [e])
        have hg : st.buf.getD st.prev_start NUL = c := by
          rw [hb, hps]
          exact getD_append_cons pre2 _ c NUL
        simp only [hg, ne_eq, hcN, not_false_eq_true, if_true, reduceCtorEq]
        have hrel2 : List.Forall₂ (slot_rel (pre2 ++ (c :: cur1 ++ [NUL])))
            (st.argv ++ [store_bslot env st.buf st.prev_start])
            (L.slots ++ [store_slot env (c :: cur1)]) := by
          apply List.rel_append
          · exact hrel.imp (fun b s h => slot_rel_append pre2 _ b s h)
          · rw [hb, hps]
            exact List.Forall₂.cons (slot_rel_store env pre2 (c :: cur1) _ hcur)
              List.Forall₂.nil
        have hb2 : st.buf = (pre2 ++ (c :: cur1 ++ [NUL])) ++ (List.replicate k2 NUL ++ junk) := by
          rw [hb]; simp
        have hm := map_read_bslot_of_rel _ (List.replicate k2 NUL ++ junk) _ _ hrel2
        rw [← hb2] at hm
        exact congrArg mkcommand hm

/-! ## The claims on execution that fail on the code -/

/-- C12. On `cat <in >` the token `<in` makes `parseredir` open `in` as
descriptor 3, and the `>` without a target makes it return `-1`; `exec` then
returns `-1` without closing anything (line 475-480), so descriptor 3 stays
open in the shell, where none was open above `stderr` before. On `cat <in`
the same descriptor is closed before `exec` returns. -/
theorem exec_parseredir_failure_leaks_descriptor :
    shell0.world.fds = []
    ∧ (exec sim0 env_home glob_none "cat <in >".toList shell0).returned = some (-1)
    ∧ (exec sim0 env_home glob_none "cat <in >".toList shell0).state.world.fds = [3]
    ∧ (exec sim0 env_home glob_none "cat <in".toList shell0).returned = some 0
    ∧ (exec sim0 env_home glob_none "cat <in".toList shell0).state.world.fds = [] := by
  refine ⟨rfl, ?_, ?_, ?_, ?_⟩ <;> rfl

/-- C13. On `true | false | true` with the pipefail option off `exec` takes
the line as a pipeline of three stages and records the status `1`, with the
prompt `1 $ `, where the last stage, `true`, exits with `0`: the loop of
`pipeline` runs `while (j < i - 2)`, so the stage before the last is started
as the last one and the third stage is never started (two children are
forked). -/
theorem pipeline_three_stages_records_middle_status :
    shell0.opts &&& OPT_PIPEFAIL = 0
    ∧ exec_is_pipeline "true | false | true".toList = true
    ∧ pipeline_cmds "true | false | true".toList.length "true | false | true".toList
        (delimit "true | false | true".toList '|')
      = ["true".toList, "false".toList, "true".toList]
    ∧ (exec sim0 env_home glob_none "true | false | true".toList shell0).returned = some 0
    ∧ (exec sim0 env_home glob_none "true | false | true".toList shell0).state.laststatus = 1
    ∧ (exec sim0 env_home glob_none "true | false | true".toList shell0).state.prompt
        = "1 $ ".toList
    ∧ (exec sim0 env_home glob_none "true | false | true".toList shell0).state.world.nextpid
        = shell0.world.nextpid + 2 := by
  refine ⟨rfl, ?_, ?_, ?_, ?_, ?_, ?_⟩ <;> rfl

/-- C17. After `takecmd` has run the builtin `cd /nonexistent`, which fails,
`laststatus` is `1` and the prompt is still the default `$ `:
`try_exec_builtin` stores the status and `exec` calls `update_laststatus`
only after a forked command. After the external command `false`, with the
same status, the prompt is `1 $ `. -/
theorem takecmd_builtin_leaves_prompt :
    (takecmd sim0 env_home glob_none "cd /nonexistent\n".toList shell0).state.laststatus = 1
    ∧ (takecmd sim0 env_home glob_none "cd /nonexistent\n".toList shell0).state.prompt
        = "$ ".toList
    ∧ (takecmd sim0 env_home glob_none "false\n".toList shell0).state.laststatus = 1
    ∧ (takecmd sim0 env_home glob_none "false\n".toList shell0).state.prompt
        = "1 $ ".toList := by
  refine ⟨?_, ?_, ?_, ?_⟩ <;> rfl

/-- C18. The builtin `exit` with the operand `-1` ends the shell, in
`exit(-1)`: only `status > 255` is tested (line 305). With the operand `256`
it returns `1` and the shell goes on, with `7` it ends the shell with
status `7`. -/
theorem builtin_exit_negative_operand_exits :
    (builtin_exit sim0 (command_of ["exit".toList, "-1".toList]) ⟨false, (-1, -1, -1)⟩
        shell0).exit_status = some (-1)
    ∧ (builtin_exit sim0 (command_of ["exit".toList, "256".toList]) ⟨false, (-1, -1, -1)⟩
        shell0).exit_status = none
    ∧ (builtin_exit sim0 (command_of ["exit".toList, "256".toList]) ⟨false, (-1, -1, -1)⟩
        shell0).returned = some 1
    ∧ (builtin_exit sim0 (command_of ["exit".toList, "7".toList]) ⟨false, (-1, -1, -1)⟩
        shell0).exit_status = some 7 := by
  refine ⟨?_, ?_, ?_, ?_⟩ <;> rfl

/-- C19. `set +o stdin` given to the builtin `set` after initialization
clears the stdin bit of the options: the branch of `-o` and `+o` calls
`opttoggle` for `stdin` without looking at `initialized` (line 1354-1355),
where the branch of `-s` and `+s` refuses. -/
theorem set_o_stdin_changes_stdin_bit :
    shell0.opts &&& OPT_STDIN = OPT_STDIN
    ∧ (optparse true 3 (command_of ["set".toList, "+o".toList, "stdin".toList]).argv none
        shell0).2.2.opts &&& OPT_STDIN = 0
    ∧ (builtin_set sim0 (command_of ["set".toList, "+o".toList, "stdin".toList])
        ⟨false, (-1, -1, -1)⟩ shell0).state.opts &&& OPT_STDIN = 0
    ∧ (builtin_set sim0 (command_of ["set".toList, "+s".toList])
        ⟨false, (-1, -1, -1)⟩ shell0).state.opts &&& OPT_STDIN = OPT_STDIN := by
  refine ⟨?_, ?_, ?_, ?_⟩ <;> rfl

/-- C20. With the default options, clobber off and stdin on, `set +o`
prints `set -o clobber`; with clobber on and stdin off it prints
`set +o clobber`: the line for clobber tests `OPT_STDIN` (line 1274). -/
theorem optlist_plus_clobber_line_shows_stdin :
    shell0.opts &&& OPT_CLOBBER = 0
    ∧ (builtin_set sim0 (command_of ["set".toList, "+o".toList])
        ⟨false, (-1, -1, -1)⟩ shell0).state.out
      = ["set -o clobber\n".toList, "set +o cmdline\n".toList, "set -o glob\n".toList,
         "set +o ignoreeof\n".toList, "set +o pipefail\n".toList, "set -o stdin\n".toList,
         "set +o verbose\n".toList]
    ∧ (optlist true { shell0 with opts := OPT_CLOBBER }).out
      = ["set +o clobber\n".toList, "set +o cmdline\n".toList, "set +o glob\n".toList,
         "set +o ignoreeof\n".toList, "set +o pipefail\n".toList, "set +o stdin\n".toList,
         "set +o verbose\n".toList] := by
  refine ⟨?_, ?_, ?_⟩ <;> rfl

/-! ## Descriptor operands of redirections -/

theorem isdigit_not_special (c : Char) (h : isdigit c = true) :
    isspace c = false ∧ c ≠ '-' ∧ c ≠ '+' ∧ c ≠ '<' ∧ c ≠ '>' ∧ c ≠ '&' := by
  refine ⟨?_, ?_, ?_, ?_, ?_, ?_⟩
  · cases hs : isspace c with
    | false => rfl
    | true =>
      exfalso
      simp only [isspace, Bool.or_eq_true, beq_iff_eq] at hs
      rcases hs with ((((hs | hs) | hs) | hs) | hs) | hs <;> subst hs <;> revert h <;> decide
  all_goals (intro hc; subst hc; revert h; decide)

theorem strtol_decimal (ds : CStr) (hd : is_decimal ds)
    (hmax : (decimal_value ds : Int) ≤ LONG_MAX) :
    strtol ds = ((decimal_value ds : Int), [], false) := by
  obtain ⟨hne, hall⟩ := hd
  cases ds with
  | nil => exact absurd rfl hne
  | cons c r =>
    obtain ⟨h1, h2, h3, _⟩ := isdigit_not_special c (hall c (by simp))
    have hdrop : (c :: r).dropWhile isspace = c :: r := by simp [List.dropWhile, h1]
    have htake : (c :: r).takeWhile isdigit = c :: r := by
      rw [List.takeWhile_eq_self_iff]
      exact hall
    have hdw : (c :: r).dropWhile isdigit = [] := by
      rw [List.dropWhile_eq_nil_iff]
      exact hall
    have hmin : ¬ ((decimal_value (c :: r) : Int) < LONG_MIN) := by
      have : (0 : Int) ≤ (decimal_value (c :: r) : Int) := Int.natCast_nonneg _
      have h0 : LONG_MIN < 0 := by decide
      omega
    have hsig : (match (c :: r : CStr) with
        | '-' :: r => (true, r)
        | '+' :: r => (false, r)
        | _ => (false, c :: r)) = (false, c :: r) := by
      split
      · rename_i heq; exact absurd (List.cons.inj heq).1 h2
      · rename_i heq; exact absurd (List.cons.inj heq).1 h3
      · rfl
    unfold strtol
    simp only [hdrop, hsig, htake, hdw, Bool.false_eq_true, if_false, reduceCtorEq]
    show (if ((decimal_value (c :: r) : Nat) : Int) > LONG_MAX then _
      else if ((decimal_value (c :: r) : Nat) : Int) < LONG_MIN then _ else _) = _
    rw [if_neg (not_lt.2 hmax), if_neg hmin]
    rfl

theorem xstrtoint_decimal (ds : CStr) (hd : is_decimal ds)
    (hmax : (decimal_value ds : Int) ≤ INT_MAX) :
    xstrtoint ds = some (decimal_value ds : Int) := by
  have hl : (decimal_value ds : Int) ≤ LONG_MAX :=
    le_trans hmax (by decide)
  have hs := strtol_decimal ds hd hl
  have hmin : INT_MIN ≤ (decimal_value ds : Int) :=
    le_trans (by decide : INT_MIN ≤ 0) (Int.natCast_nonneg _)
  obtain ⟨hne, hall⟩ := hd
  cases ds with
  | nil => exact absurd rfl hne
  | cons c r =>
    have hc : isdigit c = true := hall c (by simp)
    unfold xstrtoint
    simp [hc, hs, hmax, hmin]

theorem wexstrtoint_decimal (ds : CStr) (hd : is_decimal ds)
    (hmax : (decimal_value ds : Int) ≤ INT_MAX) :
    wexstrtoint ds = .ok (decimal_value ds : Int) := by
  have hl : (decimal_value ds : Int) ≤ LONG_MAX :=
    le_trans hmax (by decide)
  have hs := strtol_decimal ds hd hl
  have hmin : INT_MIN ≤ (decimal_value ds : Int) :=
    le_trans (by decide : INT_MIN ≤ 0) (Int.natCast_nonneg _)
  obtain ⟨hne, hall⟩ := hd
  cases ds with
  | nil => exact absurd rfl hne
  | cons c r =>
    have hc : isdigit c = true := hall c (by simp)
    unfold wexstrtoint
    simp [hc, hs, not_lt.2 hmax, not_lt.2 hmin]

theorem decimal_no_redir (ds : CStr) (hd : is_decimal ds) : ∀ c ∈ ds, c ∉ ['<', '>'] := by
  intro c hc hm
  obtain ⟨_, _, _, h4, h5, _⟩ := isdigit_not_special c (hd.2 c hc)
  simp only [List.mem_cons, List.mem_singleton, List.not_mem_nil, or_false] at hm
  rcases hm with hm | hm
  · exact h4 hm
  · exact h5 hm

/-- The body of the loop of `parseredir` on the token `N>&M`: no file is
opened, `redirfds[0]` becomes `M` and `redirfds[1]` becomes `N`. -/
theorem parseredir_arg_dup {W : Type} (sys_open : SysOpen W) (opts i : Nat) (st : rstate W)
    (N M : CStr) (next : Option CStr)
    (hN : is_decimal N) (hNmax : (decimal_value N : Int) ≤ INT_MAX)
    (hM : is_decimal M) (hMmax : (decimal_value M : Int) ≤ INT_MAX) :
    parseredir_arg sys_open opts i (N ++ '>' :: '&' :: M) next st
      = (true, { info := { st.info with redirfds :=
                    ((decimal_value M : Int), (decimal_value N : Int), st.info.redirfds.2.2) }
                 argend := i, world := st.world }) := by
  unfold parseredir_arg
  rw [strpbrk_append_cons N ('&' :: M) _ '>' (decimal_no_redir N hN) (by simp)]
  have h1 : ¬ (some '>' = some '<') := by decide
  have h2 : ¬ (some '&' = some '|') := by decide
  have hMne : M ≠ [] := hM.1
  have hNne : N ≠ [] := hN.1
  have hM2 : ('&' :: M) ≠ ['&', '-'] := by
    intro h
    have hm : M = ['-'] := (List.cons.inj h).2
    have := hM.2 '-' (by simp [hm])
    revert this
    decide
  by_cases hc : opts &&& OPT_CLOBBER ≠ 0
  · simp only [if_pos hc]
    simp only [List.head?_cons, h1, h2, if_true, List.drop_succ_cons, List.drop_zero,
      if_false, take_length_sub, reduceCtorEq, hMne, hM2, wexstrtoint_decimal M hM hMmax,
      hNne, ne_eq, not_false_eq_true, xstrtoint_decimal N hN hNmax, Bool.false_eq_true]
    simp [set_redirfd]
  · simp only [if_neg hc]
    simp only [List.head?_cons, h1, h2, if_true, List.drop_succ_cons, List.drop_zero,
      if_false, take_length_sub, reduceCtorEq, hMne, hM2, wexstrtoint_decimal M hM hMmax,
      hNne, ne_eq, not_false_eq_true, xstrtoint_decimal N hN hNmax, Bool.false_eq_true]
    simp [set_redirfd]

/-- The body of the loop of `parseredir` on a token `N>&-`, `N<&-`, `>&-` or
`<&-`: no file is opened and `redirfds[2]` becomes `N`, or the default
descriptor of the operator when there is no prefix. -/
theorem parseredir_arg_close {W : Type} (sys_open : SysOpen W) (opts i : Nat) (st : rstate W)
    (N : CStr) (op : Char) (next : Option CStr) (hop : op = '<' ∨ op = '>')
    (hN : N = [] ∨ (is_decimal N ∧ (decimal_value N : Int) ≤ INT_MAX)) :
    parseredir_arg sys_open opts i (N ++ op :: ['&', '-']) next st
      = (true, { info := { st.info with redirfds :=
                    (st.info.redirfds.1, st.info.redirfds.2.1,
                      if N = [] then redir_default op else (decimal_value N : Int)) }
                 argend := i, world := st.world }) := by
  have hNr : ∀ c ∈ N, c ∉ ['<', '>'] := by
    rcases hN with rfl | hN
    · simp
    · exact decimal_no_redir N hN.1
  have hx : ∀ a l, N = a :: l → xstrtoint (a :: l) = some (decimal_value N : Int) := by
    intro a l h
    rcases hN with h0 | hN
    · rw [h0] at h
      exact absurd h (by simp)
    · rw [← h]
      exact xstrtoint_decimal N hN.1 hN.2
  unfold parseredir_arg
  rw [strpbrk_append_cons N ['&', '-'] _ op hNr (by rcases hop with rfl | rfl <;> simp)]
  have h2 : ¬ (some '&' = some '|') := by decide
  rcases hop with rfl | rfl
  · simp only [List.head?_cons, if_true, List.drop_succ_cons, List.drop_zero,
      if_false, take_length_sub, reduceCtorEq]
    cases hb : N with
    | nil => simp [set_redirfd, redir_default, STDIN_FILENO]
    | cons a l =>
      have := hx a l hb
      rw [hb] at this
      simp [set_redirfd, this, hb]
  · have h1 : ¬ (some '>' = some '<') := by decide
    by_cases hc : opts &&& OPT_CLOBBER ≠ 0
    · simp only [if_pos hc]
      simp only [List.head?_cons, h1, h2, if_true, List.drop_succ_cons, List.drop_zero,
        if_false, take_length_sub, reduceCtorEq]
      cases hb : N with
      | nil => simp [set_redirfd, redir_default, STDOUT_FILENO]
      | cons a l =>
        have := hx a l hb
        rw [hb] at this
        simp [set_redirfd, this, hb]
    · simp only [if_neg hc]
      simp only [List.head?_cons, h1, h2, if_true, List.drop_succ_cons, List.drop_zero,
        if_false, take_length_sub, reduceCtorEq]
      cases hb : N with
      | nil => simp [set_redirfd, redir_default, STDOUT_FILENO]
      | cons a l =>
        have := hx a l hb
        rw [hb] at this
        simp [set_redirfd, this, hb]

/-- The body of the loop of `parseredir` on a redirection whose operand is
exactly `&`: it returns `-1`. -/
theorem parseredir_arg_amp {W : Type} (sys_open : SysOpen W) (opts i : Nat) (st : rstate W)
    (pfx inl : CStr) (op : Char) (next : Option CStr) (hop : op = '<' ∨ op = '>')
    (hpfx : ∀ c ∈ pfx, c ∉ ['<', '>'])
    (hamp : (if inl = [] then next else some inl) = some ['&']) :
    (parseredir_arg sys_open opts i (pfx ++ op :: inl) next st).1 = false := by
  have hbar : inl.head? ≠ some '|' := by
    cases inl with
    | nil => simp
    | cons a l =>
      simp only [reduceCtorEq, if_false, Option.some.injEq] at hamp
      rw [hamp]
      decide
  unfold parseredir_arg
  rw [strpbrk_append_cons pfx inl _ op hpfx (by rcases hop with rfl | rfl <;> simp)]
  rcases hop with rfl | rfl
  · simp only [List.head?_cons, if_true, List.drop_succ_cons, List.drop_zero,
      if_false, take_length_sub, hamp]
  · have h1 : ¬ (some '>' = some '<') := by decide
    by_cases hc : opts &&& OPT_CLOBBER ≠ 0
    · simp only [if_pos hc]
      simp only [List.head?_cons, h1, hbar, if_true, List.drop_succ_cons, List.drop_zero,
        if_false, take_length_sub, hamp]
    · simp only [if_neg hc]
      simp only [List.head?_cons, h1, hbar, if_true, List.drop_succ_cons, List.drop_zero,
        if_false, take_length_sub, hamp]

/-- The function `parseredir` on a command whose arguments before the token
`tok` hold no `<` and no `>`, when the body of the loop returns `-1` on `tok`:
`parseredir` returns `-1`. -/
theorem parseredir_fails_at {W : Type} (sys_open : SysOpen W) (opts : Nat) (info : cmdinfo)
    (w : W) (c tok : CStr) (a1 a3 : List CStr)
    (h1 : ∀ t ∈ a1, ∀ x ∈ t, x ∉ ['<', '>'])
    (hb : (parseredir_arg sys_open opts (1 + a1.length) tok (a3.head?)
        ⟨{ info with redirfds := (-1, -1, -1) }, 0, w⟩).1 = false) :
    (parseredir sys_open opts (command_of (c :: (a1 ++ [tok] ++ a3))) info w).1 = -1 := by
  unfold parseredir
  rw [command_of_slots]
  simp only [List.map_cons, List.drop_succ_cons, List.drop_zero, List.map_append,
    List.append_assoc, List.map_nil, List.cons_append, List.nil_append]
  rw [parseredir_loop_skip sys_open opts a1 h1]
  have hn : ((a3.map some).head?.bind id) = a3.head? := by cases a3 <;> rfl
  simp only [parseredir_loop, hn]
  generalize parseredir_arg sys_open opts (1 + a1.length) tok (a3.head?)
    ⟨{ info with redirfds := (-1, -1, -1) }, 0, w⟩ = r at hb
  obtain ⟨b, st⟩ := r
  simp only at hb
  subst hb
  rfl

/-- The function `parseredir` on a command whose only token with `<` or `>`
is `tok`, when the body of the loop succeeds on `tok`: `parseredir` returns
`0` with the plan and the state the body left, and cuts the arguments at
`tok`. -/
theorem parseredir_single {W : Type} (sys_open : SysOpen W) (opts : Nat) (info info1 : cmdinfo)
    (w w1 : W) (c tok : CStr) (a1 a3 : List CStr)
    (h1 : ∀ t ∈ a1, ∀ x ∈ t, x ∉ ['<', '>'])
    (h3 : ∀ t ∈ a3, ∀ x ∈ t, x ∉ ['<', '>'])
    (hb : parseredir_arg sys_open opts (1 + a1.length) tok (a3.head?)
        ⟨{ info with redirfds := (-1, -1, -1) }, 0, w⟩
        = (true, ⟨info1, 1 + a1.length, w1⟩)) :
    parseredir sys_open opts (command_of (c :: (a1 ++ [tok] ++ a3))) info w
      = (0,
         { command_of (c :: (a1 ++ [tok] ++ a3)) with
           argv := (command_of (c :: (a1 ++ [tok] ++ a3))).argv.set (1 + a1.length) none
           argc := 1 + a1.length },
         info1, w1) := by
  unfold parseredir
  rw [command_of_slots]
  simp only [List.map_cons, List.drop_succ_cons, List.drop_zero, List.map_append,
    List.append_assoc, List.map_nil, List.cons_append, List.nil_append]
  rw [parseredir_loop_skip sys_open opts a1 h1]
  have hn : ((a3.map some).head?.bind id) = a3.head? := by cases a3 <;> rfl
  rw [parseredir_loop_cons_ok sys_open opts (1 + a1.length) tok _ _ _ (by rw [hn]; exact hb)]
  have h := parseredir_loop_skip sys_open opts a3 h3 [] (1 + a1.length + 1)
    ⟨info1, 1 + a1.length, w1⟩
  rw [List.append_nil] at h
  rw [h]
  have hpos : 1 + a1.length > 0 := by omega
  simp [parseredir_loop, hpos]

/-- C11 as stated fails on decimal numbers that do not fit an `int`: on
`cat 99999999999>&1` the function `xstrtoint` rejects the prefix, so
`parseredir` succeeds with the target left at its default `1` (the plan is
`(1, 1, -1)`), not at `N`; on `cat 2>&99999999999` the function `wexstrtoint`
reports an overflow and `parseredir` returns `-1`. On `cat 2>&1` the plan is
`(1, 2, -1)`. -/
theorem parseredir_descriptor_number_overflow :
    parseredir open_next 0 (command_of ["cat".toList, "99999999999>&1".toList])
        ⟨false, (-1, -1, -1)⟩ 3
      = (0, cut_command (command_of ["cat".toList, "99999999999>&1".toList]) 1,
          ⟨false, (1, 1, -1)⟩, 3)
    ∧ (parseredir open_next 0 (command_of ["cat".toList, "2>&99999999999".toList])
        ⟨false, (-1, -1, -1)⟩ 3).1 = -1
    ∧ (parseredir open_next 0 (command_of ["cat".toList, "2>&1".toList])
        ⟨false, (-1, -1, -1)⟩ 3).2.2.1.redirfds = (1, 2, -1) := by
  refine ⟨?_, ?_, ?_⟩ <;> rfl

/-- C11, amended. Descriptor duplication and closing operands, for decimal
numbers `N` and `M` whose values fit an `int`. For a command whose other
arguments hold no `<` and no `>`: on the token `N>&M`, `parseredir`
returns `0` with `redirfds = (M, N, -1)` (source `M`, target `N`, nothing to
close) and the state of the system as it was, whatever `open` would do, so no
file is opened; on `N>&-` or `N<&-` it returns `0` with `redirfds =
(-1, -1, N)`, and on `>&-` or `<&-` with `redirfds = (-1, -1, 1)` resp.
`(-1, -1, 0)`; on a redirection whose operand is exactly `&`, in the token of
the operator or in the next one, it returns `-1`. On success the arguments
are cut at the redirection token. -/
theorem parseredir_descriptor_operands {W : Type} (sys_open : SysOpen W) (opts : Nat)
    (info : cmdinfo) (w : W) (c : CStr) (a1 a3 : List CStr) (N M pfx : CStr) (op : Char)
    (ha : ∀ t ∈ a1 ++ a3, ∀ x ∈ t, x ∉ ['<', '>'])
    (hN : is_decimal N ∧ (decimal_value N : Int) ≤ INT_MAX)
    (hM : is_decimal M ∧ (decimal_value M : Int) ≤ INT_MAX)
    (hop : op = '<' ∨ op = '>') (hpfx : ∀ x ∈ pfx, x ∉ ['<', '>']) :
    parseredir sys_open opts (command_of (c :: (a1 ++ [N ++ '>' :: '&' :: M] ++ a3))) info w
        = (0, cut_command (command_of (c :: (a1 ++ [N ++ '>' :: '&' :: M] ++ a3)))
                (1 + a1.length),
            { info with redirfds := ((decimal_value M : Int), (decimal_value N : Int), -1) }, w)
    ∧ parseredir sys_open opts (command_of (c :: (a1 ++ [N ++ op :: ['&', '-']] ++ a3))) info w
        = (0, cut_command (command_of (c :: (a1 ++ [N ++ op :: ['&', '-']] ++ a3)))
                (1 + a1.length),
            { info with redirfds := (-1, -1, (decimal_value N : Int)) }, w)
    ∧ parseredir sys_open opts (command_of (c :: (a1 ++ [op :: ['&', '-']] ++ a3))) info w
        = (0, cut_command (command_of (c :: (a1 ++ [op :: ['&', '-']] ++ a3))) (1 + a1.length),
            { info with redirfds := (-1, -1, if op = '<' then 0 else 1) }, w)
    ∧ (parseredir sys_open opts (command_of (c :: (a1 ++ [pfx ++ op :: ['&']] ++ a3)))
        info w).1 = -1
    ∧ (parseredir sys_open opts (command_of (c :: (a1 ++ [pfx ++ [op]] ++ ['&'] :: a3)))
        info w).1 = -1 := by
  have h1 : ∀ t ∈ a1, ∀ x ∈ t, x ∉ ['<', '>'] := fun t ht => ha t (by simp [ht])
  have h3 : ∀ t ∈ a3, ∀ x ∈ t, x ∉ ['<', '>'] := fun t ht => ha t (by simp [ht])
  have hNne : N ≠ [] := hN.1.1
  refine ⟨?_, ?_, ?_, ?_, ?_⟩
  · exact parseredir_single sys_open opts info _ w w c _ a1 a3 h1 h3
      (parseredir_arg_dup sys_open opts _ _ N M _ hN.1 hN.2 hM.1 hM.2)
  · have hb := parseredir_arg_close sys_open opts (1 + a1.length)
      ⟨{ info with redirfds := (-1, -1, -1) }, 0, w⟩ N op a3.head? hop (Or.inr hN)
    rw [if_neg hNne] at hb
    exact parseredir_single sys_open opts info _ w w c _ a1 a3 h1 h3 hb
  · have hb := parseredir_arg_close sys_open opts (1 + a1.length)
      ⟨{ info with redirfds := (-1, -1, -1) }, 0, w⟩ [] op a3.head? hop (Or.inl rfl)
    rw [if_pos rfl, List.nil_append] at hb
    exact parseredir_single sys_open opts info _ w w c _ a1 a3 h1 h3 hb
  · exact parseredir_fails_at sys_open opts info w c _ a1 a3 h1
      (parseredir_arg_amp sys_open opts _ _ pfx ['&'] op _ hop hpfx (by simp))
  · exact parseredir_fails_at sys_open opts info w c _ a1 (['&'] :: a3) h1
      (parseredir_arg_amp sys_open opts _ _ pfx [] op _ hop hpfx (by simp))

/-- Witness of the amended C11 on `cat 2>&1`, `cat 2>&-`, `cat >&-`, `cat 2>&` and
`cat 2> &`. -/
theorem parseredir_descriptor_operands_witness :
    parseredir open_next 0 (command_of ("cat".toList :: ([] ++ ["2".toList ++ '>' :: '&'
          :: "1".toList] ++ []))) ⟨false, (0, 0, 0)⟩ 3
        = (0, cut_command (command_of ("cat".toList :: ([] ++ ["2".toList ++ '>' :: '&'
                :: "1".toList] ++ []))) (1 + ([] : List CStr).length),
            { canexpandpath := false
              redirfds := ((decimal_value "1".toList : Int), (decimal_value "2".toList : Int),
                -1) }, 3)
    ∧ parseredir open_next 0 (command_of ("cat".toList :: ([] ++ ["2".toList ++ '>'
          :: ['&', '-']] ++ []))) ⟨false, (0, 0, 0)⟩ 3
        = (0, cut_command (command_of ("cat".toList :: ([] ++ ["2".toList ++ '>'
                :: ['&', '-']] ++ []))) (1 + ([] : List CStr).length),
            { canexpandpath := false
              redirfds := (-1, -1, (decimal_value "2".toList : Int)) }, 3)
    ∧ parseredir open_next 0 (command_of ("cat".toList :: ([] ++ ['>' :: ['&', '-']] ++ [])))
          ⟨false, (0, 0, 0)⟩ 3
        = (0, cut_command (command_of ("cat".toList :: ([] ++ ['>' :: ['&', '-']] ++ [])))
                (1 + ([] : List CStr).length),
            { canexpandpath := false, redirfds := (-1, -1, if '>' = '<' then 0 else 1) }, 3)
    ∧ (parseredir open_next 0 (command_of ("cat".toList :: ([] ++ ["2".toList ++ '>'
          :: ['&']] ++ []))) ⟨false, (0, 0, 0)⟩ 3).1 = -1
    ∧ (parseredir open_next 0 (command_of ("cat".toList :: ([] ++ ["2".toList ++ ['>']]
          ++ ['&'] :: []))) ⟨false, (0, 0, 0)⟩ 3).1 = -1 :=
  parseredir_descriptor_operands open_next 0 ⟨false, (0, 0, 0)⟩ 3 "cat".toList [] []
    "2".toList "1".toList "2".toList '>' (by decide) ⟨⟨by decide, by decide⟩, by decide⟩
    ⟨⟨by decide, by decide⟩, by decide⟩ (Or.inr rfl) (by decide)

/-! ## The sequence driver -/

theorem outcome_bind_ret {W : Type} {α : Type} (o : outcome W α) :
    o.bind (fun a sh => .ret a sh) = o := by
  cases o <;> rfl

theorem dropWhile_ne_append_cons (pfx r : CStr) (x : Char) (hp : x ∉ pfx) :
    (pfx ++ x :: r).dropWhile (fun d => d != x) = x :: r := by
  induction pfx with
  | nil => simp [List.dropWhile]
  | cons a pfx ih =>
    have ha : (a != x) = true := by
      simp only [bne_iff_ne, ne_eq]
      exact fun h => hp (by simp [h])
    rw [List.cons_append, List.dropWhile_cons, if_pos ha]
    exact ih (fun hc => hp (by simp [hc]))

theorem strchr_append_cons (pfx r : CStr) (x : Char) (hp : x ∉ pfx) :
    strchr (pfx ++ x :: r) x = some (x :: r) := by
  unfold strchr
  rw [dropWhile_ne_append_cons pfx r x hp]

theorem delimit_none (g : CStr) (c : Char) (h : c ∉ g) : delimit g c = none := by
  simp only [delimit, (strchr_eq_none_iff g c).2 h]

theorem delimit_append_cons (g r : CStr) (c : Char) (h : c ∉ g) :
    delimit (g ++ c :: r) c = some (trim_end g, skip_spaces r) := by
  simp only [delimit, strchr_append_cons g r c h, take_length_sub, List.drop_succ_cons,
    List.drop_zero, skip_spaces]

theorem skip_spaces_append (g x : CStr) (h : ∃ c ∈ g, c ≠ ' ') :
    skip_spaces (g ++ x) = skip_spaces g ++ x := by
  induction g with
  | nil => obtain ⟨c, hc, _⟩ := h; exact absurd hc (by simp)
  | cons a g ih =>
    by_cases ha : a = ' '
    · subst ha
      obtain ⟨c, hc, hne⟩ := h
      have hc2 : c ∈ g := by
        rcases List.mem_cons.1 hc with h1 | h1
        · exact absurd h1 hne
        · exact h1
      have := ih ⟨c, hc2, hne⟩
      unfold skip_spaces at this ⊢
      rw [List.cons_append, List.dropWhile_cons, List.dropWhile_cons, if_pos (by rfl),
        if_pos (by rfl)]
      exact this
    · have hb : ¬ ((a == ' ') = true) := by simpa using ha
      unfold skip_spaces
      rw [List.cons_append, List.dropWhile_cons, List.dropWhile_cons, if_neg hb, if_neg hb]
      rfl

theorem skip_spaces_join (g : CStr) (rest : List CStr) (h : ∃ c ∈ g, c ≠ ' ') :
    skip_spaces (join_semicolons g rest) = join_semicolons (skip_spaces g) rest := by
  cases rest with
  | nil => rfl
  | cons g1 rest =>
    simp only [join_semicolons]
    exact skip_spaces_append g _ h

theorem length_join_skip_le (g : CStr) (rest : List CStr) :
    (join_semicolons (skip_spaces g) rest).length ≤ (join_semicolons g rest).length := by
  have hl : (skip_spaces g).length ≤ g.length := (List.dropWhile_sublist _).length_le
  cases rest with
  | nil => exact hl
  | cons g1 rest =>
    simp only [join_semicolons, List.length_append, List.length_cons]
    omega

theorem takecmd_loop_segments {W : Type} (run : CStr → shell W → outcome W Int)
    (rest : List CStr) :
    ∀ (g : CStr) (fuel : Nat) (sh : shell W), ';' ∉ g →
      (∀ t ∈ rest, ';' ∉ t ∧ ∃ c ∈ t, c ≠ ' ') →
      (join_semicolons g rest).length ≤ fuel →
      takecmd_loop run fuel (join_semicolons g rest) (delimit (join_semicolons g rest) ';') sh
        = run_segments run (segment_texts g rest) sh := by
  induction rest with
  | nil =>
    intro g fuel sh hg _ _
    simp only [join_semicolons, segment_texts, run_segments, delimit_none g ';' hg]
    have hr : (takecmd_segment run g sh).bind (fun _ sh1 => outcome.ret () sh1)
        = takecmd_segment run g sh := outcome_bind_ret _
    rw [hr]
    cases fuel <;> rfl
  | cons g1 rest ih =>
    intro g fuel sh hg hrest hfuel
    have h1 := hrest g1 (by simp)
    have hs1 : ';' ∉ skip_spaces g1 := fun hm =>
      h1.1 ((List.dropWhile_sublist _).subset hm)
    simp only [join_semicolons, segment_texts, run_segments,
      delimit_append_cons g _ ';' hg] at hfuel ⊢
    cases fuel with
    | zero => simp at hfuel
    | succ f =>
      simp only [takecmd_loop]
      rw [skip_spaces_join g1 rest h1.2]
      congr 1
      funext _ sh1
      refine ih (skip_spaces g1) f sh1 hs1 (fun t ht => hrest t (by simp [ht])) ?_
      have hle := length_join_skip_le g1 rest
      simp only [List.length_append, List.length_cons] at hfuel
      omega

theorem length_segment_texts (rest : List CStr) :
    ∀ g : CStr, (segment_texts g rest).length = 1 + rest.length := by
  induction rest with
  | nil => intro g; rfl
  | cons g1 rest ih =>
    intro g
    simp only [segment_texts, List.length_cons, ih]
    omega

/-- The function `takecmd` with any function `run` in the place of `exec`,
on a line whose first byte is not a newline, made of the segment `g` and the
segments `rest` separated by `;`, each without `;` and with a byte other
than a space: it is the sequence of one `if (exec(...) < 0)` step per
segment, in order, each on the segment as `delimit` cut it. -/
theorem takecmd_with_segments {W : Type} (run : CStr → shell W → outcome W Int)
    (g : CStr) (rest : List CStr) (sh : shell W)
    (hsegs : ∀ t ∈ g :: rest, ';' ∉ t ∧ ∃ c ∈ t, c ≠ ' ')
    (hnl : g.head? ≠ some '\n') :
    takecmd_with run (join_semicolons g rest) sh
      = run_segments run (segment_texts g rest) sh := by
  obtain ⟨hg, c, hc, _⟩ := hsegs g (by simp)
  have hne : g ≠ [] := List.ne_nil_of_mem hc
  have hhead : (join_semicolons g rest).head? = g.head? := by
    cases g with
    | nil => exact absurd rfl hne
    | cons a l => cases rest <;> rfl
  have hjne : join_semicolons g rest ≠ [] := by
    cases g with
    | nil => exact absurd rfl hne
    | cons a l => cases rest <;> simp [join_semicolons]
  unfold takecmd_with
  rw [if_pos ⟨hjne, by rw [hhead]; exact hnl⟩]
  exact takecmd_loop_segments run rest g _ sh hg (fun t ht => hsegs t (by simp [ht]))
    (le_refl _)

/-- C16 as stated fails on a line that starts with a newline, as `sushi -c`
can be given: on the line made of a newline and `false;false`, whose two
segments each hold a byte other than a space, `takecmd` runs no segment
(line 799 ignores the line as an empty command): no child is forked and the
status stays `0`. On `false;false` it runs both. -/
theorem takecmd_ignores_line_starting_with_newline :
    "\nfalse;false".toList = join_semicolons "\nfalse".toList ["false".toList]
    ∧ takecmd sim0 env_home glob_none "\nfalse;false".toList shell0 = .ret () shell0
    ∧ (takecmd sim0 env_home glob_none "false;false".toList shell0).state.laststatus = 1
    ∧ (takecmd sim0 env_home glob_none "false;false".toList shell0).state.world.nextpid
        = shell0.world.nextpid + 2 := by
  refine ⟨?_, ?_, ?_, ?_⟩ <;> rfl

/-- C16, amended. Failure does not skip later segments, on a line that does
not start with a newline. For a line whose first byte is not a newline, made
of the segment `g` and the segments `rest` separated by `;`, each without
`;` and with a byte other than a space: `takecmd` is the sequence, in order,
of one `if (exec(...) < 0)` step per segment, `1 + rest.length` of them, each
calling `exec` once on the segment as `delimit` cut it, whatever the steps
before returned; and a step whose call of `exec` returns a negative value
leaves `laststatus = lastfail = 125` and the prompt `125 $ ` in the state
the next step starts from. -/
theorem takecmd_runs_every_segment {W : Type} (sys : Sys W) (env : Env) (glob : Glob)
    (g : CStr) (rest : List CStr) (sh : shell W)
    (hsegs : ∀ t ∈ g :: rest, ';' ∉ t ∧ ∃ c ∈ t, c ≠ ' ')
    (hnl : g.head? ≠ some '\n') :
    takecmd sys env glob (join_semicolons g rest) sh
        = run_segments (exec sys env glob) (segment_texts g rest) sh
    ∧ (segment_texts g rest).length = 1 + rest.length
    ∧ ∀ (seg : CStr) (sh0 sh1 : shell W) (r : Int),
        exec sys env glob seg sh0 = .ret r sh1 → r < 0 →
        takecmd_segment (exec sys env glob) seg sh0
          = .ret () { sh1 with laststatus := 125, lastfail := 125,
                               prompt := "125 $ ".toList } := by
  refine ⟨?_, length_segment_texts rest g, ?_⟩
  · unfold takecmd
    exact takecmd_with_segments (exec sys env glob) g rest sh hsegs hnl
  · intro seg sh0 sh1 r hr hneg
    simp only [takecmd_segment, hr, outcome.bind, if_pos hneg]
    rfl

/-- Witness of the amended C16 on the line `cat <in > ; false;true` with a
newline at its end, whose first segment makes `exec` return `-1`. -/
theorem takecmd_runs_every_segment_witness :
    takecmd sim0 env_home glob_none
          (join_semicolons "cat <in > ".toList [" false".toList, "true\n".toList]) shell0
        = run_segments (exec sim0 env_home glob_none)
            (segment_texts "cat <in > ".toList [" false".toList, "true\n".toList]) shell0
    ∧ (segment_texts "cat <in > ".toList [" false".toList, "true\n".toList]).length
        = 1 + [" false".toList, "true\n".toList].length
    ∧ ∀ (seg : CStr) (sh0 sh1 : shell simw) (r : Int),
        exec sim0 env_home glob_none seg sh0 = .ret r sh1 → r < 0 →
        takecmd_segment (exec sim0 env_home glob_none) seg sh0
          = .ret () { sh1 with laststatus := 125, lastfail := 125,
                               prompt := "125 $ ".toList } :=
  takecmd_runs_every_segment sim0 env_home glob_none "cat <in > ".toList
    [" false".toList, "true\n".toList] shell0 (by decide) (by decide)

/-- The line `cat <in > ;false`: `exec` returns `-1` on the first segment (a
redirection without a target), and `takecmd` still runs `false`, in a child,
and ends with the prompt `1 $ `; on `false; cat <in >` the failure comes last
and the shell is left with status 125 and the prompt `125 $ `. -/
theorem takecmd_failure_then_next_segment :
    (exec sim0 env_home glob_none "cat <in >".toList shell0).returned = some (-1)
    ∧ (takecmd sim0 env_home glob_none "cat <in > ;false\n".toList shell0).state.world.nextpid
        = shell0.world.nextpid + 1
    ∧ (takecmd sim0 env_home glob_none "cat <in > ;false\n".toList shell0).state.prompt
        = "1 $ ".toList
    ∧ (takecmd sim0 env_home glob_none "false; cat <in >\n".toList shell0).state.lastfail
        = 125
    ∧ (takecmd sim0 env_home glob_none "false; cat <in >\n".toList shell0).state.laststatus
        = 125
    ∧ (takecmd sim0 env_home glob_none "false; cat <in >\n".toList shell0).state.prompt
        = "125 $ ".toList := by
  refine ⟨?_, ?_, ?_, ?_, ?_, ?_⟩ <;> rfl

/-- The line `a ; b;c` with a function in the place of `exec` that fails on
every segment: the function is called on `a`, `b` and `c` (with its newline),
in this order, and the shell is left with status 125 and the prompt
`125 $ `. -/
theorem takecmd_failing_segments_all_run :
    (takecmd_with run_failing "a ; b;c\n".toList shell0).state.out
        = ["a".toList, "b".toList, "c\n".toList]
    ∧ (takecmd_with run_failing "a ; b;c\n".toList shell0).state.laststatus = 125
    ∧ (takecmd_with run_failing "a ; b;c\n".toList shell0).state.lastfail = 125
    ∧ (takecmd_with run_failing "a ; b;c\n".toList shell0).state.prompt = "125 $ ".toList := by
  refine ⟨?_, ?_, ?_, ?_⟩ <;> rfl

/-! ## Builtins in the shell process -/

theorem builtin_cd_ret {W : Type} (sys : Sys W) (env : Env) (cmd : command) (info : cmdinfo)
    (sh : shell W) :
    ∃ v w, builtin_cd sys env cmd info sh = .ret v { sh with world := w }
      ∧ (v = 0 ∨ v = 1 ∨ v = 125) := by
  unfold builtin_cd
  dsimp only
  repeat' split
  all_goals exact ⟨_, _, rfl, by simp [MISC_FAILURE_STATUS]⟩

theorem builtin_exit_ret {W : Type} (sys : Sys W) (cmd : command) (info : cmdinfo)
    (sh sh1 : shell W) (r : Int) (h : builtin_exit sys cmd info sh = .ret r sh1) :
    r = 0 ∨ r = 1 ∨ r = 125 := by
  unfold builtin_exit at h
  dsimp only at h
  repeat' split at h
  all_goals (cases h; try simp [MISC_FAILURE_STATUS])

theorem builtin_set_ret {W : Type} (sys : Sys W) (cmd : command) (info : cmdinfo)
    (sh sh1 : shell W) (r : Int) (h : builtin_set sys cmd info sh = .ret r sh1) :
    r = 0 ∨ r = 1 ∨ r = 125 := by
  unfold builtin_set at h
  dsimp only at h
  repeat' split at h
  all_goals (cases h; simp [MISC_FAILURE_STATUS])

theorem builtin_type_loop_ret {W : Type} (sys : Sys W) (args : List (Option CStr)) :
    ∀ (ret : Int) (sh : shell W), (ret = 0 ∨ ret = 1) →
      ((builtin_type_loop sys args ret sh).1 = 0 ∨ (builtin_type_loop sys args ret sh).1 = 1) := by
  induction args with
  | nil => intro ret sh h; exact h
  | cons a args ih =>
    intro ret sh h
    cases a with
    | none => exact ih ret sh h
    | some a =>
      simp only [builtin_type_loop]
      split
      · exact ih ret sh h
      · split
        · exact ih ret _ h
        · split
          · exact ih _ _ h
          · exact ih _ _ (Or.inr rfl)

theorem builtin_type_ret {W : Type} (sys : Sys W) (cmd : command) (info : cmdinfo)
    (sh sh1 : shell W) (r : Int) (h : builtin_type sys cmd info sh = .ret r sh1) :
    r = 0 ∨ r = 1 ∨ r = 125 := by
  unfold builtin_type at h
  split at h
  rename_i r0 savefds w1 _
  split at h
  · cases h; simp [MISC_FAILURE_STATUS]
  · have hl := builtin_type_loop_ret sys ((cmd.argv.take cmd.argc).drop 1) 0
      { sh with world := w1 } (Or.inl rfl)
    split at h
    rename_i ret sh2 heq
    rw [heq] at hl
    split at h
    split at h
    · cases h; simp [MISC_FAILURE_STATUS]
    · cases h
      rcases hl with hl | hl
      · exact Or.inl hl
      · exact Or.inr (Or.inl hl)

theorem try_exec_builtin_none {W : Type} (sys : Sys W) (env : Env) (cmd : command)
    (info : cmdinfo) (sh : shell W)
    (h : ∀ name, cmd.argv.head?.bind id = some name → name ∉ builtin_names) :
    try_exec_builtin sys env cmd info sh = .ret 127 sh := by
  unfold try_exec_builtin
  cases hn : cmd.argv.head?.bind id with
  | none => rfl
  | some name =>
    have hb := h name hn
    simp only [builtin_names, List.mem_cons, List.mem_singleton, List.not_mem_nil, or_false,
      not_or] at hb
    simp only [hb.1, hb.2.1, hb.2.2.1, hb.2.2.2, if_false]

theorem try_exec_builtin_ret {W : Type} (sys : Sys W) (env : Env) (cmd : command)
    (info : cmdinfo) (sh sh1 : shell W) (name : CStr) (r : Int)
    (hn : cmd.argv.head?.bind id = some name) (hb : name ∈ builtin_names)
    (h : try_exec_builtin sys env cmd info sh = .ret r sh1) :
    r = 0 ∨ r = 1 ∨ r = 125 := by
  have key : ∀ (o : outcome W Int),
      (∀ r0 sh0, o = .ret r0 sh0 → r0 = 0 ∨ r0 = 1 ∨ r0 = 125) →
      o.bind (fun ret sh2 => outcome.ret ret
        { sh2 with laststatus := ret
                   lastfail := if ret > 0 then ret else sh2.lastfail }) = .ret r sh1 →
      r = 0 ∨ r = 1 ∨ r = 125 := by
    intro o ho hbind
    cases o with
    | ret a sh0 =>
      simp only [outcome.bind] at hbind
      cases hbind
      exact ho _ _ rfl
    | exited s sh0 => cases hbind
    | inchild c sh0 => cases hbind
  unfold try_exec_builtin at h
  simp only [hn] at h
  simp only [builtin_names, List.mem_cons, List.mem_singleton, List.not_mem_nil, or_false] at hb
  split at h
  · refine key _ ?_ h
    intro r0 sh0 h0
    obtain ⟨v, w, hv, hs⟩ := builtin_cd_ret sys env cmd info sh
    rw [hv] at h0
    cases h0
    exact hs
  · split at h
    · exact key _ (fun r0 sh0 h0 => builtin_exit_ret sys cmd info sh sh0 r0 h0) h
    · split at h
      · exact key _ (fun r0 sh0 h0 => builtin_set_ret sys cmd info sh sh0 r0 h0) h
      · split at h
        · exact key _ (fun r0 sh0 h0 => builtin_type_ret sys cmd info sh sh0 r0 h0) h
        · rename_i h1 h2 h3 h4
          rcases hb with hb | hb | hb | hb
          · exact absurd hb h1
          · exact absurd hb h2
          · exact absurd hb h3
          · exact absurd hb h4

/-! ## No builtin calls `fork` -/

theorem start_builtin_redir_fork {W : Type} (sys : Sys W) (f : W → child → Int × W)
    (info : cmdinfo) (w : W) :
    start_builtin_redir { sys with fork := f } info w = start_builtin_redir sys info w := rfl

theorem end_builtin_redir_fork {W : Type} (sys : Sys W) (f : W → child → Int × W)
    (info : cmdinfo) (savefds : Int × Int) (w : W) :
    end_builtin_redir { sys with fork := f } info savefds w
      = end_builtin_redir sys info savefds w := rfl

theorem which_loop_fork {W : Type} (sys : Sys W) (f : W → child → Int × W) (name : CStr)
    (dirs : List CStr) :
    ∀ (b : Bool) (sh : shell W),
      which_loop { sys with fork := f } name dirs b sh = which_loop sys name dirs b sh := by
  induction dirs with
  | nil => intro b sh; rfl
  | cons d ds ih =>
    intro b sh
    simp only [which_loop, ih]

theorem which_fork {W : Type} (sys : Sys W) (f : W → child → Int × W) (name : CStr)
    (sh : shell W) : which { sys with fork := f } name sh = which sys name sh := by
  simp only [which, which_loop_fork]

theorem builtin_type_loop_fork {W : Type} (sys : Sys W) (f : W → child → Int × W)
    (args : List (Option CStr)) :
    ∀ (ret : Int) (sh : shell W),
      builtin_type_loop { sys with fork := f } args ret sh
        = builtin_type_loop sys args ret sh := by
  induction args with
  | nil => intro ret sh; rfl
  | cons a args ih =>
    intro ret sh
    cases a with
    | none => exact ih ret sh
    | some a => simp only [builtin_type_loop, ih, which_fork]

theorem try_exec_builtin_fork {W : Type} (sys : Sys W) (f : W → child → Int × W) (env : Env)
    (cmd : command) (info : cmdinfo) (sh : shell W) :
    try_exec_builtin { sys with fork := f } env cmd info sh
      = try_exec_builtin sys env cmd info sh := by
  have h1 : builtin_cd { sys with fork := f } env cmd info sh = builtin_cd sys env cmd info sh :=
    rfl
  have h2 : builtin_exit { sys with fork := f } cmd info sh = builtin_exit sys cmd info sh :=
    rfl
  have h3 : builtin_set { sys with fork := f } cmd info sh = builtin_set sys cmd info sh :=
    rfl
  have h4 : builtin_type { sys with fork := f } cmd info sh = builtin_type sys cmd info sh := by
    simp only [builtin_type, builtin_type_loop_fork, start_builtin_redir_fork,
      end_builtin_redir_fork]
  simp only [try_exec_builtin, h1, h2, h3, h4]

theorem pipechain_parent_fork {W : Type} (sys : Sys W) (f : W → child → Int × W)
    (info : cmdinfo) (pgid : Int) (rpipe : Option (Int × Int)) (chpid : Int) (ff : Bool)
    (sh : shell W) :
    pipechain_parent { sys with fork := f } info pgid rpipe chpid ff sh
      = pipechain_parent sys info pgid rpipe chpid ff sh := rfl

/-- A stage of a pipeline whose command is a builtin: `pipechain` runs the
builtin in the shell process and goes on as the parent with `chpid = 0`. -/
theorem pipechain_of_builtin {W : Type} (sys : Sys W) (env : Env) (glob : Glob) (s : CStr)
    (pgid : Int) (rpipe wpipe : Option (Int × Int)) (sh : shell W)
    (cmd : command) (info : cmdinfo) (w1 : W) (name : CStr)
    (hargs : exec_args env glob sys.sys_open sh.opts s ⟨false, (-1, -1, -1)⟩ sh.world
      = (some (cmd, info), w1))
    (hn : cmd.argv.head?.bind id = some name) (hb : name ∈ builtin_names) :
    pipechain sys env glob s pgid rpipe wpipe sh
      = (try_exec_builtin sys env cmd info { sh with world := w1 }).bind fun _ sh2 =>
          match pipechain_parent sys info pgid rpipe 0 false sh2 with
          | (v, pg, closethis, sh4) => .ret (v, pg, closethis) sh4 := by
  unfold pipechain
  simp only [hargs]
  cases ht : try_exec_builtin sys env cmd info { sh with world := w1 } with
  | ret r sh2 =>
    have hr := try_exec_builtin_ret sys env cmd info _ sh2 name r hn hb ht
    have h127 : r ≠ 127 := by omega
    simp only [outcome.bind, if_neg h127]
  | exited st sh2 => rfl
  | inchild c sh2 => rfl

/-! ## The stages of a pipeline -/

theorem pipechain_parent_spec {W : Type} (sys : Sys W) (info : cmdinfo) (pgid : Int)
    (rpipe : Option (Int × Int)) (chpid : Int) (ff : Bool) (sh : shell W) :
    ∃ v pg ct w, pipechain_parent sys info pgid rpipe chpid ff sh
        = (v, pg, ct, { sh with world := w })
      ∧ (v = -1 ∨ (v = chpid ∧ ff = false)) := by
  unfold pipechain_parent
  dsimp only
  repeat' split
  all_goals (first
    | exact ⟨_, _, _, _, rfl, Or.inl rfl⟩
    | exact ⟨_, _, _, _, rfl, Or.inr ⟨rfl, by simp_all⟩⟩)

/-- A stage for which `pipechain` returns a positive pid (that of a child it
forked): the variables of the shell are as before the call. -/
theorem pipechain_forked_keeps_shell {W : Type} (sys : Sys W) (env : Env) (glob : Glob)
    (s : CStr) (pgid : Int) (rpipe wpipe : Option (Int × Int)) (sh sh1 : shell W)
    (pid pg ct : Int)
    (h : pipechain sys env glob s pgid rpipe wpipe sh = .ret (pid, pg, ct) sh1)
    (hpid : 0 < pid) : sh1 = { sh with world := sh1.world } := by
  unfold pipechain at h
  split at h
  · cases h
    omega
  · rename_i cmd info w1 _
    by_cases hb : ∃ name, cmd.argv.head?.bind id = some name ∧ name ∈ builtin_names
    · obtain ⟨name, hn, hmem⟩ := hb
      cases ht : try_exec_builtin sys env cmd info { sh with world := w1 } with
      | ret r sh2 =>
        have hr := try_exec_builtin_ret sys env cmd info _ sh2 name r hn hmem ht
        have h127 : r ≠ 127 := by omega
        rw [ht] at h
        simp only [outcome.bind, if_neg h127] at h
        obtain ⟨v, pg1, ct1, w, hp, hv⟩ := pipechain_parent_spec sys info pgid rpipe 0 false sh2
        rw [hp] at h
        cases h
        omega
      | exited st sh2 => rw [ht] at h; cases h
      | inchild c sh2 => rw [ht] at h; cases h
    · have hnone := try_exec_builtin_none sys env cmd info { sh with world := w1 }
        (fun name hn hmem => hb ⟨name, hn, hmem⟩)
      cases hfr : sys.fork w1 ⟨cmd.argv, info.redirfds, rpipe, wpipe, some pgid⟩ with
      | mk chpid w2 =>
        rw [hnone] at h
        simp only [outcome.bind, hfr, if_true] at h
        by_cases hc1 : chpid = -1
        · rw [if_pos hc1] at h
          obtain ⟨v, pg1, ct1, w, hp, hv⟩ :=
            pipechain_parent_spec sys info pgid rpipe chpid true { sh with world := w2 }
          rw [hp] at h
          cases h
          rcases hv with hv | ⟨_, hv⟩
          · omega
          · cases hv
        · rw [if_neg hc1] at h
          by_cases hc0 : chpid = 0
          · rw [if_pos hc0] at h
            cases h
          · rw [if_neg hc0] at h
            obtain ⟨v, pg1, ct1, w, hp, hv⟩ :=
              pipechain_parent_spec sys info pgid rpipe chpid false { sh with world := w2 }
            rw [hp] at h
            cases h
            rfl

theorem report_exited {W : Type} (sys : Sys W) (pid : Int) (sh : shell W) (code : Int) (w : W)
    (hpid : 0 < pid) (hw : sys.waitpid sh.world pid = (.exited code, w)) :
    report sys pid sh
      = { sh with laststatus := code
                  lastfail := if code > 0 then code else sh.lastfail
                  world := w } := by
  unfold report
  rw [if_pos hpid, hw]

theorem close_dup_fields {W : Type} (sys : Sys W) (fd : Int) (sh : shell W) :
    (close_dup sys fd sh).prompt = sh.prompt ∧ (close_dup sys fd sh).lastfail = sh.lastfail
      ∧ (close_dup sys fd sh).laststatus = sh.laststatus := by
  unfold close_dup
  split <;> exact ⟨rfl, rfl, rfl⟩

theorem update_laststatus_fields {W : Type} (v : Int) (sh : shell W) :
    (update_laststatus v sh).lastfail = sh.lastfail
      ∧ (update_laststatus v sh).laststatus = sh.laststatus
      ∧ (update_laststatus v sh).prompt
          = if v > 0 then render_int v ++ ' ' :: defaultprompt else defaultprompt := by
  unfold update_laststatus
  split
  · exact ⟨rfl, rfl, rfl⟩
  · exact ⟨rfl, rfl, rfl⟩

theorem pipeline_chain_last {W : Type} (sys : Sys W) (env : Env) (glob : Glob)
    (cmds : List CStr) (fuel j : Nat) (pgid : Int) (lpipe : Int × Int) (lpid ldup : Int)
    (sh : shell W) (h : ¬ (j < stages_before_last cmds.length)) :
    pipeline_chain sys env glob cmds (fuel + 1) j pgid lpipe lpid ldup sh
      = (pipechain sys env glob (cmds.getD j []) pgid (some lpipe) none sh).bind fun r sh2 =>
          if r.1 < 0 then .ret (-1) sh2
          else pipeline_end sys lpid r.1 ldup r.2.2 sh2 := by
  rw [pipeline_chain, if_neg h]

/-- The end of `pipeline` under the pipefail option when both stages are
children that exit and no failure is on record: the prompt is built from the
status of the last stage when it is positive and else from that of the first
one, and `lastfail` is reset. -/
theorem pipeline_end_pipefail {W : Type} (sys : Sys W) (lpid rpid ldup rdup s0 s1 : Int)
    (sh : shell W) (w3 w4 : W) (hl : 0 < lpid) (hr : 0 < rpid)
    (hw0 : sys.waitpid sh.world lpid = (.exited s0, w3))
    (hw1 : sys.waitpid w3 rpid = (.exited s1, w4))
    (hfg : 0 ≤ sh.term → 0 ≤ (sys.tcsetpgrp w4 sh.term sh.shell_pgid).1)
    (hpf : sh.opts &&& OPT_PIPEFAIL ≠ 0) (hlf : sh.lastfail = 0) :
    ∃ shf, pipeline_end sys lpid rpid ldup rdup sh = .ret 0 shf
      ∧ shf.prompt
          = (update_laststatus (if 0 < s1 then s1 else if 0 < s0 then s0 else 0) sh).prompt
      ∧ shf.lastfail = 0 ∧ shf.laststatus = s1 := by
  have hr0 := report_exited sys lpid sh s0 w3 hl hw0
  have hr1 : report sys rpid (report sys lpid sh)
      = { sh with laststatus := s1
                  lastfail := if 0 < s1 then s1 else if 0 < s0 then s0 else 0
                  world := w4 } := by
    rw [report_exited sys rpid (report sys lpid sh) s1 w4 hr (by rw [hr0]; exact hw1), hr0]
    simp only [hlf, gt_iff_lt]
  cases htc : sys.tcsetpgrp w4 sh.term sh.shell_pgid with
  | mk t w5 =>
    rw [htc] at hfg
    unfold pipeline_end
    rw [hr1]
    by_cases hterm : 0 ≤ sh.term
    · have ht : 0 ≤ t := hfg hterm
      simp only [hterm, if_true, htc, ht, decide_True, Bool.true_eq_false, if_false, hpf,
        ne_eq, not_false_eq_true]
      refine ⟨_, rfl, ?_, ?_, ?_⟩
      · rw [(close_dup_fields sys rdup _).1, (close_dup_fields sys ldup _).1]
        show (update_laststatus _ _).prompt = _
        rw [(update_laststatus_fields _ _).2.2, (update_laststatus_fields _ sh).2.2]
      · rw [(close_dup_fields sys rdup _).2.1, (close_dup_fields sys ldup _).2.1]
      · rw [(close_dup_fields sys rdup _).2.2, (close_dup_fields sys ldup _).2.2]
        show (update_laststatus _ _).laststatus = _
        rw [(update_laststatus_fields _ _).2.1]
    · simp only [hterm, if_false, Bool.true_eq_false, hpf, ne_eq, not_false_eq_true, if_true]
      refine ⟨_, rfl, ?_, ?_, ?_⟩
      · rw [(close_dup_fields sys rdup _).1, (close_dup_fields sys ldup _).1]
        show (update_laststatus _ _).prompt = _
        rw [(update_laststatus_fields _ _).2.2, (update_laststatus_fields _ sh).2.2]
      · rw [(close_dup_fields sys rdup _).2.1, (close_dup_fields sys ldup _).2.1]
      · rw [(close_dup_fields sys rdup _).2.2, (close_dup_fields sys ldup _).2.2]
        show (update_laststatus _ _).laststatus = _
        rw [(update_laststatus_fields _ _).2.1]

/-! ## The claims on pipelines -/

/-- C14 as stated fails on `grep x nofile | false` with the pipefail option
on and no failure on record: `grep` exits with 2 and `false` with 1, the
largest status is 2, and the pipeline leaves the prompt `1 $ `, built by
`update_laststatus` from `lastfail`, which holds the status recorded last. -/
theorem pipeline_pipefail_reports_last_failure :
    (exec sim0 env_home glob_none "grep x nofile".toList shell0).state.laststatus = 2
    ∧ (exec sim0 env_home glob_none "false".toList shell0).state.laststatus = 1
    ∧ ({ shell0 with opts := shell0.opts ||| OPT_PIPEFAIL } : shell simw).opts &&& OPT_PIPEFAIL ≠ 0
    ∧ (exec sim0 env_home glob_none "grep x nofile | false".toList
        { shell0 with opts := shell0.opts ||| OPT_PIPEFAIL }).returned = some 0
    ∧ (exec sim0 env_home glob_none "grep x nofile | false".toList
        { shell0 with opts := shell0.opts ||| OPT_PIPEFAIL }).state.prompt = "1 $ ".toList
    ∧ (exec sim0 env_home glob_none "grep x nofile | false".toList
        { shell0 with opts := shell0.opts ||| OPT_PIPEFAIL }).state.prompt
        ≠ (update_laststatus (max 2 1) shell0).prompt := by
  refine ⟨?_, ?_, ?_, ?_, ?_, ?_⟩ <;> decide

/-- C14, amended. With the pipefail option on, a pipeline of two stages that
are both run as children (`pipechain` returns the pid of a child for each),
started with no failure on record (`lastfail = 0`), whose children exit with
the statuses `s0` and `s1`: `pipeline` returns `0`, and the value it passes to
`update_laststatus` is the status of the failure recorded last, that is `s1`
when it is positive, else `s0` when it is positive, else `0`; `lastfail` is
reset to `0` and `laststatus` holds `s1`. -/
theorem pipeline_pipefail_two_stages {W : Type} (sys : Sys W) (env : Env) (glob : Glob)
    (s c0 c1 : CStr) (sh sh1 sh2 : shell W) (rp : Int × Int) (w1 w3 w4 : W)
    (pid0 pg0 d0 pid1 pg1 d1 s0 s1 : Int)
    (hcmds : pipeline_cmds s.length s (delimit s '|') = [c0, c1])
    (hpipe : sys.pipe sh.world = (rp, w1))
    (h0 : pipechain sys env glob c0 (-1) none (some rp) { sh with world := w1 }
      = .ret (pid0, pg0, d0) sh1)
    (hpid0 : 0 < pid0)
    (h1 : pipechain sys env glob c1 pg0 (some rp) none sh1 = .ret (pid1, pg1, d1) sh2)
    (hpid1 : 0 < pid1)
    (hw0 : sys.waitpid sh2.world pid0 = (.exited s0, w3))
    (hw1 : sys.waitpid w3 pid1 = (.exited s1, w4))
    (hfg : 0 ≤ sh.term → 0 ≤ (sys.tcsetpgrp w4 sh.term sh.shell_pgid).1)
    (hpf : sh.opts &&& OPT_PIPEFAIL ≠ 0) (hlf : sh.lastfail = 0) :
    ∃ shf, pipeline sys env glob s sh = .ret 0 shf
      ∧ shf.prompt
          = (update_laststatus (if 0 < s1 then s1 else if 0 < s0 then s0 else 0) sh).prompt
      ∧ shf.lastfail = 0 ∧ shf.laststatus = s1 := by
  have e1 := pipechain_forked_keeps_shell sys env glob c0 (-1) none (some rp) _ sh1 pid0 pg0 d0
    h0 hpid0
  have e2 := pipechain_forked_keeps_shell sys env glob c1 pg0 (some rp) none sh1 sh2 pid1 pg1 d1
    h1 hpid1
  have e3 : sh2 = { sh with world := sh2.world } := by rw [e2, e1]
  have hn0 : ¬ (pid0 < 0) := by omega
  have hn1 : ¬ (pid1 < 0) := by omega
  have hlast : ¬ (1 < stages_before_last [c0, c1].length) := by
    show ¬ (1 < 0)
    omega
  have hg : [c0, c1].getD 1 [] = c1 := rfl
  have hend := pipeline_end_pipefail sys pid0 pid1 d0 d1 s0 s1 sh2 w3 w4 hpid0 hpid1 hw0 hw1
    (by rw [e3]; exact hfg) (by rw [e3]; exact hpf) (by rw [e3]; exact hlf)
  have hp2 : ∀ v : Int, (update_laststatus v sh2).prompt = (update_laststatus v sh).prompt := by
    intro v
    rw [(update_laststatus_fields v sh2).2.2, (update_laststatus_fields v sh).2.2]
  rw [hp2] at hend
  unfold pipeline
  simp only [hcmds, hpipe, List.getD_cons_zero, h0, outcome.bind, hn0, if_false]
  rw [pipeline_chain_last sys env glob [c0, c1] _ 1 pg0 rp pid0 d0 sh1 hlast]
  simp only [hg, h1, outcome.bind, hn1, if_false]
  exact hend

/-- Witness of the amended C14 on `grep x nofile | false`, where `grep` exits
with 2 and `false` with 1. -/
theorem pipeline_pipefail_two_stages_witness :
    ∃ shf, pipeline sim0 env_home glob_none "grep x nofile | false".toList
          { shell0 with opts := shell0.opts ||| OPT_PIPEFAIL } = .ret 0 shf
      ∧ shf.prompt
          = (update_laststatus (if (0 : Int) < 1 then 1 else if (0 : Int) < 2 then 2 else 0)
              { shell0 with opts := shell0.opts ||| OPT_PIPEFAIL }).prompt
      ∧ shf.lastfail = 0 ∧ shf.laststatus = 1 :=
  pipeline_pipefail_two_stages sim0 env_home glob_none "grep x nofile | false".toList
    "grep x nofile".toList "false".toList { shell0 with opts := shell0.opts ||| OPT_PIPEFAIL }
    (pipechain sim0 env_home glob_none "grep x nofile".toList (-1) none (some (3, 4))
      { shell0 with opts := shell0.opts ||| OPT_PIPEFAIL,
                    world := { shell0.world with fds := [4, 3] } }).state
    (pipechain sim0 env_home glob_none "false".toList 100 (some (3, 4)) none
      (pipechain sim0 env_home glob_none "grep x nofile".toList (-1) none (some (3, 4))
        { shell0 with opts := shell0.opts ||| OPT_PIPEFAIL,
                      world := { shell0.world with fds := [4, 3] } }).state).state
    (3, 4) { shell0.world with fds := [4, 3] }
    { fds := [], cwd := ['/'], children := [(1001, 1)], nextpid := 1002 }
    { fds := [], cwd := ['/'], children := [], nextpid := 1002 }
    1000 100 (-1) 1001 100 (-1) 2 1 rfl rfl rfl (by decide) rfl (by decide) rfl rfl
    (fun _ => by decide) (by decide) rfl

/-- C15 as stated fails on `cd /tmp | true`, `set -o pipefail | true` and
`exit 3 | true`: after the first the working directory of the shell is
`/tmp` and one child has been forked for the two stages, after the second the
pipefail option of the shell is on, and the third ends the shell with
status 3. -/
theorem pipeline_builtin_stage_changes_shell :
    shell0.world.cwd = "/".toList
    ∧ (exec sim0 env_home glob_none "cd /tmp | true".toList shell0).returned = some 0
    ∧ (exec sim0 env_home glob_none "cd /tmp | true".toList shell0).state.world.cwd
        = "/tmp".toList
    ∧ (exec sim0 env_home glob_none "cd /tmp | true".toList shell0).state.world.nextpid
        = shell0.world.nextpid + 1
    ∧ shell0.opts &&& OPT_PIPEFAIL = 0
    ∧ (exec sim0 env_home glob_none "set -o pipefail | true".toList shell0).state.opts
        = shell0.opts ||| OPT_PIPEFAIL
    ∧ (exec sim0 env_home glob_none "exit 3 | true".toList shell0).exit_status = some 3 := by
  refine ⟨?_, ?_, ?_, ?_, ?_, ?_, ?_⟩ <;> rfl

/-- C15, amended. Builtins in pipelines run in the shell process: for a stage
whose command, once parsed, has one of `cd`, `exit`, `set`, `type` as
`argv[0]`, `pipechain` runs the builtin through `try_exec_builtin` in the
shell process and goes on as the parent with `chpid = 0` from the state the
builtin left, so what the builtin did to the shell stays; it forks no child
(what it does is the same whatever `fork` would do), and the pid it returns
is `0`, or `-1` on a failure. -/
theorem pipechain_builtin_runs_in_shell {W : Type} (sys : Sys W) (env : Env) (glob : Glob)
    (s : CStr) (pgid : Int) (rpipe wpipe : Option (Int × Int)) (sh : shell W)
    (cmd : command) (info : cmdinfo) (w1 : W) (name : CStr)
    (hargs : exec_args env glob sys.sys_open sh.opts s ⟨false, (-1, -1, -1)⟩ sh.world
      = (some (cmd, info), w1))
    (hn : cmd.argv.head?.bind id = some name) (hb : name ∈ builtin_names) :
    pipechain sys env glob s pgid rpipe wpipe sh
        = ((try_exec_builtin sys env cmd info { sh with world := w1 }).bind fun _ sh2 =>
            match pipechain_parent sys info pgid rpipe 0 false sh2 with
            | (v, pg, closethis, sh4) => .ret (v, pg, closethis) sh4)
    ∧ (∀ f : W → child → Int × W,
        pipechain { sys with fork := f } env glob s pgid rpipe wpipe sh
          = pipechain sys env glob s pgid rpipe wpipe sh)
    ∧ ∀ (v pg ct : Int) (sh1 : shell W),
        pipechain sys env glob s pgid rpipe wpipe sh = .ret (v, pg, ct) sh1 → v = 0 ∨ v = -1 := by
  have hmain := pipechain_of_builtin sys env glob s pgid rpipe wpipe sh cmd info w1 name hargs
    hn hb
  refine ⟨hmain, ?_, ?_⟩
  · intro f
    rw [hmain, pipechain_of_builtin { sys with fork := f } env glob s pgid rpipe wpipe sh cmd
      info w1 name hargs hn hb, try_exec_builtin_fork]
    rfl
  · intro v pg ct sh1 h
    rw [hmain] at h
    cases ht : try_exec_builtin sys env cmd info { sh with world := w1 } with
    | ret r sh2 =>
      rw [ht] at h
      obtain ⟨v1, pg1, ct1, w, hp, hv⟩ := pipechain_parent_spec sys info pgid rpipe 0 false sh2
      simp only [outcome.bind, hp] at h
      cases h
      rcases hv with hv | ⟨hv, _⟩
      · exact Or.inr hv
      · exact Or.inl hv
    | exited st sh2 => rw [ht] at h; cases h
    | inchild c sh2 => rw [ht] at h; cases h

/-- Witness of the amended C15 on the stage `cd /tmp` of `cd /tmp | true`. -/
theorem pipechain_builtin_runs_in_shell_witness :
    pipechain sim0 env_home glob_none "cd /tmp".toList (-1) none (some (3, 4)) shell0
        = ((try_exec_builtin sim0 env_home (command_of ["cd".toList, "/tmp".toList])
              ⟨false, (-1, -1, -1)⟩ { shell0 with world := shell0.world }).bind fun _ sh2 =>
            match pipechain_parent sim0 ⟨false, (-1, -1, -1)⟩ (-1) none 0 false sh2 with
            | (v, pg, closethis, sh4) => .ret (v, pg, closethis) sh4)
    ∧ (∀ f : simw → child → Int × simw,
        pipechain { sim0 with fork := f } env_home glob_none "cd /tmp".toList (-1) none
            (some (3, 4)) shell0
          = pipechain sim0 env_home glob_none "cd /tmp".toList (-1) none (some (3, 4)) shell0)
    ∧ ∀ (v pg ct : Int) (sh1 : shell simw),
        pipechain sim0 env_home glob_none "cd /tmp".toList (-1) none (some (3, 4)) shell0
          = .ret (v, pg, ct) sh1 → v = 0 ∨ v = -1 :=
  pipechain_builtin_runs_in_shell sim0 env_home glob_none "cd /tmp".toList (-1) none
    (some (3, 4)) shell0 (command_of ["cd".toList, "/tmp".toList]) ⟨false, (-1, -1, -1)⟩
    shell0.world "cd".toList rfl rfl (by decide)

/-! ## Where the arguments are cut, and which lines are pipelines -/

/-- C21. The arguments are cut at the last redirection token, not the first:
on the line `cat <in >out` (both files open, clobber off) the command handed
to execution has `argc = 2` and `argv = [cat, <in, NULL]`, so the token `<in`
is passed to `cat` as an argument; the first token with `<` or `>` is at
index 1. On `cat <in` and on `cat <in -n`, with one redirection token, the
cut is at index 1. -/
theorem parseredir_cuts_at_last_redirection :
    (exec_args env_home glob_none open_next 0 "cat <in >out".toList
        ⟨false, (-1, -1, -1)⟩ 3).1.map (fun r => (r.1.argc, r.1.argv.take 3))
      = some (2, [some "cat".toList, some "<in".toList, none])
    ∧ (exec_args env_home glob_none open_next 0 "cat <in".toList
        ⟨false, (-1, -1, -1)⟩ 3).1.map (fun r => (r.1.argc, r.1.argv.take 2))
      = some (1, [some "cat".toList, none])
    ∧ (exec_args env_home glob_none open_next 0 "cat <in -n".toList
        ⟨false, (-1, -1, -1)⟩ 3).1.map (fun r => (r.1.argc, r.1.argv.take 2))
      = some (1, [some "cat".toList, none]) := by
  refine ⟨?_, ?_, ?_⟩ <;> rfl

theorem strchr_some_split (s r : CStr) (c : Char) (h : strchr s c = some r) :
    ∃ pre post, s = pre ++ c :: post ∧ c ∉ pre ∧ r = c :: post := by
  unfold strchr at h
  have hsplit := List.takeWhile_append_dropWhile (fun d => d != c) s
  cases hd : s.dropWhile (fun d => d != c) with
  | nil => rw [hd] at h; cases h
  | cons a post =>
    rw [hd] at h hsplit
    cases h
    have ha : a = c := by
      have := List.head_dropWhile_not (fun d => d != c) s (by rw [hd]; simp)
      simp only [hd, List.head_cons] at this
      simpa using this
    subst ha
    refine ⟨s.takeWhile (fun d => d != a), post, hsplit.symm, ?_, rfl⟩
    intro hm
    have := List.mem_takeWhile_imp hm
    simp at this

/-- C22 as stated fails on `echo a\|b`, whose only `|` is escaped: `exec`
hands the line to `pipeline`, not to the single-command branch, `pipeline`
splits it into the stages `echo a\` and `b`, and two children are forked.
The line `echo a|b` is handled the same way. -/
theorem exec_escaped_bar_goes_to_pipeline :
    exec sim0 env_home glob_none "echo a\\|b".toList shell0
        = pipeline sim0 env_home glob_none "echo a\\|b".toList shell0
    ∧ exec sim0 env_home glob_none "echo a\\|b".toList shell0
        ≠ exec_single sim0 env_home glob_none "echo a\\|b".toList shell0
    ∧ pipeline_cmds "echo a\\|b".length "echo a\\|b".toList
        (delimit "echo a\\|b".toList '|') = ["echo a\\".toList, "b".toList]
    ∧ (exec sim0 env_home glob_none "echo a\\|b".toList shell0).state.world.nextpid
        = shell0.world.nextpid + 2
    ∧ (exec sim0 env_home glob_none "echo a|b".toList shell0).state.world.nextpid
        = shell0.world.nextpid + 2 := by
  refine ⟨rfl, ?_, rfl, rfl, rfl⟩
  intro h
  have h2 := congrArg (fun o => o.state.world.nextpid) h
  revert h2
  decide

/-- The test at the head of `exec` on a line whose first `|` follows the bytes
`p`. -/
theorem exec_is_pipeline_append_bar (p q : CStr) (hp : '|' ∉ p) :
    exec_is_pipeline (p ++ '|' :: q) = decide (p ≠ [] ∧ p.getLast? ≠ some '>') := by
  unfold exec_is_pipeline
  rw [strchr_append_cons p q '|' hp]
  simp only [take_length_sub]

/-- C22, amended. Pipeline dispatch looks at no backslash. A segment without
`|` is handled as a single command; a segment whose first `|` comes right
after a byte other than `>`, a backslash or any other, is handled as a
pipeline (`exec` is `pipeline(s)`), whatever follows that `|`; a segment
whose only `|` is the `|` of `>|`, or its first byte, is handled as a single
command. (Segments that hold a further `|` after a first one that is their
first byte or part of `>|` are left out.) -/
theorem exec_pipeline_dispatch {W : Type} (sys : Sys W) (env : Env) (glob : Glob)
    (sh : shell W) (t p q r : CStr) (c : Char)
    (ht : '|' ∉ t) (hp : '|' ∉ p) (_hq : '|' ∉ q) (hc : c ≠ '>' ∧ c ≠ '|') :
    exec sys env glob t sh = exec_single sys env glob t sh
    ∧ exec sys env glob (p ++ c :: '|' :: r) sh = pipeline sys env glob (p ++ c :: '|' :: r) sh
    ∧ exec sys env glob (p ++ '\\' :: '|' :: r) sh
        = pipeline sys env glob (p ++ '\\' :: '|' :: r) sh
    ∧ exec sys env glob (p ++ '>' :: '|' :: q) sh
        = exec_single sys env glob (p ++ '>' :: '|' :: q) sh
    ∧ exec sys env glob ('|' :: q) sh = exec_single sys env glob ('|' :: q) sh := by
  have hlast : ∀ (d : Char), (p ++ [d]).getLast? = some d := by
    intro d
    simp
  have hafter : ∀ (d : Char) (x : CStr), d ≠ '|' →
      exec_is_pipeline (p ++ d :: '|' :: x) = decide (d ≠ '>') := by
    intro d x hd
    have hpd : '|' ∉ p ++ [d] := by
      simp only [List.mem_append, List.mem_singleton, not_or]
      exact ⟨hp, fun h => hd h.symm⟩
    have h := exec_is_pipeline_append_bar (p ++ [d]) x hpd
    rw [List.append_assoc, List.singleton_append] at h
    rw [h, hlast]
    simp
  refine ⟨?_, ?_, ?_, ?_, ?_⟩
  · unfold exec
    rw [exec_is_pipeline_of_no_bar t ht]
    rfl
  · unfold exec
    rw [hafter c r hc.2, decide_eq_true hc.1, if_pos rfl]
  · unfold exec
    rw [hafter '\\' r (by decide), if_pos (by decide)]
  · unfold exec
    rw [hafter '>' q (by decide)]
    rfl
  · have h := exec_is_pipeline_append_bar [] q (by simp)
    rw [List.nil_append] at h
    unfold exec
    rw [h]
    rfl

/-- Witness of the amended C22 on the segments `ls -l`, `cat x|wc | sort`,
`cat \|wc | sort`, `cat >|out` and `|out`. -/
theorem exec_pipeline_dispatch_witness :
    exec sim0 env_home glob_none "ls -l".toList shell0
        = exec_single sim0 env_home glob_none "ls -l".toList shell0
    ∧ exec sim0 env_home glob_none ("cat ".toList ++ 'x' :: '|' :: "wc | sort".toList) shell0
        = pipeline sim0 env_home glob_none ("cat ".toList ++ 'x' :: '|' :: "wc | sort".toList)
            shell0
    ∧ exec sim0 env_home glob_none ("cat ".toList ++ '\\' :: '|' :: "wc | sort".toList) shell0
        = pipeline sim0 env_home glob_none
            ("cat ".toList ++ '\\' :: '|' :: "wc | sort".toList) shell0
    ∧ exec sim0 env_home glob_none ("cat ".toList ++ '>' :: '|' :: "out".toList) shell0
        = exec_single sim0 env_home glob_none ("cat ".toList ++ '>' :: '|' :: "out".toList)
            shell0
    ∧ exec sim0 env_home glob_none ('|' :: "out".toList) shell0
        = exec_single sim0 env_home glob_none ('|' :: "out".toList) shell0 :=
  exec_pipeline_dispatch sim0 env_home glob_none shell0 "ls -l".toList "cat ".toList
    "out".toList "wc | sort".toList 'x' (by decide) (by decide) (by decide) (by decide)

end Sushi
